import Mathlib

/-!
# Piano PIR client: hint store and online query

A shallow embedding of `experiment/pir/piano/client.cc` (class
`QueryServiceClient`) together with the properties of its hint store.

Conventions of the embedding.

* `std::vector` is a `List`; a read `v[i]` is `v.getD i default`, a write
  `v[i] = a` is `v.set i a`.  The C++ program has undefined behaviour on an
  index out of range and on a division by zero, where `OnlineSingleQuery`
  reads a default value, writes nothing and divides as Lean does.
  `OnlineSingleQueryDefined` says when every subscript and every division of a
  call is defined and `OnlineSingleQueryChecked` is the call as a partial
  function; `WellFormed_defined` and `WellFormed_session` show that every call
  of a session for an index `< C*S` is defined.
* `uint64_t` values are natural numbers.  The dummy set of `SendDummySet`, the
  set counts of `Initialize` and the test of the `PPS` constructor are computed
  modulo `2^64` (`u64`).  The index sums `offset + i * chunk_size` of
  `FetchFullDB` and of the expanded sets, and the sums
  `primary_set_num + thread_num` and `total_backup_set_num + thread_num`, are
  taken in `ℕ`: they are the 64-bit values of the program when
  `chunk_size * set_size ≤ 2^64`, which the theorems about the values of the
  indices on the wire and in the replacement groups assume.  The 32-bit tag
  counter of `InitializeLocalSets` does wrap and is reduced modulo `2^32`.
* The workers of `FetchFullDB` are run one after the other, in the order of
  their creation.
* A byte buffer is a `List Nat`, one number per byte.
* The keyed PRF `PRFEvalWithLongKeyAndTag(long_key_, tag, chunk)` is declared
  in `util.h`, which is not part of the sources; it is the parameter `prf`.
* The transport is an event log: what the client sends and receives, in
  order.  What `Recv` returns is a parameter of the operation that reads it.
* Each `yacl::crypto::Prg` instance is a parameter `rnd` giving its outputs in
  the order they are drawn.
-/

namespace Piano

/-! ## DBEntry -/

/-- A database entry: a buffer of `entry_size` bytes. -/
abbrev DBEntry := List Nat

/-- Modelled from the spec: `DBEntry::ZeroEntry` is declared in `util.h`, which
is missing from the sources.  "`zero()` — new zeroed entry" of `E` bytes. -/
def ZeroEntry (E : Nat) : DBEntry := List.replicate E 0

/-- Modelled from the spec: `DBEntry::DBEntryFromSlice` is declared in
`util.h`, which is missing from the sources.  "`from_slice(bytes[0..E])` — copy
constructor". -/
def DBEntryFromSlice (slice : List Nat) : DBEntry := slice

/-- Modelled from the spec: `DBEntry::Xor` is declared in `util.h`, which is
missing from the sources.  "`xor(other)` — in-place XOR with another DBEntry",
byte by byte. -/
def Xor (a other : DBEntry) : DBEntry := List.zipWith (fun u v => u ^^^ v) a other

/-- Modelled from the spec: `DBEntry::XorFromRaw` is declared in `util.h`,
which is missing from the sources.  "`xor_raw(ptr)` — in-place XOR with `E`
bytes at `ptr`".  The pointer `&buf[pos]` is the pair of the buffer and the
position; as many bytes are read as the entry has. -/
def XorFromRaw (a : DBEntry) (buf : List Nat) (pos : Nat) : DBEntry :=
  List.zipWith (fun u v => u ^^^ v) a (buf.drop pos)

/-- The `E` bytes of `buf` that start at byte `pos`: what
`std::memcpy(entry_slice.data(), &buf[pos], E)` copies. -/
def sliceAt (buf : List Nat) (pos E : Nat) : List Nat := (buf.drop pos).take E

/-! ## PRF sets -/

/-- The offset inside chunk `chunk_id` of the set with tag `tag`:
`PRFEvalWithLongKeyAndTag(long_key_, tag, chunk_id) & (chunk_size_ - 1)`. -/
def offset (prf : Nat → Nat → Nat) (chunk_size tag chunk_id : Nat) : Nat :=
  prf tag chunk_id &&& (chunk_size - 1)

/-- Modelled from the spec: `PRFSetWithShortTag::MemberTestWithLongKey` is
declared in `util.h`, which is missing from the sources.  "returns true iff
`offset(tag, chunk_id) == query_offset`". -/
def MemberTestWithLongKey (prf : Nat → Nat → Nat) (tag chunk_id query_offset chunk_size : Nat) :
    Bool :=
  offset prf chunk_size tag chunk_id == query_offset

/-- Modelled from the spec: `PRFSetWithShortTag::ExpandWithLongKey` is declared
in `util.h`, which is missing from the sources.  "produces the full set,
element `i` = `offset(tag, i) + i·C`". -/
def ExpandWithLongKey (prf : Nat → Nat → Nat) (tag set_size chunk_size : Nat) : List Nat :=
  (List.range set_size).map (fun i => offset prf chunk_size tag i + i * chunk_size)

/-! ## Data model -/

/-- The fields of `QueryServiceClient` that `Initialize` fixes. -/
structure Params where
  entry_size : Nat
  thread_num : Nat
  chunk_size : Nat
  set_size : Nat
  primary_set_num : Nat
  backup_set_num_per_chunk : Nat
  total_backup_set_num : Nat
deriving DecidableEq

/-- A primary set, `LocalSet`; the fields in the order of the constructor call
`emplace_back(tag_counter, ZeroEntry, 0, false)`. -/
structure LocalSet where
  tag : Nat
  parity : DBEntry
  programmed_point : Nat
  is_programmed : Bool
deriving DecidableEq

instance : Inhabited LocalSet := ⟨⟨0, [], 0, false⟩⟩

/-- A backup set, `LocalBackupSet`. -/
structure LocalBackupSet where
  tag : Nat
  parity_after_puncture : DBEntry
deriving DecidableEq

instance : Inhabited LocalBackupSet := ⟨⟨0, []⟩⟩

/-- A group of backup sets, `LocalBackupSetGroup`.  The C++ group holds
references into `local_backup_sets_`; `sets` holds the positions they point
to. -/
structure LocalBackupSetGroup where
  consumed : Nat
  sets : List Nat
deriving DecidableEq

instance : Inhabited LocalBackupSetGroup := ⟨⟨0, []⟩⟩

/-- A group of replacements, `LocalReplacementGroup`. -/
structure LocalReplacementGroup where
  consumed : Nat
  indices : List Nat
  values : List DBEntry
deriving DecidableEq

instance : Inhabited LocalReplacementGroup := ⟨⟨0, [], []⟩⟩

/-- The hint store: the mutable fields of `QueryServiceClient`.  The two maps
are functions from a key to the value stored under it, if any. -/
structure HintStore where
  primary_sets : List LocalSet
  local_backup_sets : List LocalBackupSet
  local_backup_set_groups : List LocalBackupSetGroup
  local_replacement_groups : List LocalReplacementGroup
  local_cache : Nat → Option DBEntry
  local_miss_elements : Nat → Option DBEntry

/-- The assignment `m[k] = v` of a map. -/
def mapInsert (m : Nat → Option DBEntry) (k : Nat) (v : DBEntry) : Nat → Option DBEntry :=
  fun y => if y = k then some v else m y

/-- What the transport sees. -/
inductive Event where
  | sendFetchFullDB : Event
  | recvDBChunk : Event
  | sendSetParityQuery : List Nat → Event
  | recvSetParityResponse : Event
deriving DecidableEq

/-! ## InitializeLocalSets -/

/-- The function `QueryServiceClient::InitializeLocalSets`.  The tag counter is
a `uint32_t`: the `j`-th primary set gets tag `j mod 2^32` and the `i`-th
backup set gets `(primary_set_num + i) mod 2^32`. -/
def InitializeLocalSets (p : Params) : HintStore :=
  { primary_sets :=
      (List.range p.primary_set_num).map
        (fun j => { tag := j % 2 ^ 32, parity := ZeroEntry p.entry_size,
                    programmed_point := 0, is_programmed := false })
    local_backup_sets :=
      (List.range p.total_backup_set_num).map
        (fun i => { tag := (p.primary_set_num + i) % 2 ^ 32,
                    parity_after_puncture := ZeroEntry p.entry_size })
    local_backup_set_groups :=
      (List.range p.set_size).map
        (fun i => { consumed := 0,
                    sets := (List.range p.backup_set_num_per_chunk).map
                      (fun j => i * p.backup_set_num_per_chunk + j) })
    local_replacement_groups :=
      (List.range p.set_size).map
        (fun _ => { consumed := 0,
                    indices := List.replicate p.backup_set_num_per_chunk 0,
                    values := List.replicate p.backup_set_num_per_chunk [] })
    local_cache := fun _ => none
    local_miss_elements := fun _ => none }

/-! ## FetchFullDB -/

/-- One iteration of the loop over the primary sets of a worker (lines
132-141): mark the offset in `hit_map` and XOR the entry at that offset of the
chunk into the parity of primary set `j`. -/
def primaryStep (p : Params) (prf : Nat → Nat → Nat) (db_chunk : List Nat) (i : Nat)
    (acc : List LocalSet × List Bool) (j : Nat) : List LocalSet × List Bool :=
  let pset := acc.1.getD j default
  let off := offset prf p.chunk_size pset.tag i
  (acc.1.set j { pset with parity := XorFromRaw pset.parity db_chunk (off * p.entry_size) },
   acc.2.set off true)

/-- One iteration of the loop over the backup sets of a worker (lines
144-154): skipped when backup set `j` belongs to the group of chunk `i`. -/
def backupStep (p : Params) (prf : Nat → Nat → Nat) (db_chunk : List Nat) (i : Nat)
    (bs : List LocalBackupSet) (j : Nat) : List LocalBackupSet :=
  if j < i * p.backup_set_num_per_chunk ∨ j ≥ (i + 1) * p.backup_set_num_per_chunk then
    let bset := bs.getD j default
    let off := offset prf p.chunk_size bset.tag i
    bs.set j
      { bset with
        parity_after_puncture :=
          XorFromRaw bset.parity_after_puncture db_chunk (off * p.entry_size) }
  else bs

/-- The indices `start, start + 1, ..., end - 1` of a `for` loop. -/
def loopRange (start stop : Nat) : List Nat := List.range' start (stop - start)

/-- The body of worker `tid` for chunk `i` (lines 120-155). -/
def worker (p : Params) (prf : Nat → Nat → Nat) (db_chunk : List Nat) (i : Nat)
    (acc : (List LocalSet × List Bool) × List LocalBackupSet) (tid : Nat) :
    (List LocalSet × List Bool) × List LocalBackupSet :=
  let primary_set_per_thread := (p.primary_set_num + p.thread_num - 1) / p.thread_num
  let backup_set_per_thread := (p.total_backup_set_num + p.thread_num - 1) / p.thread_num
  let start_index := tid * primary_set_per_thread
  let end_index := min (start_index + primary_set_per_thread) p.primary_set_num
  let start_index_backup := tid * backup_set_per_thread
  let end_index_backup := min (start_index_backup + backup_set_per_thread) p.total_backup_set_num
  ((loopRange start_index end_index).foldl (primaryStep p prf db_chunk i) acc.1,
   (loopRange start_index_backup end_index_backup).foldl (backupStep p prf db_chunk i) acc.2)

/-- One iteration of the loop that records the local misses (lines 167-175). -/
def missStep (p : Params) (db_chunk : List Nat) (i : Nat) (hit_map : List Bool)
    (m : Nat → Option DBEntry) (j : Nat) : Nat → Option DBEntry :=
  if !(hit_map.getD j false) then
    mapInsert m (j + i * p.chunk_size)
      (DBEntryFromSlice (sliceAt db_chunk (j * p.entry_size) p.entry_size))
  else m

/-- One iteration of the loop that stores the replacements of chunk `i` (lines
179-188); `rnd k` is the `k`-th output of the chunk's PRG.  The index
`offset + i * chunk_size_` of line 182 is taken in `ℕ`; it is the 64-bit value
of the program when `0 < chunk_size`, `i < set_size` and
`chunk_size * set_size ≤ 2^64`. -/
def replacementStep (p : Params) (db_chunk : List Nat) (rnd : Nat → Nat) (i : Nat)
    (gs : List LocalReplacementGroup) (k : Nat) : List LocalReplacementGroup :=
  let off := rnd k &&& (p.chunk_size - 1)
  let g := gs.getD i default
  let g1 := { g with indices := g.indices.set k (off + i * p.chunk_size) }
  gs.set i
    { g1 with
      values :=
        g1.values.set k (DBEntryFromSlice (sliceAt db_chunk (off * p.entry_size) p.entry_size)) }

/-- The body of the loop of `FetchFullDB` for chunk `i` (lines 104-189).  The
workers are run one after the other, in the order of their creation; they write
to disjoint sets, and to `hit_map` under a mutex. -/
def processChunk (p : Params) (prf : Nat → Nat → Nat) (db_chunk : List Nat) (rnd : Nat → Nat)
    (st : HintStore) (i : Nat) : HintStore :=
  let hit_map := List.replicate p.chunk_size false
  let joined := (List.range p.thread_num).foldl (worker p prf db_chunk i)
    ((st.primary_sets, hit_map), st.local_backup_sets)
  { st with
    primary_sets := joined.1.1
    local_backup_sets := joined.2
    local_miss_elements :=
      (List.range p.chunk_size).foldl (missStep p db_chunk i joined.1.2) st.local_miss_elements
    local_replacement_groups :=
      (List.range p.backup_set_num_per_chunk).foldl (replacementStep p db_chunk rnd i)
        st.local_replacement_groups }

/-- The function `QueryServiceClient::FetchFullDB`: `chunks i` is the `i`-th
`DBChunk` message received and `rnd i` the PRG seeded for chunk `i`. -/
def FetchFullDB (p : Params) (prf : Nat → Nat → Nat) (chunks : Nat → List Nat)
    (rnd : Nat → Nat → Nat) (st : HintStore) : HintStore :=
  (List.range p.set_size).foldl (fun st i => processChunk p prf (chunks i) (rnd i) st i) st

/-! ## Online queries -/

/-- The value of a `uint64_t` expression: reduction modulo `2^64`. -/
def u64 (n : Nat) : Nat := n % 2 ^ 64

/-- The index list of `QueryServiceClient::SendDummySet` (lines 195-199):
element `i` is `prg() % chunk_size_ + i * chunk_size_` in 64-bit unsigned
arithmetic. -/
def dummySet (p : Params) (rnd : Nat → Nat) : List Nat :=
  (List.range p.set_size).map (fun i => u64 (rnd i % p.chunk_size + u64 (i * p.chunk_size)))

/-- The function `QueryServiceClient::SendDummySet`: one send, one receive;
the response is dropped. -/
def SendDummySet (p : Params) (rnd : Nat → Nat) : List Event :=
  [Event.sendSetParityQuery (dummySet p rnd), Event.recvSetParityResponse]

/-- The condition of the linear scan (lines 228-233) on one primary set. -/
def isHit (p : Params) (prf : Nat → Nat → Nat) (x : Nat) (pset : LocalSet) : Bool :=
  let query_offset := x % p.chunk_size
  let chunk_id := x / p.chunk_size
  let is_programmed_match :=
    pset.is_programmed && (chunk_id == pset.programmed_point / p.chunk_size)
  !is_programmed_match && MemberTestWithLongKey prf pset.tag chunk_id query_offset p.chunk_size

/-- The linear scan for a hit set (lines 221-237): the first position that
satisfies the condition; `none` stands for the sentinel
`numeric_limits<uint64_t>::max()`. -/
def findHitSet (p : Params) (prf : Nat → Nat → Nat) (st : HintStore) (x : Nat) : Option Nat :=
  (List.range p.primary_set_num).find? (fun i => isHit p prf x (st.primary_sets.getD i default))

/-- The expanded set of a primary set with the programmed point written in
(lines 254-263). -/
def expandProgrammed (p : Params) (prf : Nat → Nat → Nat) (pset : LocalSet) : List Nat :=
  let expanded_set := ExpandWithLongKey prf pset.tag p.set_size p.chunk_size
  if pset.is_programmed then
    expanded_set.set (pset.programmed_point / p.chunk_size) pset.programmed_point
  else expanded_set

/-- The function `QueryServiceClient::OnlineSingleQuery`.  `resp` gives the
payload of the `SetParityResponse` received after a `SetParityQuery` was sent
and `rnd` the PRG of the dummy set.  The result is the returned entry, the hint
store after the call and what the transport saw.  The function is total: where
the C++ call is undefined (`OnlineSingleQueryDefined` below is false) a vector
read gives a default value; `OnlineSingleQueryChecked` is the partial
function. -/
def OnlineSingleQuery (p : Params) (prf : Nat → Nat → Nat) (resp : List Nat → List Nat)
    (rnd : Nat → Nat) (x : Nat) (st : HintStore) : DBEntry × HintStore × List Event :=
  match st.local_cache x with
  | some cached => (cached, st, SendDummySet p rnd)
  | none =>
    let chunk_id := x / p.chunk_size
    match findHitSet p prf st x with
    | none =>
      match st.local_miss_elements x with
      | none => (ZeroEntry p.entry_size, st, SendDummySet p rnd)
      | some val =>
        (val, { st with local_cache := mapInsert st.local_cache x val }, SendDummySet p rnd)
    | some hit_set_id =>
      let hit := st.primary_sets.getD hit_set_id default
      let expanded_set := expandProgrammed p prf hit
      let rgroup := st.local_replacement_groups.getD chunk_id default
      let next_available := rgroup.consumed
      if next_available = p.backup_set_num_per_chunk then
        (ZeroEntry p.entry_size, st, SendDummySet p rnd)
      else
        let replace_index := rgroup.indices.getD next_available 0
        let replace_value := rgroup.values.getD next_available []
        let rgroups := st.local_replacement_groups.set chunk_id
          { rgroup with consumed := rgroup.consumed + 1 }
        let sent := expanded_set.set chunk_id replace_index
        let events := [Event.sendSetParityQuery sent, Event.recvSetParityResponse]
        let parity := resp sent
        let val := Xor (XorFromRaw hit.parity parity 0) replace_value
        let cache := mapInsert st.local_cache x val
        let bgroup := st.local_backup_set_groups.getD chunk_id default
        if bgroup.consumed = p.backup_set_num_per_chunk then
          (val, { st with local_replacement_groups := rgroups, local_cache := cache }, events)
        else
          let consumed := bgroup.consumed
          let bk := st.local_backup_sets.getD (bgroup.sets.getD consumed 0) default
          let refreshed : LocalSet :=
            { tag := bk.tag, parity := Xor val bk.parity_after_puncture,
              programmed_point := x, is_programmed := true }
          (val,
           { st with
             primary_sets := st.primary_sets.set hit_set_id refreshed
             local_backup_set_groups := st.local_backup_set_groups.set chunk_id
               { bgroup with consumed := bgroup.consumed + 1 }
             local_replacement_groups := rgroups
             local_cache := cache },
           events)

/-- The environment of one online call: the index asked for, the PRG of its
dummy set and what the server answers to a `SetParityQuery`. -/
structure Call where
  x : Nat
  rnd : Nat → Nat
  resp : List Nat → List Nat

/-- The function `QueryServiceClient::OnlineMultipleQueries`: the queries are
made one after the other; the results, the final hint store and the transport
log are returned. -/
def OnlineMultipleQueries (p : Params) (prf : Nat → Nat → Nat) :
    List Call → HintStore → List DBEntry × HintStore × List Event
  | [], st => ([], st, [])
  | c :: cs, st =>
    let r := OnlineSingleQuery p prf c.resp c.rnd c.x st
    let rest := OnlineMultipleQueries p prf cs r.2.1
    (r.1 :: rest.1, rest.2.1, r.2.2 ++ rest.2.2)

/-! ## Database and server -/

/-- The database entry at absolute index `y`, read off the chunks the server
streams: entry `k` of a chunk is at byte offset `k * E`. -/
def DB (p : Params) (chunks : Nat → List Nat) (y : Nat) : DBEntry :=
  sliceAt (chunks (y / p.chunk_size)) (y % p.chunk_size * p.entry_size) p.entry_size

/-- The XOR of a list of entries of `E` bytes, accumulated from the zero
entry. -/
def xorAll (E : Nat) (entries : List DBEntry) : DBEntry :=
  entries.foldl Xor (ZeroEntry E)

/-- Modelled from the spec: the server's `ProcessSetParityQuery` is not part of
the sources (only its declaration in `server.h`).  "On receipt of
`SetParityQuery([i₀..i_{S-1}])`, the server returns `SetParityResponse =
XOR_k DB[i_k]`." -/
def honestServer (E : Nat) (db : Nat → DBEntry) (indices : List Nat) : List Nat :=
  xorAll E (indices.map db)

/-! ## Names used in the statements -/

/-- The index list a real query sends: the expanded hit set with the element
of the queried chunk replaced by the next replacement index. -/
def sentSet (p : Params) (prf : Nat → Nat → Nat) (st : HintStore) (x hit_set_id : Nat) : List Nat :=
  let rgroup := st.local_replacement_groups.getD (x / p.chunk_size) default
  (expandProgrammed p prf (st.primary_sets.getD hit_set_id default)).set (x / p.chunk_size)
    (rgroup.indices.getD rgroup.consumed 0)

/-- The value a real query recovers (lines 289-291). -/
def recovered (p : Params) (prf : Nat → Nat → Nat) (resp : List Nat → List Nat) (st : HintStore)
    (x hit_set_id : Nat) : DBEntry :=
  let rgroup := st.local_replacement_groups.getD (x / p.chunk_size) default
  Xor (XorFromRaw (st.primary_sets.getD hit_set_id default).parity
    (resp (sentSet p prf st x hit_set_id)) 0) (rgroup.values.getD rgroup.consumed [])

/-! ## A small concrete session

Two chunks of two one-byte entries, two primary sets and two backup sets per
chunk, one worker.  Entry `y` of the database is the byte `10 + y`. -/

/-- Parameters of the example: `E = 1`, `T = 1`, `C = 2`, `S = 2`, `M1 = 2`,
`M2 = 2`. -/
def exParams : Params :=
  { entry_size := 1, thread_num := 1, chunk_size := 2, set_size := 2, primary_set_num := 2,
    backup_set_num_per_chunk := 2, total_backup_set_num := 4 }

/-- A PRF for the example: tags 1 and 2 select offset 1 in every chunk, every
other tag selects offset 0. -/
def exPrf (tag _chunk_id : Nat) : Nat :=
  if tag = 1 ∨ tag = 2 then 1 else 0

/-- The chunks of the example database. -/
def exChunks (i : Nat) : List Nat := [10 + 2 * i, 11 + 2 * i]

/-- The entries of the example database. -/
def exDB (y : Nat) : DBEntry := [10 + y]

/-- The hint store of the example after preprocessing; every replacement
offset drawn is 0. -/
def exStore : HintStore :=
  FetchFullDB exParams exPrf exChunks (fun _ _ => 0) (InitializeLocalSets exParams)

/-- A call of the example: index `x`, a dummy PRG that always draws 0 and the
honest server. -/
def exCall (x : Nat) : Call :=
  { x := x, rnd := fun _ => 0, resp := honestServer exParams.entry_size (DB exParams exChunks) }

/-- The example with a single backup set per chunk, `M2 = 1`. -/
def exParamsOne : Params :=
  { exParams with backup_set_num_per_chunk := 1, total_backup_set_num := 2 }

/-- The hint store of the `M2 = 1` example after preprocessing. -/
def exStoreOne : HintStore :=
  FetchFullDB exParamsOne exPrf exChunks (fun _ _ => 0) (InitializeLocalSets exParamsOne)

/-- The hint store of the `M2 = 1` example after index 0 was queried: the only
replacement of chunk 0 is consumed. -/
def exStoreOneUsed : HintStore :=
  (OnlineSingleQuery exParamsOne exPrf (honestServer 1 exDB) (fun _ => 0) 0 exStoreOne).2.1

/-- What the primary loop of chunk `i` does to one primary set (line 140). -/
def updPrimary (p : Params) (prf : Nat → Nat → Nat) (db_chunk : List Nat) (i : Nat)
    (s : LocalSet) : LocalSet :=
  { s with parity :=
      XorFromRaw s.parity db_chunk (offset prf p.chunk_size s.tag i * p.entry_size) }

/-- What the backup loop of chunk `i` does to backup set `j` (lines 146-153). -/
def updBackup (p : Params) (prf : Nat → Nat → Nat) (db_chunk : List Nat) (i j : Nat)
    (b : LocalBackupSet) : LocalBackupSet :=
  if j < i * p.backup_set_num_per_chunk ∨ j ≥ (i + 1) * p.backup_set_num_per_chunk then
    { b with
      parity_after_puncture :=
        XorFromRaw b.parity_after_puncture db_chunk
          (offset prf p.chunk_size b.tag i * p.entry_size) }
  else b

/-- The hint store after the first `n` chunks of `FetchFullDB`. -/
def fetchPrefix (p : Params) (prf : Nat → Nat → Nat) (chunks : Nat → List Nat)
    (rnd : Nat → Nat → Nat) (st : HintStore) (n : Nat) : HintStore :=
  (List.range n).foldl (fun st i => processChunk p prf (chunks i) (rnd i) st i) st

/-- The hint store of the example when the PRF is constantly 0: every set
selects offset 0 of every chunk, so offset 1 of every chunk is a local miss. -/
def exStoreMiss : HintStore :=
  FetchFullDB exParams (fun _ _ => 0) exChunks (fun _ _ => 0) (InitializeLocalSets exParams)

/-- What iteration `k` of the replacement loop of chunk `i` does to the
replacement group of the chunk (lines 181-187). -/
def updReplacement (p : Params) (db_chunk : List Nat) (rnd : Nat → Nat) (i k : Nat)
    (g : LocalReplacementGroup) : LocalReplacementGroup :=
  { consumed := g.consumed
    indices := g.indices.set k ((rnd k &&& (p.chunk_size - 1)) + i * p.chunk_size)
    values := g.values.set k
      (sliceAt db_chunk ((rnd k &&& (p.chunk_size - 1)) * p.entry_size) p.entry_size) }

/-- The replacement group of chunk `i` after the chunk is processed. -/
def filledGroup (p : Params) (db_chunk : List Nat) (rnd : Nat → Nat) (i : Nat)
    (g : LocalReplacementGroup) : LocalReplacementGroup :=
  (List.range p.backup_set_num_per_chunk).foldl (fun a k => updReplacement p db_chunk rnd i k a) g

/-- The hint store after a real query whose refresh is skipped (the return of
line 300): one replacement consumed, the value cached. -/
def storeNoRefresh (p : Params) (prf : Nat → Nat → Nat) (resp : List Nat → List Nat)
    (st : HintStore) (x hit_set_id : Nat) : HintStore :=
  { st with
    local_replacement_groups := st.local_replacement_groups.set (x / p.chunk_size)
      { st.local_replacement_groups.getD (x / p.chunk_size) default with
        consumed := (st.local_replacement_groups.getD (x / p.chunk_size) default).consumed + 1 }
    local_cache := mapInsert st.local_cache x (recovered p prf resp st x hit_set_id) }

/-- The backup set the refresh of a query for `x` takes: the next unconsumed
one of the group of chunk `x / C` (lines 304-306). -/
def nextBackup (p : Params) (st : HintStore) (x : Nat) : LocalBackupSet :=
  st.local_backup_sets.getD
    ((st.local_backup_set_groups.getD (x / p.chunk_size) default).sets.getD
      (st.local_backup_set_groups.getD (x / p.chunk_size) default).consumed 0) default

/-- The hint store after a real query with refresh (the return of line 318). -/
def storeRefresh (p : Params) (prf : Nat → Nat → Nat) (resp : List Nat → List Nat)
    (st : HintStore) (x hit_set_id : Nat) : HintStore :=
  { st with
    primary_sets := st.primary_sets.set hit_set_id
      { tag := (nextBackup p st x).tag
        parity := Xor (recovered p prf resp st x hit_set_id)
          (nextBackup p st x).parity_after_puncture
        programmed_point := x
        is_programmed := true }
    local_backup_set_groups := st.local_backup_set_groups.set (x / p.chunk_size)
      { st.local_backup_set_groups.getD (x / p.chunk_size) default with
        consumed := (st.local_backup_set_groups.getD (x / p.chunk_size) default).consumed + 1 }
    local_replacement_groups := st.local_replacement_groups.set (x / p.chunk_size)
      { st.local_replacement_groups.getD (x / p.chunk_size) default with
        consumed := (st.local_replacement_groups.getD (x / p.chunk_size) default).consumed + 1 }
    local_cache := mapInsert st.local_cache x (recovered p prf resp st x hit_set_id) }

/-- The out-of-hints path of `OnlineSingleQuery x` (lines 266-271): `x` is not
cached, a hit set is found and the replacement group of chunk `x / C` is used
up. -/
def outOfHints (p : Params) (prf : Nat → Nat → Nat) (st : HintStore) (x : Nat) : Prop :=
  st.local_cache x = none ∧ (findHitSet p prf st x).isSome = true ∧
    (st.local_replacement_groups.getD (x / p.chunk_size) default).consumed =
      p.backup_set_num_per_chunk

/-- The missing-hit path of `OnlineSingleQuery x` without a local-miss record
(lines 241-243): `x` is not cached, no hit set is found and `x` is not a key of
`local_miss_elements`. -/
def missingHit (p : Params) (prf : Nat → Nat → Nat) (st : HintStore) (x : Nat) : Prop :=
  st.local_cache x = none ∧ findHitSet p prf st x = none ∧ st.local_miss_elements x = none

/-- The hint store agrees with the database `db`: the invariants 2, 3 and 4 of
the data model, and the contents of the replacement groups, of the local-miss
table and of the cache. -/
structure Consistent (p : Params) (prf : Nat → Nat → Nat) (db : Nat → DBEntry)
    (st : HintStore) : Prop where
  primary : ∀ j, j < p.primary_set_num →
    (st.primary_sets.getD j default).parity =
      xorAll p.entry_size ((expandProgrammed p prf (st.primary_sets.getD j default)).map db)
  backup : ∀ g k, g < p.set_size → k < p.backup_set_num_per_chunk →
    (st.local_backup_sets.getD
        ((st.local_backup_set_groups.getD g default).sets.getD k 0) default).parity_after_puncture =
      xorAll p.entry_size
        (((List.range p.set_size).filter (fun i => decide (i ≠ g))).map
          (fun i => db (offset prf p.chunk_size
            (st.local_backup_sets.getD
              ((st.local_backup_set_groups.getD g default).sets.getD k 0) default).tag i +
            i * p.chunk_size)))
  backup_consumed : ∀ g, (st.local_backup_set_groups.getD g default).consumed ≤
    p.backup_set_num_per_chunk
  replacement : ∀ g k, g < p.set_size → k < p.backup_set_num_per_chunk →
    (st.local_replacement_groups.getD g default).values.getD k [] =
      db ((st.local_replacement_groups.getD g default).indices.getD k 0) ∧
    (st.local_replacement_groups.getD g default).indices.getD k 0 < p.chunk_size * p.set_size
  replacement_consumed : ∀ g, (st.local_replacement_groups.getD g default).consumed ≤
    p.backup_set_num_per_chunk
  miss : ∀ y v, y < p.chunk_size * p.set_size → st.local_miss_elements y = some v → v = db y
  cache : ∀ y v, y < p.chunk_size * p.set_size → st.local_cache y = some v → v = db y

/-! ## Initialize -/

/-- The padding of a set count to a multiple of the worker count (lines 38-39
and 48-49): `(n + thread_num_ - 1) / thread_num_ * thread_num_` in 64-bit
unsigned arithmetic. -/
def padToThreads (n thread_num : Nat) : Nat :=
  u64 (u64 (u64 (n + thread_num) + (2 ^ 64 - 1)) / thread_num * thread_num)

/-- The function `QueryServiceClient::Initialize`, from the point where the
floating-point expressions have been cast to `uint64_t`: `total_query_num` is
the value of line 25 and `backup_base` the value of line 44.  `GenChunkParams`
is declared in `util.h`, which is missing from the sources; its result is the
pair `chunk_size`, `set_size`. -/
def Initialize (entry_size thread_num total_query_num backup_base chunk_size set_size : Nat) :
    Params :=
  { entry_size := entry_size
    thread_num := thread_num
    chunk_size := chunk_size
    set_size := set_size
    primary_set_num := padToThreads total_query_num thread_num
    backup_set_num_per_chunk := padToThreads backup_base thread_num
    total_backup_set_num := u64 (padToThreads backup_base thread_num * set_size) }

end Piano

/-! ## The PPS constructor (`experiment/pir/pps/ggm_pset.h`) -/

namespace Pps

/-- The fields of class `PPS` that the constructor sets; `map_` starts empty. -/
structure PPS where
  universe_size : Nat
  set_size : Nat
deriving DecidableEq

/-- The test of the constructor `PPS(universe_size, set_size)` (lines 109-110),
in 64-bit unsigned arithmetic: true when the constructor calls `abort()`. -/
def rejects (universe_size set_size : Nat) : Bool :=
  decide (Piano.u64 (set_size * set_size) < universe_size / 2) ||
    decide (Piano.u64 (set_size * set_size) > Piano.u64 (2 * universe_size))

/-- The constructor `PPS(universe_size, set_size)` (lines 107-114): `none` when
it aborts. -/
def PPS.new (universe_size set_size : Nat) : Option PPS :=
  if rejects universe_size set_size then none
  else some { universe_size := universe_size, set_size := set_size }

end Pps

namespace Piano

/-- The hint store of the `M2 = 1` example when the PRF is constantly 0: offset
1 of every chunk is a local miss. -/
def exStoreOneMiss : HintStore :=
  FetchFullDB exParamsOne (fun _ _ => 0) exChunks (fun _ _ => 0) (InitializeLocalSets exParamsOne)

/-- The tags of a session whose 32-bit tag counter did not wrap: the backup
sets keep the tags `M1 + b` and the groups their sets, the primary sets have
pairwise distinct tags, and no primary set has the tag of a backup set that is
not consumed yet. -/
structure TagsDistinct (p : Params) (st : HintStore) : Prop where
  groups_length : st.local_backup_set_groups.length = p.set_size
  group_sets : ∀ g k, g < p.set_size → k < p.backup_set_num_per_chunk →
    (st.local_backup_set_groups.getD g default).sets.getD k 0 =
      g * p.backup_set_num_per_chunk + k
  backup_tag : ∀ b, b < p.total_backup_set_num →
    (st.local_backup_sets.getD b default).tag = p.primary_set_num + b
  consumed_le : ∀ g, (st.local_backup_set_groups.getD g default).consumed ≤
    p.backup_set_num_per_chunk
  primary_inj : ∀ j1 j2, j1 < p.primary_set_num → j2 < p.primary_set_num →
    (st.primary_sets.getD j1 default).tag = (st.primary_sets.getD j2 default).tag → j1 = j2
  primary_fresh : ∀ j g k, j < p.primary_set_num → g < p.set_size →
    k < p.backup_set_num_per_chunk →
    (st.local_backup_set_groups.getD g default).consumed ≤ k →
    (st.primary_sets.getD j default).tag ≠
      p.primary_set_num + (g * p.backup_set_num_per_chunk + k)

/-- Parameters with more than `2^32` sets: `2^28` primary sets and `2^21`
groups of `2^11` backup sets. -/
def exParamsWrap : Params :=
  { entry_size := 8, thread_num := 1, chunk_size := 2 ^ 21, set_size := 2 ^ 21,
    primary_set_num := 2 ^ 28, backup_set_num_per_chunk := 2 ^ 11,
    total_backup_set_num := 2 ^ 32 }

end Piano

namespace Pps

/-- The value of a `uint128_t` expression: reduction modulo `2^128`. -/
def u128 (n : Nat) : Nat := n % 2 ^ 128

/-- The function `LemireTrick(uint128_t v, uint64_t m)` (lines 62-64):
`static_cast<uint64_t>(((v >> 64) * static_cast<uint128_t>(m)) >> 64)`. -/
def LemireTrick128 (v m : Nat) : Nat :=
  Piano.u64 (u128 (v / 2 ^ 64 * m) / 2 ^ 64)

/-- The function `LemireTrick(uint64_t v, uint64_t m)` (lines 66-69):
`static_cast<uint64_t>((static_cast<uint128_t>(v) * static_cast<uint128_t>(m)) >> 64)`. -/
def LemireTrick64 (v m : Nat) : Nat :=
  Piano.u64 (u128 (v * m) / 2 ^ 64)

end Pps

namespace Piano

/-! ## Defined executions

`OnlineSingleQuery` above reads a vector out of range as a default value and
divides by zero as Lean does.  The C++ program has undefined behaviour there:
the definitions below say on which inputs every division and every vector
subscript of a call is defined, and give the call as a partial function. -/

/-- The divisions of `SendDummySet` are defined: line 198 computes
`prg() % chunk_size_` once for each of the `set_size_` elements. -/
def SendDummySetDefined (p : Params) : Bool :=
  p.set_size == 0 || p.chunk_size != 0

/-- The divisions and the vector subscripts that `OnlineSingleQuery x` executes
in the store `st` are defined.  On the path of a cached index this is
`SendDummySet`.  Otherwise lines 223, 224 and 230 divide by `chunk_size_`; the
scan reads `primary_sets_[i]` (line 227) up to the hit set, or up to
`primary_set_num_` when there is none; with a hit set, line 261 writes
`expanded_set` at the chunk of the programmed point, line 266 reads
`local_replacement_groups_[chunk_id]`, lines 275-279 read
`indices[next_available]` and `values[next_available]` and write
`expanded_set[chunk_id]`, line 297 reads `local_backup_set_groups_[chunk_id]`
and lines 306-309 read `sets[consumed]` and the backup set it refers to. -/
def OnlineSingleQueryDefined (p : Params) (prf : Nat → Nat → Nat) (x : Nat) (st : HintStore) :
    Bool :=
  match st.local_cache x with
  | some _ => SendDummySetDefined p
  | none =>
    p.chunk_size != 0 &&
    match findHitSet p prf st x with
    | none => decide (p.primary_set_num ≤ st.primary_sets.length)
    | some hit_set_id =>
      let chunk_id := x / p.chunk_size
      let hit := st.primary_sets.getD hit_set_id default
      let rgroup := st.local_replacement_groups.getD chunk_id default
      let bgroup := st.local_backup_set_groups.getD chunk_id default
      decide (hit_set_id < st.primary_sets.length) &&
      (!hit.is_programmed || decide (hit.programmed_point / p.chunk_size < p.set_size)) &&
      decide (chunk_id < st.local_replacement_groups.length) &&
      (decide (rgroup.consumed = p.backup_set_num_per_chunk) ||
        (decide (rgroup.consumed < rgroup.indices.length) &&
         decide (rgroup.consumed < rgroup.values.length) &&
         decide (chunk_id < p.set_size) &&
         decide (chunk_id < st.local_backup_set_groups.length) &&
         (decide (bgroup.consumed = p.backup_set_num_per_chunk) ||
           (decide (bgroup.consumed < bgroup.sets.length) &&
            decide (bgroup.sets.getD bgroup.consumed 0 < st.local_backup_sets.length)))))

/-- The function `QueryServiceClient::OnlineSingleQuery` as a partial function:
`none` when the call divides by zero or reads or writes a vector out of
range. -/
def OnlineSingleQueryChecked (p : Params) (prf : Nat → Nat → Nat) (resp : List Nat → List Nat)
    (rnd : Nat → Nat) (x : Nat) (st : HintStore) : Option (DBEntry × HintStore × List Event) :=
  if OnlineSingleQueryDefined p prf x st then some (OnlineSingleQuery p prf resp rnd x st)
  else none

/-- The function `QueryServiceClient::OnlineMultipleQueries` as a partial
function: `none` as soon as one of the calls is not defined. -/
def OnlineMultipleQueriesChecked (p : Params) (prf : Nat → Nat → Nat) :
    List Call → HintStore → Option (List DBEntry × HintStore × List Event)
  | [], st => some ([], st, [])
  | c :: cs, st =>
    match OnlineSingleQueryChecked p prf c.resp c.rnd c.x st with
    | none => none
    | some r =>
      match OnlineMultipleQueriesChecked p prf cs r.2.1 with
      | none => none
      | some rest => some (r.1 :: rest.1, rest.2.1, r.2.2 ++ rest.2.2)

/-- The vectors of the hint store have the sizes `InitializeLocalSets` gives
them: `M1` primary sets, `S` groups of `M2` slots each, every backup group
referring to its own `M2` backup sets; no counter exceeds `M2` and every
programmed point is an index of the database. -/
structure WellFormed (p : Params) (st : HintStore) : Prop where
  primary_length : st.primary_sets.length = p.primary_set_num
  programmed_lt : ∀ j, j < p.primary_set_num →
    (st.primary_sets.getD j default).is_programmed = true →
    (st.primary_sets.getD j default).programmed_point < p.chunk_size * p.set_size
  backup_length : st.local_backup_sets.length = p.total_backup_set_num
  groups_length : st.local_backup_set_groups.length = p.set_size
  group_sets_length : ∀ g, g < p.set_size →
    (st.local_backup_set_groups.getD g default).sets.length = p.backup_set_num_per_chunk
  group_sets : ∀ g k, g < p.set_size → k < p.backup_set_num_per_chunk →
    (st.local_backup_set_groups.getD g default).sets.getD k 0 =
      g * p.backup_set_num_per_chunk + k
  group_consumed : ∀ g, g < p.set_size →
    (st.local_backup_set_groups.getD g default).consumed ≤ p.backup_set_num_per_chunk
  replacements_length : st.local_replacement_groups.length = p.set_size
  replacement_slots : ∀ g, g < p.set_size →
    (st.local_replacement_groups.getD g default).indices.length = p.backup_set_num_per_chunk ∧
    (st.local_replacement_groups.getD g default).values.length = p.backup_set_num_per_chunk
  replacement_consumed : ∀ g, g < p.set_size →
    (st.local_replacement_groups.getD g default).consumed ≤ p.backup_set_num_per_chunk

-- End of the definitions; the theorems follow.


/-! ## XOR algebra of entries -/


theorem Xor_length (a b : DBEntry) : (Xor a b).length = min a.length b.length := by
  simp [Xor]

theorem Xor_comm (a b : DBEntry) : Xor a b = Xor b a := by
  unfold Xor
  exact List.zipWith_comm_of_comm _ (fun x y => Nat.xor_comm x y) a b

theorem Xor_assoc (a b c : DBEntry) : Xor (Xor a b) c = Xor a (Xor b c) := by
  unfold Xor
  induction a generalizing b c with
  | nil => simp
  | cons x xs ih =>
    cases b with
    | nil => simp
    | cons y ys =>
      cases c with
      | nil => simp
      | cons z zs => simp [Nat.xor_assoc, ih]

instance : Std.Commutative Xor := ⟨Xor_comm⟩
instance : Std.Associative Xor := ⟨Xor_assoc⟩

theorem Xor_self (a : DBEntry) : Xor a a = ZeroEntry a.length := by
  unfold Xor ZeroEntry
  induction a with
  | nil => simp
  | cons x xs ih => simp [List.replicate_succ, ih]

theorem Xor_zero (a : DBEntry) (E : Nat) (h : a.length ≤ E) : Xor a (ZeroEntry E) = a := by
  unfold Xor ZeroEntry
  induction a generalizing E with
  | nil => simp
  | cons x xs ih =>
    cases E with
    | zero => simp at h
    | succ n =>
      simp only [List.length_cons, Nat.add_le_add_iff_right] at h
      simp [List.replicate_succ, ih n h]

theorem zero_Xor (a : DBEntry) (E : Nat) (h : a.length ≤ E) : Xor (ZeroEntry E) a = a := by
  rw [Xor_comm]; exact Xor_zero a E h

theorem ZeroEntry_length (E : Nat) : (ZeroEntry E).length = E := by simp [ZeroEntry]

theorem XorFromRaw_eq (a : DBEntry) (buf : List Nat) (pos E : Nat) (h : a.length ≤ E) :
    XorFromRaw a buf pos = Xor a (sliceAt buf pos E) := by
  unfold XorFromRaw Xor sliceAt
  generalize buf.drop pos = l
  induction a generalizing l E with
  | nil => simp
  | cons x xs ih =>
    cases E with
    | zero => simp at h
    | succ n =>
      simp only [List.length_cons, Nat.add_le_add_iff_right] at h
      cases l with
      | nil => simp
      | cons y ys => simp [ih n h ys]

theorem foldl_Xor_eq (E : Nat) (L : List DBEntry) (acc : DBEntry) (h : acc.length ≤ E) :
    L.foldl Xor acc = Xor acc (xorAll E L) := by
  unfold xorAll
  induction L generalizing acc with
  | nil => simp [Xor_zero acc E h]
  | cons e L ih =>
    simp only [List.foldl_cons]
    rw [ih (Xor acc e) (by rw [Xor_length]; omega),
      ih (Xor (ZeroEntry E) e) (by rw [Xor_length, ZeroEntry_length]; omega)]
    rw [← Xor_assoc, ← Xor_assoc acc, Xor_zero acc E h]

theorem xorAll_length_le (E : Nat) (L : List DBEntry) : (xorAll E L).length ≤ E := by
  unfold xorAll
  suffices h : ∀ acc : DBEntry, acc.length ≤ E → (L.foldl Xor acc).length ≤ E from
    h _ (by simp [ZeroEntry])
  induction L with
  | nil => intro acc h; simpa using h
  | cons e L ih =>
    intro acc h
    simp only [List.foldl_cons]
    exact ih _ (by rw [Xor_length]; omega)

theorem xorAll_length (E : Nat) (L : List DBEntry) (h : ∀ e ∈ L, e.length = E) :
    (xorAll E L).length = E := by
  unfold xorAll
  suffices h2 : ∀ acc : DBEntry, acc.length = E → (L.foldl Xor acc).length = E from
    h2 _ (by simp [ZeroEntry])
  induction L with
  | nil => intro acc h; simpa using h
  | cons e L ih =>
    intro acc hacc
    simp only [List.foldl_cons]
    exact ih (fun e he => h e (List.mem_cons_of_mem _ he)) _
      (by rw [Xor_length, hacc, h e (List.mem_cons_self _ _)]; simp)

theorem xorAll_nil (E : Nat) : xorAll E [] = ZeroEntry E := rfl

theorem xorAll_append (E : Nat) (A B : List DBEntry) :
    xorAll E (A ++ B) = Xor (xorAll E A) (xorAll E B) := by
  have h := foldl_Xor_eq E B (xorAll E A) (xorAll_length_le E A)
  rw [← h]
  simp [xorAll, List.foldl_append]

theorem xorAll_cons (E : Nat) (e : DBEntry) (L : List DBEntry) (h : e.length ≤ E) :
    xorAll E (e :: L) = Xor e (xorAll E L) := by
  have h2 := foldl_Xor_eq E L (Xor (ZeroEntry E) e) (by rw [Xor_length, ZeroEntry_length]; omega)
  rw [zero_Xor e E h] at h2
  rw [← h2]
  simp [xorAll, zero_Xor e E h]

/-- The recovery identity: a parity, the parity of the same list with one
position replaced, and the replacement give back the replaced entry. -/
theorem xorAll_recover_split (E : Nat) (A B : List DBEntry) (X r : DBEntry)
    (hA : ∀ e ∈ A, e.length = E) (hB : ∀ e ∈ B, e.length = E) (hX : X.length = E)
    (hr : r.length = E) :
    Xor (Xor (xorAll E (A ++ X :: B)) (xorAll E (A ++ r :: B))) r = X := by
  have hA2 := xorAll_length E A hA
  have hB2 := xorAll_length E B hB
  rw [xorAll_append, xorAll_append, xorAll_cons E _ _ (by omega), xorAll_cons E _ _ (by omega)]
  generalize xorAll E A = PA at hA2 ⊢
  generalize xorAll E B = PB at hB2 ⊢
  have h1 : Xor (Xor (Xor PA (Xor X PB)) (Xor PA (Xor r PB))) r
      = Xor X (Xor (Xor PA PA) (Xor (Xor PB PB) (Xor r r))) := by ac_rfl
  rw [h1, Xor_self, Xor_self, Xor_self, hA2, hB2, hr, Xor_zero _ E (by simp [ZeroEntry]),
    Xor_zero _ E (by simp [ZeroEntry]), Xor_zero _ E (by omega)]

theorem xorAll_recover (E : Nat) (L : List DBEntry) (g : Nat) (r : DBEntry) (hg : g < L.length)
    (hL : ∀ e ∈ L, e.length = E) (hr : r.length = E) :
    Xor (Xor (xorAll E L) (xorAll E (L.set g r))) r = L.getD g [] := by
  have hX : L.getD g [] = L[g] := by simp [List.getD_eq_getElem?_getD, hg]
  have hd : L = L.take g ++ L[g] :: L.drop (g + 1) := by simp
  have hs : L.set g r = L.take g ++ r :: L.drop (g + 1) := by
    rw [List.set_eq_take_append_cons_drop]; simp [hg]
  rw [hs, hX]
  have h := xorAll_recover_split E (L.take g) (L.drop (g + 1)) L[g] r
    (fun e he => hL e (List.mem_of_mem_take he)) (fun e he => hL e (List.mem_of_mem_drop he))
    (hL _ (List.getElem_mem _)) hr
  rw [← hd] at h
  exact h

/-- The parity of a list with one position replaced is the replacement XORed
with the parity of the other positions. -/
theorem xorAll_set (E : Nat) (L : List DBEntry) (g : Nat) (v : DBEntry) (hg : g < L.length)
    (hv : v.length ≤ E) :
    xorAll E (L.set g v) = Xor v (xorAll E (L.take g ++ L.drop (g + 1))) := by
  have hs : L.set g v = L.take g ++ v :: L.drop (g + 1) := by
    rw [List.set_eq_take_append_cons_drop]; simp [hg]
  rw [hs, xorAll_append, xorAll_append, xorAll_cons E _ _ hv]
  ac_rfl


/-! ## The paths of `OnlineSingleQuery` -/

theorem XorFromRaw_zero_pos (a : DBEntry) (buf : List Nat) : XorFromRaw a buf 0 = Xor a buf := by
  simp [XorFromRaw, Xor]

theorem dummySet_length (p : Params) (rnd : Nat → Nat) : (dummySet p rnd).length = p.set_size := by
  simp [dummySet]

theorem ExpandWithLongKey_length (prf : Nat → Nat → Nat) (tag S C : Nat) :
    (ExpandWithLongKey prf tag S C).length = S := by
  simp [ExpandWithLongKey]

theorem expandProgrammed_length (p : Params) (prf : Nat → Nat → Nat) (s : LocalSet) :
    (expandProgrammed p prf s).length = p.set_size := by
  unfold expandProgrammed
  split <;> simp [ExpandWithLongKey_length]

theorem OnlineSingleQuery_cached (p : Params) (prf : Nat → Nat → Nat) (resp : List Nat → List Nat)
    (rnd : Nat → Nat) (x : Nat) (st : HintStore) (v : DBEntry) (h : st.local_cache x = some v) :
    OnlineSingleQuery p prf resp rnd x st = (v, st, SendDummySet p rnd) := by
  simp [OnlineSingleQuery, h]

theorem OnlineSingleQuery_no_hit_no_miss (p : Params) (prf : Nat → Nat → Nat)
    (resp : List Nat → List Nat) (rnd : Nat → Nat) (x : Nat) (st : HintStore)
    (hc : st.local_cache x = none) (hh : findHitSet p prf st x = none)
    (hm : st.local_miss_elements x = none) :
    OnlineSingleQuery p prf resp rnd x st = (ZeroEntry p.entry_size, st, SendDummySet p rnd) := by
  simp [OnlineSingleQuery, hc, hh, hm]

theorem OnlineSingleQuery_no_hit_miss (p : Params) (prf : Nat → Nat → Nat)
    (resp : List Nat → List Nat) (rnd : Nat → Nat) (x : Nat) (st : HintStore) (v : DBEntry)
    (hc : st.local_cache x = none) (hh : findHitSet p prf st x = none)
    (hm : st.local_miss_elements x = some v) :
    OnlineSingleQuery p prf resp rnd x st =
      (v, { st with local_cache := mapInsert st.local_cache x v }, SendDummySet p rnd) := by
  simp [OnlineSingleQuery, hc, hh, hm]

theorem OnlineSingleQuery_out_of_hints (p : Params) (prf : Nat → Nat → Nat)
    (resp : List Nat → List Nat) (rnd : Nat → Nat) (x : Nat) (st : HintStore) (h : Nat)
    (hc : st.local_cache x = none) (hh : findHitSet p prf st x = some h)
    (hr : (st.local_replacement_groups.getD (x / p.chunk_size) default).consumed =
      p.backup_set_num_per_chunk) :
    OnlineSingleQuery p prf resp rnd x st = (ZeroEntry p.entry_size, st, SendDummySet p rnd) := by
  simp only [OnlineSingleQuery, hc, hh, hr, if_true]

theorem OnlineSingleQuery_no_refresh (p : Params) (prf : Nat → Nat → Nat)
    (resp : List Nat → List Nat) (rnd : Nat → Nat) (x : Nat) (st : HintStore) (h : Nat)
    (hc : st.local_cache x = none) (hh : findHitSet p prf st x = some h)
    (hr : (st.local_replacement_groups.getD (x / p.chunk_size) default).consumed ≠
      p.backup_set_num_per_chunk)
    (hb : (st.local_backup_set_groups.getD (x / p.chunk_size) default).consumed =
      p.backup_set_num_per_chunk) :
    OnlineSingleQuery p prf resp rnd x st =
      (recovered p prf resp st x h,
       { st with
         local_replacement_groups := st.local_replacement_groups.set (x / p.chunk_size)
           { st.local_replacement_groups.getD (x / p.chunk_size) default with
             consumed :=
               (st.local_replacement_groups.getD (x / p.chunk_size) default).consumed + 1 }
         local_cache := mapInsert st.local_cache x (recovered p prf resp st x h) },
       [Event.sendSetParityQuery (sentSet p prf st x h), Event.recvSetParityResponse]) := by
  simp only [OnlineSingleQuery, hc, hh, hr, hb, if_true, if_false, recovered, sentSet]

theorem OnlineSingleQuery_refresh (p : Params) (prf : Nat → Nat → Nat)
    (resp : List Nat → List Nat) (rnd : Nat → Nat) (x : Nat) (st : HintStore) (h : Nat)
    (hc : st.local_cache x = none) (hh : findHitSet p prf st x = some h)
    (hr : (st.local_replacement_groups.getD (x / p.chunk_size) default).consumed ≠
      p.backup_set_num_per_chunk)
    (hb : (st.local_backup_set_groups.getD (x / p.chunk_size) default).consumed ≠
      p.backup_set_num_per_chunk) :
    OnlineSingleQuery p prf resp rnd x st =
      (recovered p prf resp st x h,
       { st with
         primary_sets := st.primary_sets.set h
           { tag := (st.local_backup_sets.getD
               ((st.local_backup_set_groups.getD (x / p.chunk_size) default).sets.getD
                 (st.local_backup_set_groups.getD (x / p.chunk_size) default).consumed 0)
               default).tag
             parity := Xor (recovered p prf resp st x h)
               (st.local_backup_sets.getD
                 ((st.local_backup_set_groups.getD (x / p.chunk_size) default).sets.getD
                   (st.local_backup_set_groups.getD (x / p.chunk_size) default).consumed 0)
                 default).parity_after_puncture
             programmed_point := x
             is_programmed := true }
         local_backup_set_groups := st.local_backup_set_groups.set (x / p.chunk_size)
           { st.local_backup_set_groups.getD (x / p.chunk_size) default with
             consumed :=
               (st.local_backup_set_groups.getD (x / p.chunk_size) default).consumed + 1 }
         local_replacement_groups := st.local_replacement_groups.set (x / p.chunk_size)
           { st.local_replacement_groups.getD (x / p.chunk_size) default with
             consumed :=
               (st.local_replacement_groups.getD (x / p.chunk_size) default).consumed + 1 }
         local_cache := mapInsert st.local_cache x (recovered p prf resp st x h) },
       [Event.sendSetParityQuery (sentSet p prf st x h), Event.recvSetParityResponse]) := by
  simp only [OnlineSingleQuery, hc, hh, hr, hb, if_true, if_false, recovered, sentSet]


/-! ## The hit set and the recovered value -/

theorem findHitSet_some (p : Params) (prf : Nat → Nat → Nat) (st : HintStore) (x h : Nat)
    (hh : findHitSet p prf st x = some h) :
    h < p.primary_set_num ∧ isHit p prf x (st.primary_sets.getD h default) = true := by
  unfold findHitSet at hh
  exact ⟨List.mem_range.mp (List.mem_of_find?_eq_some hh),
    List.find?_some (p := fun i => isHit p prf x (st.primary_sets.getD i default)) hh⟩

theorem isHit_iff (p : Params) (prf : Nat → Nat → Nat) (x : Nat) (s : LocalSet) :
    isHit p prf x s = true ↔
      ¬ (s.is_programmed = true ∧ x / p.chunk_size = s.programmed_point / p.chunk_size) ∧
      offset prf p.chunk_size s.tag (x / p.chunk_size) = x % p.chunk_size := by
  cases hp : s.is_programmed <;> simp [isHit, MemberTestWithLongKey, hp]

theorem chunk_id_lt (C S x : Nat) (hx : x < C * S) : x / C < S :=
  Nat.div_lt_of_lt_mul hx

theorem ExpandWithLongKey_getElem? (prf : Nat → Nat → Nat) (tag S C i : Nat) (hi : i < S) :
    (ExpandWithLongKey prf tag S C)[i]? = some (offset prf C tag i + i * C) := by
  simp [ExpandWithLongKey, List.getElem?_range hi]

theorem expandProgrammed_hit (p : Params) (prf : Nat → Nat → Nat) (x : Nat) (s : LocalSet)
    (hx : x < p.chunk_size * p.set_size) (hit : isHit p prf x s = true) :
    (expandProgrammed p prf s)[x / p.chunk_size]? = some x := by
  obtain ⟨hnp, hoff⟩ := (isHit_iff p prf x s).mp hit
  have hg := chunk_id_lt _ _ _ hx
  have hval : offset prf p.chunk_size s.tag (x / p.chunk_size) + x / p.chunk_size * p.chunk_size
      = x := by
    rw [hoff, Nat.mul_comm]; exact Nat.mod_add_div x p.chunk_size
  unfold expandProgrammed
  by_cases hp : s.is_programmed = true
  · have hne : s.programmed_point / p.chunk_size ≠ x / p.chunk_size :=
      fun h => hnp ⟨hp, h.symm⟩
    rw [if_pos hp, List.getElem?_set_ne hne, ExpandWithLongKey_getElem? _ _ _ _ _ hg, hval]
  · rw [if_neg hp, ExpandWithLongKey_getElem? _ _ _ _ _ hg, hval]

theorem honestServer_length (E : Nat) (db : Nat → DBEntry) (l : List Nat)
    (h : ∀ y ∈ l, (db y).length = E) : (honestServer E db l).length = E := by
  unfold honestServer
  apply xorAll_length
  intro e he
  obtain ⟨y, hy, rfl⟩ := List.mem_map.mp he
  exact h y hy

/-- The recovered value of a real query is the entry asked for, when the parity
of the hit set is the XOR of the entries of its current elements, the
replacement value is the entry at the replacement index and the response is the
XOR of the entries at the indices sent. -/
theorem recovered_eq (p : Params) (prf : Nat → Nat → Nat) (db : Nat → DBEntry)
    (resp : List Nat → List Nat) (st : HintStore) (x h : Nat)
    (hx : x < p.chunk_size * p.set_size)
    (hit : isHit p prf x (st.primary_sets.getD h default) = true)
    (hlen : ∀ y ∈ expandProgrammed p prf (st.primary_sets.getD h default),
      (db y).length = p.entry_size)
    (hrl : (db ((st.local_replacement_groups.getD (x / p.chunk_size) default).indices.getD
      (st.local_replacement_groups.getD (x / p.chunk_size) default).consumed 0)).length
        = p.entry_size)
    (hpar : (st.primary_sets.getD h default).parity =
      xorAll p.entry_size ((expandProgrammed p prf (st.primary_sets.getD h default)).map db))
    (hrep : (st.local_replacement_groups.getD (x / p.chunk_size) default).values.getD
        (st.local_replacement_groups.getD (x / p.chunk_size) default).consumed [] =
      db ((st.local_replacement_groups.getD (x / p.chunk_size) default).indices.getD
        (st.local_replacement_groups.getD (x / p.chunk_size) default).consumed 0))
    (hsrv : resp (sentSet p prf st x h) = honestServer p.entry_size db (sentSet p prf st x h)) :
    recovered p prf resp st x h = db x := by
  have hg := chunk_id_lt _ _ _ hx
  have hget := expandProgrammed_hit p prf x _ hx hit
  unfold recovered
  simp only []
  rw [hsrv, hrep, hpar, XorFromRaw_zero_pos]
  unfold sentSet honestServer
  simp only []
  generalize (st.local_replacement_groups.getD (x / p.chunk_size) default).indices.getD
    (st.local_replacement_groups.getD (x / p.chunk_size) default).consumed 0 = ridx at hrl ⊢
  generalize expandProgrammed p prf (st.primary_sets.getD h default) = ex at hlen hget ⊢
  rw [List.map_set]
  have hlt : x / p.chunk_size < (ex.map db).length := by
    rw [List.length_map]
    by_contra hcon
    rw [List.getElem?_eq_none (by omega)] at hget
    exact absurd hget (by simp)
  rw [xorAll_recover p.entry_size (ex.map db) (x / p.chunk_size) (db ridx) hlt ?_ hrl]
  · simp [List.getD_eq_getElem?_getD, hget]
  · intro e he
    obtain ⟨y, hy, rfl⟩ := List.mem_map.mp he
    exact hlen y hy


theorem range_split (S g : Nat) (hg : g < S) :
    List.range S = List.range g ++ g :: List.range' (g + 1) (S - (g + 1)) := by
  have h1 : List.range' 0 g ++ List.range' (0 + g) (S - g) = List.range' 0 (S - g + g) :=
    List.range'_append_1 0 g (S - g)
  have h2 : S - g = (S - (g + 1)) + 1 := by omega
  have h3 : S - g + g = S := by omega
  rw [h3, Nat.zero_add, h2, List.range'_succ] at h1
  rw [List.range_eq_range', ← h1, List.range_eq_range']

theorem filter_ne_range (S g : Nat) (hg : g < S) :
    (List.range S).filter (fun i => decide (i ≠ g)) =
      List.range g ++ List.range' (g + 1) (S - (g + 1)) := by
  rw [range_split S g hg, List.filter_append, List.filter_cons_of_neg (by simp)]
  congr 1
  · rw [List.filter_eq_self]
    intro a ha
    have := List.mem_range.mp ha
    simp; omega
  · rw [List.filter_eq_self]
    intro a ha
    have := List.mem_range'_1.mp ha
    simp; omega

/-- The parity of a set whose chunk-`g` element is `x` is the entry at `x`
XORed with the punctured parity of the set. -/
theorem xorAll_programmed (E S g x : Nat) (db : Nat → DBEntry) (e : Nat → Nat) (hg : g < S)
    (hx : (db x).length ≤ E) :
    xorAll E ((((List.range S).map e).set g x).map db) =
      Xor (db x)
        (xorAll E (((List.range S).filter (fun i => decide (i ≠ g))).map (fun i => db (e i)))) := by
  rw [List.map_set, xorAll_set E _ g (db x) (by simpa using hg) hx, filter_ne_range S g hg]
  congr 2
  rw [range_split S g hg]
  simp only [List.map_append, List.map_cons, List.map_map]
  rw [List.take_left' (by simp), List.drop_append_eq_append_drop,
    List.drop_of_length_le (by simp)]
  simp [Function.comp_def]


/-! ## Claims on a single online query -/

/-- C1. Normal-path recovery: for every `x < C*S` that is not in `local_cache`,
if the scan finds a hit set `h`, the replacement group of chunk `x / C` has
`consumed < M2`, the parity of the hit set is the XOR of the database entries
at its current elements (the expanded tag with the programmed override), the
replacement value about to be consumed is the database entry at its replacement
index, and the server answers with the XOR of the entries at the indices it is
sent, then `OnlineSingleQuery x` returns `DB[x]` and stores it in
`local_cache[x]`. -/
theorem normal_path_recovery (p : Params) (prf : Nat → Nat → Nat) (db : Nat → DBEntry)
    (resp : List Nat → List Nat) (rnd : Nat → Nat) (x h : Nat) (st : HintStore)
    (hdb : ∀ y, (db y).length = p.entry_size)
    (hx : x < p.chunk_size * p.set_size)
    (hc : st.local_cache x = none)
    (hh : findHitSet p prf st x = some h)
    (hr : (st.local_replacement_groups.getD (x / p.chunk_size) default).consumed <
      p.backup_set_num_per_chunk)
    (hpar : (st.primary_sets.getD h default).parity =
      xorAll p.entry_size ((expandProgrammed p prf (st.primary_sets.getD h default)).map db))
    (hrep : (st.local_replacement_groups.getD (x / p.chunk_size) default).values.getD
        (st.local_replacement_groups.getD (x / p.chunk_size) default).consumed [] =
      db ((st.local_replacement_groups.getD (x / p.chunk_size) default).indices.getD
        (st.local_replacement_groups.getD (x / p.chunk_size) default).consumed 0))
    (hsrv : ∀ indices, resp indices = honestServer p.entry_size db indices) :
    (OnlineSingleQuery p prf resp rnd x st).1 = db x ∧
    (OnlineSingleQuery p prf resp rnd x st).2.1.local_cache x = some (db x) := by
  have hrec : recovered p prf resp st x h = db x :=
    recovered_eq p prf db resp st x h hx (findHitSet_some p prf st x h hh).2
      (fun y _ => hdb y) (hdb _) hpar hrep (hsrv _)
  have hr2 : (st.local_replacement_groups.getD (x / p.chunk_size) default).consumed ≠
      p.backup_set_num_per_chunk := by omega
  by_cases hb : (st.local_backup_set_groups.getD (x / p.chunk_size) default).consumed =
      p.backup_set_num_per_chunk
  · rw [OnlineSingleQuery_no_refresh p prf resp rnd x st h hc hh hr2 hb]
    simp [mapInsert, hrec]
  · rw [OnlineSingleQuery_refresh p prf resp rnd x st h hc hh hr2 hb]
    simp [mapInsert, hrec]

theorem normal_path_recovery_witness :
    (0 < exParams.chunk_size * exParams.set_size ∧ exStore.local_cache 0 = none ∧
      findHitSet exParams exPrf exStore 0 = some 0) ∧
    ((OnlineSingleQuery exParams exPrf (honestServer 1 exDB) (fun _ => 0) 0 exStore).1 = exDB 0 ∧
     (OnlineSingleQuery exParams exPrf (honestServer 1 exDB) (fun _ => 0) 0
       exStore).2.1.local_cache 0 = some (exDB 0)) :=
  ⟨by decide,
   normal_path_recovery exParams exPrf exDB (honestServer 1 exDB) (fun _ => 0) 0 0 exStore
    (fun _ => rfl) (by decide) (by decide) (by decide) (by decide) (by decide) (by decide)
    (fun _ => rfl)⟩

/-- C9. Out-of-hints atomicity: for every state and every `x` that is not
cached and has a hit set, if the replacement group of chunk `x / C` has
`consumed == M2`, then `OnlineSingleQuery x` returns the all-zero entry of
width `E`, sends exactly one dummy set, and leaves the whole hint store
unchanged, so that any later sequence of queries behaves as if the call had not
happened. -/
theorem out_of_hints_atomic (p : Params) (prf : Nat → Nat → Nat) (resp : List Nat → List Nat)
    (rnd : Nat → Nat) (x h : Nat) (st : HintStore)
    (hc : st.local_cache x = none)
    (hh : findHitSet p prf st x = some h)
    (hr : (st.local_replacement_groups.getD (x / p.chunk_size) default).consumed =
      p.backup_set_num_per_chunk) :
    (OnlineSingleQuery p prf resp rnd x st).1 = List.replicate p.entry_size 0 ∧
    (OnlineSingleQuery p prf resp rnd x st).2.2 =
      [Event.sendSetParityQuery (dummySet p rnd), Event.recvSetParityResponse] ∧
    (dummySet p rnd).length = p.set_size ∧
    (OnlineSingleQuery p prf resp rnd x st).2.1 = st ∧
    ∀ later, OnlineMultipleQueries p prf later (OnlineSingleQuery p prf resp rnd x st).2.1 =
      OnlineMultipleQueries p prf later st := by
  rw [OnlineSingleQuery_out_of_hints p prf resp rnd x st h hc hh hr]
  exact ⟨rfl, rfl, dummySet_length p rnd, rfl, fun _ => rfl⟩

theorem out_of_hints_atomic_witness :
    (exStoreOneUsed.local_cache 1 = none ∧ findHitSet exParamsOne exPrf exStoreOneUsed 1 = some 1 ∧
      (exStoreOneUsed.local_replacement_groups.getD (1 / exParamsOne.chunk_size) default).consumed =
        exParamsOne.backup_set_num_per_chunk) ∧
    (OnlineSingleQuery exParamsOne exPrf (honestServer 1 exDB) (fun _ => 0) 1 exStoreOneUsed).1 =
      [0] ∧
    (OnlineSingleQuery exParamsOne exPrf (honestServer 1 exDB) (fun _ => 0) 1 exStoreOneUsed).2.1 =
      exStoreOneUsed :=
  have h := out_of_hints_atomic exParamsOne exPrf (honestServer 1 exDB) (fun _ => 0) 1 1
    exStoreOneUsed (by decide) (by decide) (by decide)
  ⟨by decide, h.1, h.2.2.2.1⟩

/-- C7. Refresh preserves the parity invariant: after a normal-path
`OnlineSingleQuery x` that recovered `DB[x]` with hit set `h` while the backup
group of chunk `x / C` had `consumed = c < M2`, primary set `h` has the tag of
backup set number `c` of that group, `is_programmed = true`,
`programmed_point = x`, and its parity is the XOR of the database entries over
the expansion of the new tag with the chunk-`x / C` element overridden to `x`
(given that the backup set satisfied the backup invariant); every other primary
set is unchanged and the group's `consumed` becomes `c + 1`. -/
theorem refresh_preserves_parity (p : Params) (prf : Nat → Nat → Nat) (db : Nat → DBEntry)
    (resp : List Nat → List Nat) (rnd : Nat → Nat) (x h c : Nat) (st : HintStore)
    (hx : x < p.chunk_size * p.set_size)
    (hdbx : (db x).length = p.entry_size)
    (hlen : h < st.primary_sets.length)
    (hbg : x / p.chunk_size < st.local_backup_set_groups.length)
    (hc : st.local_cache x = none)
    (hh : findHitSet p prf st x = some h)
    (hr : (st.local_replacement_groups.getD (x / p.chunk_size) default).consumed <
      p.backup_set_num_per_chunk)
    (hval : (OnlineSingleQuery p prf resp rnd x st).1 = db x)
    (hbc : (st.local_backup_set_groups.getD (x / p.chunk_size) default).consumed = c)
    (hcl : c < p.backup_set_num_per_chunk)
    (hbk : (st.local_backup_sets.getD
        ((st.local_backup_set_groups.getD (x / p.chunk_size) default).sets.getD c 0)
        default).parity_after_puncture =
      xorAll p.entry_size
        (((List.range p.set_size).filter (fun i => decide (i ≠ x / p.chunk_size))).map
          (fun i => db (offset prf p.chunk_size
            (st.local_backup_sets.getD
              ((st.local_backup_set_groups.getD (x / p.chunk_size) default).sets.getD c 0)
              default).tag i + i * p.chunk_size)))) :
    (OnlineSingleQuery p prf resp rnd x st).2.1.primary_sets.getD h default =
      { tag := (st.local_backup_sets.getD
          ((st.local_backup_set_groups.getD (x / p.chunk_size) default).sets.getD c 0)
          default).tag
        parity := xorAll p.entry_size
          (((ExpandWithLongKey prf
            (st.local_backup_sets.getD
              ((st.local_backup_set_groups.getD (x / p.chunk_size) default).sets.getD c 0)
              default).tag p.set_size p.chunk_size).set (x / p.chunk_size) x).map db)
        programmed_point := x
        is_programmed := true } ∧
    ((OnlineSingleQuery p prf resp rnd x st).2.1.primary_sets.getD h default).parity =
      xorAll p.entry_size
        ((expandProgrammed p prf
          ((OnlineSingleQuery p prf resp rnd x st).2.1.primary_sets.getD h default)).map db) ∧
    (OnlineSingleQuery p prf resp rnd x st).2.1.primary_sets.length = st.primary_sets.length ∧
    (∀ j, j ≠ h → (OnlineSingleQuery p prf resp rnd x st).2.1.primary_sets.getD j default =
      st.primary_sets.getD j default) ∧
    ((OnlineSingleQuery p prf resp rnd x st).2.1.local_backup_set_groups.getD
      (x / p.chunk_size) default).consumed = c + 1 := by
  have hr2 : (st.local_replacement_groups.getD (x / p.chunk_size) default).consumed ≠
      p.backup_set_num_per_chunk := by omega
  have hb : (st.local_backup_set_groups.getD (x / p.chunk_size) default).consumed ≠
      p.backup_set_num_per_chunk := by omega
  have hg := chunk_id_lt _ _ _ hx
  rw [OnlineSingleQuery_refresh p prf resp rnd x st h hc hh hr2 hb] at hval ⊢
  simp only [] at hval
  rw [hval, hbc]
  have hpar := xorAll_programmed p.entry_size p.set_size (x / p.chunk_size) x db
    (fun i => offset prf p.chunk_size (st.local_backup_sets.getD
      ((st.local_backup_set_groups.getD (x / p.chunk_size) default).sets.getD c 0)
      default).tag i + i * p.chunk_size) hg (by omega)
  rw [← hbk] at hpar
  have hfirst : (st.primary_sets.set h
      { tag := (st.local_backup_sets.getD
          ((st.local_backup_set_groups.getD (x / p.chunk_size) default).sets.getD c 0)
          default).tag
        parity := Xor (db x) (st.local_backup_sets.getD
          ((st.local_backup_set_groups.getD (x / p.chunk_size) default).sets.getD c 0)
          default).parity_after_puncture
        programmed_point := x
        is_programmed := true }).getD h default =
      { tag := (st.local_backup_sets.getD
          ((st.local_backup_set_groups.getD (x / p.chunk_size) default).sets.getD c 0)
          default).tag
        parity := xorAll p.entry_size
          (((ExpandWithLongKey prf
            (st.local_backup_sets.getD
              ((st.local_backup_set_groups.getD (x / p.chunk_size) default).sets.getD c 0)
              default).tag p.set_size p.chunk_size).set (x / p.chunk_size) x).map db)
        programmed_point := x
        is_programmed := true } := by
    rw [List.getD_eq_getElem?_getD, List.getElem?_set_self hlen]
    simp only [Option.getD_some, ExpandWithLongKey]
    rw [hpar]
  refine ⟨hfirst, ?_, by simp, ?_, ?_⟩
  · simp only []
    rw [hfirst]
    simp [expandProgrammed]
  · intro j hj
    simp only [List.getD_eq_getElem?_getD]
    rw [List.getElem?_set_ne (Ne.symm hj)]
  · simp only [List.getD_eq_getElem?_getD]
    rw [List.getElem?_set_self hbg]
    simp [hbc]

theorem refresh_preserves_parity_witness :
    (0 < exParams.chunk_size * exParams.set_size ∧ exStore.local_cache 0 = none ∧
      findHitSet exParams exPrf exStore 0 = some 0 ∧
      (OnlineSingleQuery exParams exPrf (honestServer 1 exDB) (fun _ => 0) 0 exStore).1 =
        exDB 0) ∧
    ((OnlineSingleQuery exParams exPrf (honestServer 1 exDB) (fun _ => 0) 0
      exStore).2.1.primary_sets.getD 0 default).tag = 2 ∧
    ((OnlineSingleQuery exParams exPrf (honestServer 1 exDB) (fun _ => 0) 0
      exStore).2.1.local_backup_set_groups.getD (0 / exParams.chunk_size) default).consumed =
        0 + 1 :=
  have h := refresh_preserves_parity exParams exPrf exDB (honestServer 1 exDB) (fun _ => 0) 0 0 0
    exStore (by decide) (by decide) (by decide) (by decide) (by decide) (by decide) (by decide)
    (by decide) (by decide) (by decide) (by decide)
  ⟨by decide, congrArg LocalSet.tag h.1, h.2.2.2.2⟩


/-! ## Loops that write one vector element per iteration -/

theorem foldl_set_length {α : Type} (g : List α → Nat → α) (L : List Nat) (l : List α) :
    (L.foldl (fun acc k => acc.set k (g acc k)) l).length = l.length := by
  induction L generalizing l with
  | nil => rfl
  | cons k L ih => simp only [List.foldl_cons]; rw [ih]; simp

/-- A loop `for k in [0, n)` that rewrites element `k` of a vector from its
current value changes exactly the first `n` elements. -/
theorem foldl_set_range {α : Type} [Inhabited α] (f : Nat → α → α) (n : Nat) (l : List α)
    (j : Nat) :
    ((List.range n).foldl (fun acc k => acc.set k (f k (acc.getD k default))) l)[j]? =
      if j < n then l[j]?.map (f j) else l[j]? := by
  induction n generalizing j with
  | zero => simp
  | succ n ih =>
    rw [List.range_succ, List.foldl_append]
    simp only [List.foldl_cons, List.foldl_nil]
    have hlen := foldl_set_length (fun acc k => f k (acc.getD k default)) (List.range n) l
    generalize (List.range n).foldl (fun acc k => acc.set k (f k (acc.getD k default))) l
      = acc at ih hlen ⊢
    rw [List.getElem?_set]
    by_cases hjn : n = j
    · subst hjn
      have hn := ih n
      simp only [Nat.lt_irrefl, if_false] at hn
      simp only [if_true, Nat.lt_succ_self, List.getD_eq_getElem?_getD, hn, hlen]
      by_cases hl : n < l.length
      · simp [hl]
      · simp [hl, List.getElem?_eq_none (Nat.le_of_not_lt hl)]
    · simp only [hjn, if_false]
      rw [ih j]
      by_cases hj : j < n
      · simp [hj, Nat.lt_succ_of_lt hj]
      · have : ¬ j < n + 1 := by omega
        simp [hj, this]

/-! ## The ranges of the workers -/

theorem loopRange_self_le (a b : Nat) (h : b ≤ a) : loopRange a b = [] := by
  simp [loopRange, Nat.sub_eq_zero_of_le h]

/-- The index ranges of workers `0 .. n-1`, one after the other, are the
indices below `min (n * per) M`. -/
theorem worker_ranges_upto (M per n : Nat) :
    (List.range n).flatMap (fun tid => loopRange (tid * per) (min (tid * per + per) M)) =
      List.range (min (n * per) M) := by
  induction n with
  | zero => simp
  | succ n ih =>
    rw [List.range_succ, List.flatMap_append, ih]
    simp only [List.flatMap_cons, List.flatMap_nil, List.append_nil]
    have hs : (n + 1) * per = n * per + per := Nat.succ_mul n per
    by_cases h : n * per ≤ M
    · rw [Nat.min_eq_left h, hs]
      unfold loopRange
      rw [List.range_eq_range', List.range_eq_range']
      have := List.range'_append_1 0 (n * per) (min (n * per + per) M - n * per)
      rw [Nat.zero_add] at this
      rw [this]
      congr 1
      omega
    · have h1 : min (n * per) M = M := by omega
      have h2 : min ((n + 1) * per) M = M := by rw [hs]; omega
      rw [h1, h2, loopRange_self_le _ _ (by omega)]
      simp

theorem ceil_div_mul_ge (M T : Nat) (hT : 0 < T) : M ≤ T * ((M + T - 1) / T) := by
  have h1 := Nat.div_add_mod (M + T - 1) T
  have h2 := Nat.mod_lt (M + T - 1) hT
  omega

/-- The index ranges of the `T` workers, one after the other, are exactly the
indices `0 .. M-1`, each once. -/
theorem worker_ranges_cover (M T : Nat) (hT : 0 < T) :
    (List.range T).flatMap
        (fun tid => loopRange (tid * ((M + T - 1) / T))
          (min (tid * ((M + T - 1) / T) + (M + T - 1) / T) M)) =
      List.range M := by
  rw [worker_ranges_upto, Nat.min_eq_right (ceil_div_mul_ge M T hT)]

/-- Running the workers one after the other is running the loop over the
primary sets and the loop over the backup sets on the concatenated ranges. -/
theorem foldl_worker (p : Params) (prf : Nat → Nat → Nat) (db_chunk : List Nat) (i : Nat)
    (ts : List Nat) (acc : (List LocalSet × List Bool) × List LocalBackupSet) :
    ts.foldl (worker p prf db_chunk i) acc =
      ((ts.flatMap (fun tid =>
          loopRange (tid * ((p.primary_set_num + p.thread_num - 1) / p.thread_num))
            (min (tid * ((p.primary_set_num + p.thread_num - 1) / p.thread_num) +
              (p.primary_set_num + p.thread_num - 1) / p.thread_num) p.primary_set_num))).foldl
          (primaryStep p prf db_chunk i) acc.1,
       (ts.flatMap (fun tid =>
          loopRange (tid * ((p.total_backup_set_num + p.thread_num - 1) / p.thread_num))
            (min (tid * ((p.total_backup_set_num + p.thread_num - 1) / p.thread_num) +
              (p.total_backup_set_num + p.thread_num - 1) / p.thread_num)
              p.total_backup_set_num))).foldl
          (backupStep p prf db_chunk i) acc.2) := by
  induction ts generalizing acc with
  | nil => rfl
  | cons t ts ih =>
    simp only [List.foldl_cons, List.flatMap_cons, List.foldl_append]
    rw [ih]
    rfl

/-- The workers of one chunk run the primary loop over `0 .. M1-1` and the
backup loop over all backup sets. -/
theorem workers_eq (p : Params) (prf : Nat → Nat → Nat) (db_chunk : List Nat) (i : Nat)
    (hT : 0 < p.thread_num) (acc : (List LocalSet × List Bool) × List LocalBackupSet) :
    (List.range p.thread_num).foldl (worker p prf db_chunk i) acc =
      ((List.range p.primary_set_num).foldl (primaryStep p prf db_chunk i) acc.1,
       (List.range p.total_backup_set_num).foldl (backupStep p prf db_chunk i) acc.2) := by
  rw [foldl_worker, worker_ranges_cover _ _ hT, worker_ranges_cover _ _ hT]


/-! ## One chunk of `FetchFullDB` -/

theorem getD_set {α : Type} (l : List α) (i k : Nat) (a d : α) :
    (l.set i a).getD k d = if i = k ∧ i < l.length then a else l.getD k d := by
  simp only [List.getD_eq_getElem?_getD, List.getElem?_set]
  by_cases h : i = k
  · subst h
    by_cases h2 : i < l.length
    · simp [h2]
    · simp [h2, List.getElem?_eq_none (Nat.le_of_not_lt h2)]
  · simp [h]

theorem set_getD_self {α : Type} (l : List α) (i : Nat) (d : α) : l.set i (l.getD i d) = l := by
  apply List.ext_getElem?
  intro k
  rw [List.getElem?_set]
  by_cases h : i = k
  · subst h
    by_cases h2 : i < l.length
    · simp [h2, List.getD_eq_getElem?_getD, List.getElem?_eq_getElem h2]
    · simp [h2, List.getElem?_eq_none (Nat.le_of_not_lt h2)]
  · simp [h]

theorem primaryStep_fst (p : Params) (prf : Nat → Nat → Nat) (db_chunk : List Nat) (i : Nat)
    (L : List Nat) (acc : List LocalSet × List Bool) :
    (L.foldl (primaryStep p prf db_chunk i) acc).1 =
      L.foldl (fun a k => a.set k (updPrimary p prf db_chunk i (a.getD k default))) acc.1 := by
  induction L generalizing acc with
  | nil => rfl
  | cons j L ih => simp only [List.foldl_cons]; rw [ih]; rfl

theorem backupStep_eq (p : Params) (prf : Nat → Nat → Nat) (db_chunk : List Nat) (i : Nat)
    (bs : List LocalBackupSet) (j : Nat) :
    backupStep p prf db_chunk i bs j = bs.set j (updBackup p prf db_chunk i j (bs.getD j default)) := by
  unfold backupStep updBackup
  by_cases h : j < i * p.backup_set_num_per_chunk ∨ j ≥ (i + 1) * p.backup_set_num_per_chunk
  · simp only [h, if_true]
  · simp only [h, if_false]
    exact (set_getD_self bs j default).symm

theorem updPrimary_tag (p : Params) (prf : Nat → Nat → Nat) (db_chunk : List Nat) (i : Nat)
    (s : LocalSet) : (updPrimary p prf db_chunk i s).tag = s.tag := rfl

theorem set_updPrimary_tag (p : Params) (prf : Nat → Nat → Nat) (db_chunk : List Nat) (i : Nat)
    (ps : List LocalSet) (j k : Nat) :
    ((ps.set j (updPrimary p prf db_chunk i (ps.getD j default))).getD k default).tag =
      (ps.getD k default).tag := by
  rw [getD_set]
  by_cases h : j = k ∧ j < ps.length
  · obtain ⟨rfl, h2⟩ := h
    rw [if_pos ⟨rfl, h2⟩]; rfl
  · rw [if_neg h]

/-- The hit map after the primary loop over `L`: an offset is marked exactly
when it was marked before or some primary set of `L` selects it. -/
theorem primaryStep_snd (p : Params) (prf : Nat → Nat → Nat) (db_chunk : List Nat) (i : Nat)
    (L : List Nat) (ps : List LocalSet) (hm : List Bool) (k : Nat) :
    ((L.foldl (primaryStep p prf db_chunk i) (ps, hm)).2.getD k false = true ↔
      hm.getD k false = true ∨
        (k < hm.length ∧ ∃ j ∈ L, offset prf p.chunk_size (ps.getD j default).tag i = k)) := by
  induction L generalizing ps hm with
  | nil => simp
  | cons j L ih =>
    simp only [List.foldl_cons]
    have hstep : primaryStep p prf db_chunk i (ps, hm) j =
        (ps.set j (updPrimary p prf db_chunk i (ps.getD j default)),
         hm.set (offset prf p.chunk_size (ps.getD j default).tag i) true) := rfl
    rw [hstep, ih]
    simp only [set_updPrimary_tag, List.length_set, List.mem_cons]
    rw [getD_set]
    constructor
    · rintro (h | ⟨hk, j', hj', h⟩)
      · by_cases hc : offset prf p.chunk_size (ps.getD j default).tag i = k ∧
            offset prf p.chunk_size (ps.getD j default).tag i < hm.length
        · right; exact ⟨hc.1 ▸ hc.2, j, Or.inl rfl, hc.1⟩
        · rw [if_neg hc] at h; left; exact h
      · right; exact ⟨hk, j', Or.inr hj', h⟩
    · rintro (h | ⟨hk, j', hj' | hj', h⟩)
      · left
        by_cases hc : offset prf p.chunk_size (ps.getD j default).tag i = k ∧
            offset prf p.chunk_size (ps.getD j default).tag i < hm.length
        · rw [if_pos hc]
        · rw [if_neg hc]; exact h
      · subst hj'
        left
        rw [if_pos ⟨h, h ▸ hk⟩]
      · right; exact ⟨hk, j', hj', h⟩

theorem offset_lt (prf : Nat → Nat → Nat) (C tag i : Nat) (hC : 0 < C) : offset prf C tag i < C := by
  unfold offset
  have := @Nat.and_le_right (prf tag i) (C - 1)
  omega


theorem processChunk_primary_sets (p : Params) (prf : Nat → Nat → Nat) (db_chunk : List Nat)
    (rnd : Nat → Nat) (st : HintStore) (i : Nat) (hT : 0 < p.thread_num) (j : Nat) :
    (processChunk p prf db_chunk rnd st i).primary_sets[j]? =
      if j < p.primary_set_num then st.primary_sets[j]?.map (updPrimary p prf db_chunk i)
      else st.primary_sets[j]? := by
  unfold processChunk
  simp only []
  rw [workers_eq p prf db_chunk i hT, primaryStep_fst]
  exact foldl_set_range (fun _ s => updPrimary p prf db_chunk i s) p.primary_set_num
    st.primary_sets j

theorem processChunk_backup_sets (p : Params) (prf : Nat → Nat → Nat) (db_chunk : List Nat)
    (rnd : Nat → Nat) (st : HintStore) (i : Nat) (hT : 0 < p.thread_num) (j : Nat) :
    (processChunk p prf db_chunk rnd st i).local_backup_sets[j]? =
      if j < p.total_backup_set_num then
        st.local_backup_sets[j]?.map (updBackup p prf db_chunk i j)
      else st.local_backup_sets[j]? := by
  unfold processChunk
  simp only []
  rw [workers_eq p prf db_chunk i hT]
  simp only []
  have h : (backupStep p prf db_chunk i) =
      fun bs k => bs.set k (updBackup p prf db_chunk i k (bs.getD k default)) := by
    funext bs k; exact backupStep_eq p prf db_chunk i bs k
  rw [h]
  exact foldl_set_range (fun k s => updBackup p prf db_chunk i k s) p.total_backup_set_num
    st.local_backup_sets j

theorem processChunk_cache (p : Params) (prf : Nat → Nat → Nat) (db_chunk : List Nat)
    (rnd : Nat → Nat) (st : HintStore) (i : Nat) :
    (processChunk p prf db_chunk rnd st i).local_cache = st.local_cache := rfl

theorem processChunk_backup_groups (p : Params) (prf : Nat → Nat → Nat) (db_chunk : List Nat)
    (rnd : Nat → Nat) (st : HintStore) (i : Nat) :
    (processChunk p prf db_chunk rnd st i).local_backup_set_groups =
      st.local_backup_set_groups := rfl

/-- The local-miss loop over the offsets `0 .. n-1` of chunk `i`. -/
theorem missStep_foldl (p : Params) (db_chunk : List Nat) (i : Nat) (hit_map : List Bool)
    (n : Nat) (m : Nat → Option DBEntry) (y : Nat) :
    (List.range n).foldl (missStep p db_chunk i hit_map) m y =
      if i * p.chunk_size ≤ y ∧ y < i * p.chunk_size + n ∧
          hit_map.getD (y - i * p.chunk_size) false = false then
        some (sliceAt db_chunk ((y - i * p.chunk_size) * p.entry_size) p.entry_size)
      else m y := by
  induction n with
  | zero =>
    have : ¬ (i * p.chunk_size ≤ y ∧ y < i * p.chunk_size + 0 ∧
        hit_map.getD (y - i * p.chunk_size) false = false) := by omega
    rw [if_neg this]; rfl
  | succ n ih =>
    rw [List.range_succ, List.foldl_append]
    simp only [List.foldl_cons, List.foldl_nil]
    generalize (List.range n).foldl (missStep p db_chunk i hit_map) m = m1 at ih ⊢
    unfold missStep
    by_cases hh : hit_map.getD n false = true
    · simp only [hh, Bool.not_true, Bool.false_eq_true, if_false]
      rw [ih]
      by_cases hy : y = n + i * p.chunk_size
      · have e : y - i * p.chunk_size = n := by omega
        have n1 : ¬ (i * p.chunk_size ≤ y ∧ y < i * p.chunk_size + n ∧
            hit_map.getD (y - i * p.chunk_size) false = false) := by omega
        have n2 : ¬ (i * p.chunk_size ≤ y ∧ y < i * p.chunk_size + (n + 1) ∧
            hit_map.getD (y - i * p.chunk_size) false = false) := by
          rw [e, hh]; simp
        rw [if_neg n1, if_neg n2]
      · have e : (i * p.chunk_size ≤ y ∧ y < i * p.chunk_size + n ∧
            hit_map.getD (y - i * p.chunk_size) false = false) ↔
            (i * p.chunk_size ≤ y ∧ y < i * p.chunk_size + (n + 1) ∧
            hit_map.getD (y - i * p.chunk_size) false = false) := by
          constructor
          · rintro ⟨a, b, c⟩; exact ⟨a, by omega, c⟩
          · rintro ⟨a, b, c⟩; exact ⟨a, by omega, c⟩
        simp only [e]
    · have hf : hit_map.getD n false = false := by simpa using hh
      simp only [hf, Bool.not_false, if_true]
      unfold mapInsert DBEntryFromSlice
      by_cases hy : y = n + i * p.chunk_size
      · have e : y - i * p.chunk_size = n := by omega
        have n2 : (i * p.chunk_size ≤ y ∧ y < i * p.chunk_size + (n + 1) ∧
            hit_map.getD (y - i * p.chunk_size) false = false) := by
          rw [e]; exact ⟨by omega, by omega, hf⟩
        rw [if_pos hy, if_pos n2, e]
      · rw [if_neg hy, ih]
        have e : (i * p.chunk_size ≤ y ∧ y < i * p.chunk_size + n ∧
            hit_map.getD (y - i * p.chunk_size) false = false) ↔
            (i * p.chunk_size ≤ y ∧ y < i * p.chunk_size + (n + 1) ∧
            hit_map.getD (y - i * p.chunk_size) false = false) := by
          constructor
          · rintro ⟨a, b, c⟩; exact ⟨a, by omega, c⟩
          · rintro ⟨a, b, c⟩; exact ⟨a, by omega, c⟩
        simp only [e]


theorem replicate_false_getD (C k : Nat) : (List.replicate C false).getD k false = false := by
  simp only [List.getD_eq_getElem?_getD, List.getElem?_replicate]
  by_cases h : k < C <;> simp [h]

theorem chunk_bounds_iff (C i y : Nat) (hC : 0 < C) :
    (i * C ≤ y ∧ y < i * C + C) ↔ y / C = i := by
  constructor
  · rintro ⟨h1, h2⟩
    apply Nat.div_eq_of_lt_le
    · rw [Nat.mul_comm] at h1; rw [Nat.mul_comm]; exact h1
    · rw [Nat.succ_mul]; exact h2
  · intro h
    subst h
    have h1 := Nat.div_add_mod y C
    have h2 := Nat.mod_lt y hC
    rw [Nat.mul_comm] at h1
    constructor <;> omega

theorem sub_chunk_eq_mod (C y : Nat) : y - y / C * C = y % C := by
  have h1 := Nat.div_add_mod y C
  rw [Nat.mul_comm] at h1
  omega

/-- The local-miss table after chunk `i`: an index of chunk `i` whose offset no
primary set selects is recorded with the entry of the chunk at that offset. -/
theorem processChunk_miss_new (p : Params) (prf : Nat → Nat → Nat) (db_chunk : List Nat)
    (rnd : Nat → Nat) (st : HintStore) (i y : Nat) (hT : 0 < p.thread_num)
    (hC : 0 < p.chunk_size) (hy : y / p.chunk_size = i)
    (hno : ¬ ∃ j, j < p.primary_set_num ∧
      offset prf p.chunk_size (st.primary_sets.getD j default).tag i = y % p.chunk_size) :
    (processChunk p prf db_chunk rnd st i).local_miss_elements y =
      some (sliceAt db_chunk (y % p.chunk_size * p.entry_size) p.entry_size) := by
  unfold processChunk
  simp only []
  rw [workers_eq p prf db_chunk i hT, missStep_foldl]
  have hb := (chunk_bounds_iff p.chunk_size i y hC).mpr hy
  have hsub : y - i * p.chunk_size = y % p.chunk_size := by
    rw [← hy]; exact sub_chunk_eq_mod _ _
  rw [hsub]
  have hhit : ((List.range p.primary_set_num).foldl (primaryStep p prf db_chunk i)
      (st.primary_sets, List.replicate p.chunk_size false)).2.getD (y % p.chunk_size) false
        = false := by
    cases hv : ((List.range p.primary_set_num).foldl (primaryStep p prf db_chunk i)
      (st.primary_sets, List.replicate p.chunk_size false)).2.getD (y % p.chunk_size) false with
    | false => rfl
    | true =>
      exfalso
      rcases (primaryStep_snd p prf db_chunk i _ _ _ _).mp hv with h | ⟨_, j, hj, h⟩
      · rw [replicate_false_getD] at h; exact absurd h (by simp)
      · exact hno ⟨j, List.mem_range.mp hj, h⟩
  rw [if_pos ⟨hb.1, hb.2, hhit⟩]

/-- The local-miss table after chunk `i` is unchanged at an index outside chunk
`i` and at an index whose offset some primary set selects. -/
theorem processChunk_miss_old (p : Params) (prf : Nat → Nat → Nat) (db_chunk : List Nat)
    (rnd : Nat → Nat) (st : HintStore) (i y : Nat) (hT : 0 < p.thread_num)
    (hC : 0 < p.chunk_size)
    (h : y / p.chunk_size ≠ i ∨ ∃ j, j < p.primary_set_num ∧
      offset prf p.chunk_size (st.primary_sets.getD j default).tag i = y % p.chunk_size) :
    (processChunk p prf db_chunk rnd st i).local_miss_elements y = st.local_miss_elements y := by
  unfold processChunk
  simp only []
  rw [workers_eq p prf db_chunk i hT, missStep_foldl]
  apply if_neg
  rintro ⟨h1, h2, h3⟩
  have hy := (chunk_bounds_iff p.chunk_size i y hC).mp ⟨h1, h2⟩
  rcases h with h | ⟨j, hj, ho⟩
  · exact h hy
  · have hsub : y - i * p.chunk_size = y % p.chunk_size := by
      rw [← hy]; exact sub_chunk_eq_mod _ _
    rw [hsub] at h3
    have ht : ((List.range p.primary_set_num).foldl (primaryStep p prf db_chunk i)
        (st.primary_sets, List.replicate p.chunk_size false)).2.getD (y % p.chunk_size) false
          = true :=
      (primaryStep_snd p prf db_chunk i _ _ _ _).mpr
        (Or.inr ⟨by simpa using Nat.mod_lt y hC, j, List.mem_range.mpr hj, ho⟩)
    rw [ht] at h3
    exact absurd h3 (by simp)

/-! ## All chunks of `FetchFullDB` -/

theorem fetchPrefix_succ (p : Params) (prf : Nat → Nat → Nat) (chunks : Nat → List Nat)
    (rnd : Nat → Nat → Nat) (st : HintStore) (n : Nat) :
    fetchPrefix p prf chunks rnd st (n + 1) =
      processChunk p prf (chunks n) (rnd n) (fetchPrefix p prf chunks rnd st n) n := by
  simp [fetchPrefix, List.range_succ, List.foldl_append]

theorem FetchFullDB_eq (p : Params) (prf : Nat → Nat → Nat) (chunks : Nat → List Nat)
    (rnd : Nat → Nat → Nat) (st : HintStore) :
    FetchFullDB p prf chunks rnd st = fetchPrefix p prf chunks rnd st p.set_size := rfl

theorem fetchPrefix_primary_sets (p : Params) (prf : Nat → Nat → Nat) (chunks : Nat → List Nat)
    (rnd : Nat → Nat → Nat) (st : HintStore) (hT : 0 < p.thread_num) (n j : Nat) :
    (fetchPrefix p prf chunks rnd st n).primary_sets[j]? =
      if j < p.primary_set_num then
        st.primary_sets[j]?.map (fun s =>
          { s with
            parity :=
              (List.range n).foldl (fun acc i => XorFromRaw acc (chunks i)
                (offset prf p.chunk_size s.tag i * p.entry_size)) s.parity })
      else st.primary_sets[j]? := by
  induction n with
  | zero =>
    simp only [fetchPrefix, List.range_zero, List.foldl_nil]
    split
    · cases st.primary_sets[j]? <;> rfl
    · rfl
  | succ n ih =>
    rw [fetchPrefix_succ, processChunk_primary_sets _ _ _ _ _ _ hT, ih]
    by_cases hj : j < p.primary_set_num
    · simp only [hj, if_true, Option.map_map]
      congr 1
      funext s
      simp [updPrimary, List.range_succ, List.foldl_append]
    · simp only [hj, if_false]

theorem fetchPrefix_backup_sets (p : Params) (prf : Nat → Nat → Nat) (chunks : Nat → List Nat)
    (rnd : Nat → Nat → Nat) (st : HintStore) (hT : 0 < p.thread_num) (n j : Nat) :
    (fetchPrefix p prf chunks rnd st n).local_backup_sets[j]? =
      if j < p.total_backup_set_num then
        st.local_backup_sets[j]?.map (fun b =>
          { b with
            parity_after_puncture :=
              (List.range n).foldl (fun acc i =>
                if j < i * p.backup_set_num_per_chunk ∨
                    j ≥ (i + 1) * p.backup_set_num_per_chunk then
                  XorFromRaw acc (chunks i) (offset prf p.chunk_size b.tag i * p.entry_size)
                else acc) b.parity_after_puncture })
      else st.local_backup_sets[j]? := by
  induction n with
  | zero =>
    simp only [fetchPrefix, List.range_zero, List.foldl_nil]
    split
    · cases st.local_backup_sets[j]? <;> rfl
    · rfl
  | succ n ih =>
    rw [fetchPrefix_succ, processChunk_backup_sets _ _ _ _ _ _ hT, ih]
    by_cases hj : j < p.total_backup_set_num
    · simp only [hj, if_true, Option.map_map]
      congr 1
      funext b
      simp only [Function.comp, updBackup, List.range_succ, List.foldl_append, List.foldl_cons,
        List.foldl_nil]
      split <;> rfl
    · simp only [hj, if_false]


theorem XorFromRaw_length_le (a : DBEntry) (buf : List Nat) (pos : Nat) :
    (XorFromRaw a buf pos).length ≤ a.length := by
  simp only [XorFromRaw, List.length_zipWith]
  omega

/-- A loop that XORs raw entries of the chunks into an accumulator, skipping
the chunks that fail `c`, computes the XOR of the entries it reads. -/
theorem foldl_XorFromRaw (E : Nat) (chunks : Nat → List Nat) (o : Nat → Nat) (c : Nat → Prop)
    [DecidablePred c] (L : List Nat) (acc : DBEntry) (h : acc.length ≤ E) :
    L.foldl (fun acc i => if c i then XorFromRaw acc (chunks i) (o i * E) else acc) acc =
      ((L.filter (fun i => decide (c i))).map (fun i => sliceAt (chunks i) (o i * E) E)).foldl
        Xor acc := by
  induction L generalizing acc with
  | nil => rfl
  | cons i L ih =>
    simp only [List.foldl_cons]
    by_cases hc : c i
    · rw [if_pos hc, List.filter_cons_of_pos (by simpa using hc)]
      simp only [List.map_cons, List.foldl_cons]
      rw [ih _ (Nat.le_trans (XorFromRaw_length_le _ _ _) h), XorFromRaw_eq _ _ _ E h]
    · rw [if_neg hc, List.filter_cons_of_neg (by simpa using hc)]
      exact ih _ h

theorem DB_at (p : Params) (chunks : Nat → List Nat) (o i : Nat) (ho : o < p.chunk_size) :
    DB p chunks (o + i * p.chunk_size) = sliceAt (chunks i) (o * p.entry_size) p.entry_size := by
  have hC : 0 < p.chunk_size := by omega
  unfold DB
  rw [Nat.add_mul_div_right _ _ hC, Nat.add_mul_mod_self_right, Nat.div_eq_of_lt ho,
    Nat.mod_eq_of_lt ho, Nat.zero_add]

theorem DB_self (p : Params) (chunks : Nat → List Nat) (y : Nat) :
    DB p chunks y =
      sliceAt (chunks (y / p.chunk_size)) (y % p.chunk_size * p.entry_size) p.entry_size := rfl

/-- The parity loop of a primary set over the first `n` chunks. -/
theorem primary_parity_fold (p : Params) (prf : Nat → Nat → Nat) (chunks : Nat → List Nat)
    (tag n : Nat) (hC : 0 < p.chunk_size) :
    (List.range n).foldl (fun acc i => XorFromRaw acc (chunks i)
        (offset prf p.chunk_size tag i * p.entry_size)) (ZeroEntry p.entry_size) =
      xorAll p.entry_size ((List.range n).map
        (fun i => DB p chunks (offset prf p.chunk_size tag i + i * p.chunk_size))) := by
  have h := foldl_XorFromRaw p.entry_size chunks (fun i => offset prf p.chunk_size tag i)
    (fun _ => True) (List.range n) (ZeroEntry p.entry_size) (by simp [ZeroEntry])
  simp only [if_true, decide_True, List.filter_true] at h
  rw [h]
  unfold xorAll
  congr 1
  apply List.map_congr_left
  intro i _
  exact (DB_at p chunks _ i (offset_lt prf _ tag i hC)).symm

/-- The parity loop of backup set `b` over the first `n` chunks. -/
theorem backup_parity_fold (p : Params) (prf : Nat → Nat → Nat) (chunks : Nat → List Nat)
    (tag b n : Nat) (hC : 0 < p.chunk_size) (hM : 0 < p.backup_set_num_per_chunk) :
    (List.range n).foldl (fun acc i =>
        if b < i * p.backup_set_num_per_chunk ∨ b ≥ (i + 1) * p.backup_set_num_per_chunk then
          XorFromRaw acc (chunks i) (offset prf p.chunk_size tag i * p.entry_size)
        else acc) (ZeroEntry p.entry_size) =
      xorAll p.entry_size
        (((List.range n).filter (fun i => decide (i ≠ b / p.backup_set_num_per_chunk))).map
          (fun i => DB p chunks (offset prf p.chunk_size tag i + i * p.chunk_size))) := by
  have h := foldl_XorFromRaw p.entry_size chunks (fun i => offset prf p.chunk_size tag i)
    (fun i => b < i * p.backup_set_num_per_chunk ∨ b ≥ (i + 1) * p.backup_set_num_per_chunk)
    (List.range n) (ZeroEntry p.entry_size) (by simp [ZeroEntry])
  rw [h]
  unfold xorAll
  congr 1
  have hf : (List.range n).filter (fun i => decide
        (b < i * p.backup_set_num_per_chunk ∨ b ≥ (i + 1) * p.backup_set_num_per_chunk)) =
      (List.range n).filter (fun i => decide (i ≠ b / p.backup_set_num_per_chunk)) := by
    apply List.filter_congr
    intro i _
    have hiff := chunk_bounds_iff p.backup_set_num_per_chunk i b hM
    rw [Nat.succ_mul]
    by_cases hq : b / p.backup_set_num_per_chunk = i
    · have := hiff.mpr hq
      have h1 : ¬ (b < i * p.backup_set_num_per_chunk ∨
          b ≥ i * p.backup_set_num_per_chunk + p.backup_set_num_per_chunk) := by omega
      simp [h1, hq]
    · have h1 : (b < i * p.backup_set_num_per_chunk ∨
          b ≥ i * p.backup_set_num_per_chunk + p.backup_set_num_per_chunk) := by
        by_contra hcon
        exact hq (hiff.mp (by omega))
      have h2 : i ≠ b / p.backup_set_num_per_chunk := fun e => hq e.symm
      simp [h1, h2]
  rw [hf]
  apply List.map_congr_left
  intro i _
  exact (DB_at p chunks _ i (offset_lt prf _ tag i hC)).symm

/-- The primary sets after `FetchFullDB` on a freshly initialised store. -/
theorem FetchFullDB_primary (p : Params) (prf : Nat → Nat → Nat) (chunks : Nat → List Nat)
    (rnd : Nat → Nat → Nat) (j : Nat) (hT : 0 < p.thread_num) (hC : 0 < p.chunk_size)
    (hj : j < p.primary_set_num) :
    (FetchFullDB p prf chunks rnd (InitializeLocalSets p)).primary_sets[j]? =
      some { tag := j % 2 ^ 32
             parity := xorAll p.entry_size ((List.range p.set_size).map
               (fun i => DB p chunks (offset prf p.chunk_size (j % 2 ^ 32) i + i * p.chunk_size)))
             programmed_point := 0
             is_programmed := false } := by
  rw [FetchFullDB_eq, fetchPrefix_primary_sets _ _ _ _ _ hT, if_pos hj]
  simp only [InitializeLocalSets, List.getElem?_map, List.getElem?_range hj, Option.map_some']
  rw [primary_parity_fold p prf chunks _ _ hC]

/-- The backup sets after `FetchFullDB` on a freshly initialised store. -/
theorem FetchFullDB_backup (p : Params) (prf : Nat → Nat → Nat) (chunks : Nat → List Nat)
    (rnd : Nat → Nat → Nat) (b : Nat) (hT : 0 < p.thread_num) (hC : 0 < p.chunk_size)
    (hM : 0 < p.backup_set_num_per_chunk) (hb : b < p.total_backup_set_num) :
    (FetchFullDB p prf chunks rnd (InitializeLocalSets p)).local_backup_sets[b]? =
      some { tag := (p.primary_set_num + b) % 2 ^ 32
             parity_after_puncture := xorAll p.entry_size
               (((List.range p.set_size).filter
                  (fun i => decide (i ≠ b / p.backup_set_num_per_chunk))).map
                 (fun i => DB p chunks
                   (offset prf p.chunk_size ((p.primary_set_num + b) % 2 ^ 32) i +
                     i * p.chunk_size))) } := by
  rw [FetchFullDB_eq, fetchPrefix_backup_sets _ _ _ _ _ hT, if_pos hb]
  simp only [InitializeLocalSets, List.getElem?_map, List.getElem?_range hb, Option.map_some']
  rw [backup_parity_fold p prf chunks _ _ _ hC hM]


/-! ## Claims on preprocessing -/

/-- C5. Primary parity established by preprocessing: after `FetchFullDB` has
processed all `S` chunks of a freshly initialised store, for every primary set
`j` in `[0, M1)` the parity equals the XOR over `i` in `[0, S)` of the database
entry at index `(PRF(long_key, tag_j, i) AND (C-1)) + i*C`, where `tag_j` is
the tag `j mod 2^32` the set was given, and the set is still not programmed.
It holds for any worker count `T ≥ 1`.  The entries are read off the chunks as
the client reads them, `E` bytes at byte offset `off * E`, so the statement
needs no hypothesis on the length of the chunks. -/
theorem primary_parity_after_preprocessing (p : Params) (prf : Nat → Nat → Nat)
    (chunks : Nat → List Nat) (rnd : Nat → Nat → Nat) (j : Nat) (hT : 0 < p.thread_num)
    (hC : 0 < p.chunk_size) (hj : j < p.primary_set_num) :
    (FetchFullDB p prf chunks rnd (InitializeLocalSets p)).primary_sets.getD j default =
      { tag := j % 2 ^ 32
        parity := xorAll p.entry_size ((List.range p.set_size).map
          (fun i => DB p chunks (offset prf p.chunk_size (j % 2 ^ 32) i + i * p.chunk_size)))
        programmed_point := 0
        is_programmed := false } := by
  rw [List.getD_eq_getElem?_getD, FetchFullDB_primary p prf chunks rnd j hT hC hj]
  rfl

theorem primary_parity_after_preprocessing_witness :
    (0 < exParams.thread_num ∧ 0 < exParams.chunk_size ∧ 1 < exParams.primary_set_num) ∧
    exStore.primary_sets.getD 1 default =
      { tag := 1, parity := Xor (Xor [0] (exDB 1)) (exDB 3), programmed_point := 0,
        is_programmed := false } :=
  ⟨by decide,
   primary_parity_after_preprocessing exParams exPrf exChunks (fun _ _ => 0) 1 (by decide)
     (by decide) (by decide)⟩

/-- C6. Backup parity established by preprocessing: after `FetchFullDB` on a
freshly initialised store with `M2 * S` backup sets, for every backup set `b`
in `[0, M2*S)`, `parity_after_puncture` equals the XOR of the database entries
at `(PRF(long_key, tag_b, i) AND (C-1)) + i*C` over every chunk `i` in `[0, S)`
except `i = b / M2`, where `tag_b` is the tag `(M1 + b) mod 2^32` the set was
given; the element of the set's own chunk is not XORed in. -/
theorem backup_parity_after_preprocessing (p : Params) (prf : Nat → Nat → Nat)
    (chunks : Nat → List Nat) (rnd : Nat → Nat → Nat) (b : Nat) (hT : 0 < p.thread_num)
    (hC : 0 < p.chunk_size)
    (htot : p.total_backup_set_num = p.backup_set_num_per_chunk * p.set_size)
    (hb : b < p.backup_set_num_per_chunk * p.set_size) :
    (FetchFullDB p prf chunks rnd (InitializeLocalSets p)).local_backup_sets.getD b default =
      { tag := (p.primary_set_num + b) % 2 ^ 32
        parity_after_puncture := xorAll p.entry_size
          (((List.range p.set_size).filter
              (fun i => decide (i ≠ b / p.backup_set_num_per_chunk))).map
            (fun i => DB p chunks
              (offset prf p.chunk_size ((p.primary_set_num + b) % 2 ^ 32) i +
                i * p.chunk_size))) } := by
  have hM : 0 < p.backup_set_num_per_chunk := by
    rcases Nat.eq_zero_or_pos p.backup_set_num_per_chunk with h | h
    · rw [h, Nat.zero_mul] at hb; exact absurd hb (Nat.not_lt_zero _)
    · exact h
  rw [List.getD_eq_getElem?_getD,
    FetchFullDB_backup p prf chunks rnd b hT hC hM (by rw [htot]; exact hb)]
  rfl

theorem backup_parity_after_preprocessing_witness :
    (0 < exParams.thread_num ∧ 0 < exParams.chunk_size ∧
      exParams.total_backup_set_num = exParams.backup_set_num_per_chunk * exParams.set_size ∧
      3 < exParams.backup_set_num_per_chunk * exParams.set_size) ∧
    exStore.local_backup_sets.getD 3 default =
      { tag := 5, parity_after_puncture := Xor [0] (exDB 0) } :=
  ⟨by decide,
   backup_parity_after_preprocessing exParams exPrf exChunks (fun _ _ => 0) 3 (by decide)
     (by decide) (by decide) (by decide)⟩


/-! ## The local-miss table after `FetchFullDB` -/

theorem fetchPrefix_init_tag (p : Params) (prf : Nat → Nat → Nat) (chunks : Nat → List Nat)
    (rnd : Nat → Nat → Nat) (hT : 0 < p.thread_num) (n j : Nat) (hj : j < p.primary_set_num) :
    ((fetchPrefix p prf chunks rnd (InitializeLocalSets p) n).primary_sets.getD j default).tag =
      j % 2 ^ 32 := by
  rw [List.getD_eq_getElem?_getD, fetchPrefix_primary_sets _ _ _ _ _ hT, if_pos hj]
  simp [InitializeLocalSets, List.getElem?_range hj]

theorem selected_iff_init (p : Params) (prf : Nat → Nat → Nat) (chunks : Nat → List Nat)
    (rnd : Nat → Nat → Nat) (hT : 0 < p.thread_num) (n i k : Nat) :
    (∃ j, j < p.primary_set_num ∧ offset prf p.chunk_size
      ((fetchPrefix p prf chunks rnd (InitializeLocalSets p) n).primary_sets.getD j default).tag i
        = k) ↔
    ∃ j, j < p.primary_set_num ∧ offset prf p.chunk_size (j % 2 ^ 32) i = k := by
  constructor
  · rintro ⟨j, hj, h⟩
    rw [fetchPrefix_init_tag p prf chunks rnd hT n j hj] at h
    exact ⟨j, hj, h⟩
  · rintro ⟨j, hj, h⟩
    refine ⟨j, hj, ?_⟩
    rw [fetchPrefix_init_tag p prf chunks rnd hT n j hj]
    exact h

/-- The local-miss table after the first `n` chunks. -/
theorem fetchPrefix_miss (p : Params) (prf : Nat → Nat → Nat) (chunks : Nat → List Nat)
    (rnd : Nat → Nat → Nat) (hT : 0 < p.thread_num) (hC : 0 < p.chunk_size) (n y : Nat) :
    (y / p.chunk_size < n →
      (¬ ∃ j, j < p.primary_set_num ∧
        offset prf p.chunk_size (j % 2 ^ 32) (y / p.chunk_size) = y % p.chunk_size) →
      (fetchPrefix p prf chunks rnd (InitializeLocalSets p) n).local_miss_elements y =
        some (DB p chunks y)) ∧
    ((n ≤ y / p.chunk_size ∨ ∃ j, j < p.primary_set_num ∧
        offset prf p.chunk_size (j % 2 ^ 32) (y / p.chunk_size) = y % p.chunk_size) →
      (fetchPrefix p prf chunks rnd (InitializeLocalSets p) n).local_miss_elements y = none) := by
  induction n with
  | zero =>
    refine ⟨fun h => absurd h (Nat.not_lt_zero _), fun _ => rfl⟩
  | succ n ih =>
    rw [fetchPrefix_succ]
    constructor
    · intro hlt hno
      by_cases hy : y / p.chunk_size = n
      · rw [processChunk_miss_new p prf (chunks n) (rnd n) _ n y hT hC hy]
        · rw [DB_self, hy]
        · rw [selected_iff_init p prf chunks rnd hT n n (y % p.chunk_size), ← hy]
          exact hno
      · rw [processChunk_miss_old p prf (chunks n) (rnd n) _ n y hT hC (Or.inl hy)]
        exact ih.1 (by omega) hno
    · intro h
      have hold : y / p.chunk_size ≠ n ∨ ∃ j, j < p.primary_set_num ∧
          offset prf p.chunk_size ((fetchPrefix p prf chunks rnd (InitializeLocalSets p)
            n).primary_sets.getD j default).tag n = y % p.chunk_size := by
        by_cases hy : y / p.chunk_size = n
        · right
          rw [selected_iff_init p prf chunks rnd hT n n (y % p.chunk_size), ← hy]
          rcases h with h | h
          · omega
          · exact h
        · exact Or.inl hy
      rw [processChunk_miss_old p prf (chunks n) (rnd n) _ n y hT hC hold]
      apply ih.2
      rcases h with h | h
      · exact Or.inl (by omega)
      · exact Or.inr h


/-- C10. Local-miss table contents: after `FetchFullDB` on a freshly
initialised store, for every absolute index `y < C*S`, `y` is a key of
`local_miss_elements` if and only if no primary set `j` in `[0, M1)` satisfies
`PRF(long_key, tag_j, y / C) AND (C-1) == y mod C`, and for every such key
`local_miss_elements[y] == DB[y]`. -/
theorem local_miss_table_contents (p : Params) (prf : Nat → Nat → Nat)
    (chunks : Nat → List Nat) (rnd : Nat → Nat → Nat) (y : Nat) (hT : 0 < p.thread_num)
    (hy : y < p.chunk_size * p.set_size) :
    (((FetchFullDB p prf chunks rnd (InitializeLocalSets p)).local_miss_elements y).isSome = true ↔
      ¬ ∃ j, j < p.primary_set_num ∧
        offset prf p.chunk_size
          ((FetchFullDB p prf chunks rnd (InitializeLocalSets p)).primary_sets.getD j default).tag
          (y / p.chunk_size) = y % p.chunk_size) ∧
    ∀ v, (FetchFullDB p prf chunks rnd (InitializeLocalSets p)).local_miss_elements y = some v →
      v = DB p chunks y := by
  have hC : 0 < p.chunk_size := by
    rcases Nat.eq_zero_or_pos p.chunk_size with h | h
    · rw [h, Nat.zero_mul] at hy; exact absurd hy (Nat.not_lt_zero _)
    · exact h
  have hg := chunk_id_lt _ _ _ hy
  have hm := fetchPrefix_miss p prf chunks rnd hT hC p.set_size y
  rw [FetchFullDB_eq, selected_iff_init p prf chunks rnd hT]
  by_cases hsel : ∃ j, j < p.primary_set_num ∧
      offset prf p.chunk_size (j % 2 ^ 32) (y / p.chunk_size) = y % p.chunk_size
  · rw [hm.2 (Or.inr hsel)]
    exact ⟨⟨fun h => absurd h (by simp), fun h => absurd hsel h⟩, fun v hv => by simp at hv⟩
  · rw [hm.1 hg hsel]
    refine ⟨⟨fun _ => hsel, fun _ => rfl⟩, ?_⟩
    intro v hv
    exact (Option.some.inj hv).symm

theorem local_miss_table_contents_witness :
    (0 < exParams.thread_num ∧ 1 < exParams.chunk_size * exParams.set_size) ∧
    exStoreMiss.local_miss_elements 1 = some [11] ∧
    [11] = DB exParams exChunks 1 :=
  ⟨by decide, by decide,
   (local_miss_table_contents exParams (fun _ _ => 0) exChunks (fun _ _ => 0) 1 (by decide)
     (by decide)).2 [11] (by decide)⟩


/-! ## The replacement groups after `FetchFullDB` -/

theorem replacementStep_eq (p : Params) (db_chunk : List Nat) (rnd : Nat → Nat) (i : Nat)
    (gs : List LocalReplacementGroup) (k : Nat) :
    replacementStep p db_chunk rnd i gs k =
      gs.set i (updReplacement p db_chunk rnd i k (gs.getD i default)) := rfl

/-- A loop that rewrites the same vector element in every iteration. -/
theorem foldl_set_same {α : Type} [Inhabited α] (f : Nat → α → α) (i : Nat) (L : List Nat)
    (l : List α) (j : Nat) :
    (L.foldl (fun acc k => acc.set i (f k (acc.getD i default))) l)[j]? =
      if j = i then l[j]?.map (fun a => L.foldl (fun a k => f k a) a) else l[j]? := by
  induction L generalizing l with
  | nil =>
    simp only [List.foldl_nil]
    split
    · cases l[j]? <;> rfl
    · rfl
  | cons k L ih =>
    simp only [List.foldl_cons]
    rw [ih, List.getElem?_set]
    by_cases hj : j = i
    · subst hj
      simp only [if_true, List.getD_eq_getElem?_getD]
      by_cases hl : j < l.length
      · simp [hl, List.getElem?_eq_getElem hl]
      · simp [hl, List.getElem?_eq_none (Nat.le_of_not_lt hl)]
    · have : ¬ i = j := fun e => hj e.symm
      simp only [hj, this, if_false]

theorem foldl_updReplacement (p : Params) (db_chunk : List Nat) (rnd : Nat → Nat) (i : Nat)
    (L : List Nat) (g : LocalReplacementGroup) :
    L.foldl (fun a k => updReplacement p db_chunk rnd i k a) g =
      { consumed := g.consumed
        indices := L.foldl (fun l k => l.set k
          ((fun k _ => (rnd k &&& (p.chunk_size - 1)) + i * p.chunk_size) k (l.getD k default)))
          g.indices
        values := L.foldl (fun l k => l.set k
          ((fun k _ => sliceAt db_chunk ((rnd k &&& (p.chunk_size - 1)) * p.entry_size)
            p.entry_size) k (l.getD k default))) g.values } := by
  induction L generalizing g with
  | nil => rfl
  | cons k L ih => simp only [List.foldl_cons]; rw [ih]; rfl

theorem processChunk_replacement_groups (p : Params) (prf : Nat → Nat → Nat)
    (db_chunk : List Nat) (rnd : Nat → Nat) (st : HintStore) (i j : Nat) :
    (processChunk p prf db_chunk rnd st i).local_replacement_groups[j]? =
      if j = i then st.local_replacement_groups[j]?.map (filledGroup p db_chunk rnd i)
      else st.local_replacement_groups[j]? := by
  unfold processChunk
  simp only []
  have h : replacementStep p db_chunk rnd i =
      fun gs k => gs.set i (updReplacement p db_chunk rnd i k (gs.getD i default)) := by
    funext gs k; rfl
  rw [h]
  exact foldl_set_same (fun k g => updReplacement p db_chunk rnd i k g) i _ _ j

theorem fetchPrefix_replacement_groups (p : Params) (prf : Nat → Nat → Nat)
    (chunks : Nat → List Nat) (rnd : Nat → Nat → Nat) (st : HintStore) (n j : Nat) :
    (fetchPrefix p prf chunks rnd st n).local_replacement_groups[j]? =
      if j < n then st.local_replacement_groups[j]?.map (filledGroup p (chunks j) (rnd j) j)
      else st.local_replacement_groups[j]? := by
  induction n with
  | zero => rfl
  | succ n ih =>
    rw [fetchPrefix_succ, processChunk_replacement_groups, ih]
    by_cases hj : j = n
    · subst hj
      simp
    · by_cases hlt : j < n
      · have : j < n + 1 := by omega
        simp [hj, hlt, this]
      · have : ¬ j < n + 1 := by omega
        simp [hj, hlt, this]

theorem filledGroup_consumed (p : Params) (db_chunk : List Nat) (rnd : Nat → Nat) (i : Nat)
    (g : LocalReplacementGroup) : (filledGroup p db_chunk rnd i g).consumed = g.consumed := by
  unfold filledGroup; rw [foldl_updReplacement]

theorem filledGroup_indices (p : Params) (db_chunk : List Nat) (rnd : Nat → Nat) (i k : Nat)
    (g : LocalReplacementGroup) (hk : k < p.backup_set_num_per_chunk) (hl : k < g.indices.length) :
    (filledGroup p db_chunk rnd i g).indices[k]? =
      some ((rnd k &&& (p.chunk_size - 1)) + i * p.chunk_size) := by
  unfold filledGroup
  rw [foldl_updReplacement]
  simp only []
  rw [foldl_set_range (fun k _ => (rnd k &&& (p.chunk_size - 1)) + i * p.chunk_size), if_pos hk,
    List.getElem?_eq_getElem hl]
  rfl

theorem filledGroup_values (p : Params) (db_chunk : List Nat) (rnd : Nat → Nat) (i k : Nat)
    (g : LocalReplacementGroup) (hk : k < p.backup_set_num_per_chunk) (hl : k < g.values.length) :
    (filledGroup p db_chunk rnd i g).values[k]? =
      some (sliceAt db_chunk ((rnd k &&& (p.chunk_size - 1)) * p.entry_size) p.entry_size) := by
  unfold filledGroup
  rw [foldl_updReplacement]
  simp only []
  rw [foldl_set_range (fun k _ => sliceAt db_chunk ((rnd k &&& (p.chunk_size - 1)) * p.entry_size)
    p.entry_size), if_pos hk, List.getElem?_eq_getElem hl]
  rfl

/-- The replacement groups after `FetchFullDB` on a freshly initialised store:
slot `k` of group `g` holds an index of chunk `g` and the database entry at
that index, and nothing is consumed. -/
theorem FetchFullDB_replacement (p : Params) (prf : Nat → Nat → Nat) (chunks : Nat → List Nat)
    (rnd : Nat → Nat → Nat) (g k : Nat) (hC : 0 < p.chunk_size) (hg : g < p.set_size)
    (hk : k < p.backup_set_num_per_chunk) :
    ((FetchFullDB p prf chunks rnd (InitializeLocalSets p)).local_replacement_groups.getD g
        default).consumed = 0 ∧
    ((FetchFullDB p prf chunks rnd (InitializeLocalSets p)).local_replacement_groups.getD g
        default).indices.getD k 0 = (rnd g k &&& (p.chunk_size - 1)) + g * p.chunk_size ∧
    ((FetchFullDB p prf chunks rnd (InitializeLocalSets p)).local_replacement_groups.getD g
        default).values.getD k [] =
      DB p chunks ((rnd g k &&& (p.chunk_size - 1)) + g * p.chunk_size) := by
  have hget : (FetchFullDB p prf chunks rnd (InitializeLocalSets p)).local_replacement_groups[g]? =
      some (filledGroup p (chunks g) (rnd g) g
        { consumed := 0, indices := List.replicate p.backup_set_num_per_chunk 0,
          values := List.replicate p.backup_set_num_per_chunk [] }) := by
    rw [FetchFullDB_eq, fetchPrefix_replacement_groups, if_pos hg]
    simp [InitializeLocalSets, List.getElem?_replicate, hg]
  simp only [List.getD_eq_getElem?_getD, hget, Option.getD_some]
  refine ⟨by rw [filledGroup_consumed], ?_, ?_⟩
  · rw [filledGroup_indices _ _ _ _ _ _ hk (by simpa using hk)]; rfl
  · rw [filledGroup_values _ _ _ _ _ _ hk (by simpa using hk)]
    have ho : rnd g k &&& (p.chunk_size - 1) < p.chunk_size := by
      have := @Nat.and_le_right (rnd g k) (p.chunk_size - 1)
      omega
    rw [DB_at p chunks _ g ho]; rfl


/-! ## Case analysis of `OnlineSingleQuery` -/

/-- The six paths of `OnlineSingleQuery`: a property holds of the result of the
call as soon as it holds of the result of each path. -/
theorem OnlineSingleQuery_cases (p : Params) (prf : Nat → Nat → Nat)
    (resp : List Nat → List Nat) (rnd : Nat → Nat) (x : Nat) (st : HintStore)
    (P : DBEntry × HintStore × List Event → Prop)
    (hcached : ∀ v, st.local_cache x = some v → P (v, st, SendDummySet p rnd))
    (hzero : st.local_cache x = none → findHitSet p prf st x = none →
      st.local_miss_elements x = none → P (ZeroEntry p.entry_size, st, SendDummySet p rnd))
    (hmiss : ∀ v, st.local_cache x = none → findHitSet p prf st x = none →
      st.local_miss_elements x = some v →
      P (v, { st with local_cache := mapInsert st.local_cache x v }, SendDummySet p rnd))
    (hout : ∀ h, st.local_cache x = none → findHitSet p prf st x = some h →
      (st.local_replacement_groups.getD (x / p.chunk_size) default).consumed =
        p.backup_set_num_per_chunk →
      P (ZeroEntry p.entry_size, st, SendDummySet p rnd))
    (hstale : ∀ h, st.local_cache x = none → findHitSet p prf st x = some h →
      (st.local_replacement_groups.getD (x / p.chunk_size) default).consumed ≠
        p.backup_set_num_per_chunk →
      (st.local_backup_set_groups.getD (x / p.chunk_size) default).consumed =
        p.backup_set_num_per_chunk →
      P (recovered p prf resp st x h, storeNoRefresh p prf resp st x h,
        [Event.sendSetParityQuery (sentSet p prf st x h), Event.recvSetParityResponse]))
    (hrefresh : ∀ h, st.local_cache x = none → findHitSet p prf st x = some h →
      (st.local_replacement_groups.getD (x / p.chunk_size) default).consumed ≠
        p.backup_set_num_per_chunk →
      (st.local_backup_set_groups.getD (x / p.chunk_size) default).consumed ≠
        p.backup_set_num_per_chunk →
      P (recovered p prf resp st x h, storeRefresh p prf resp st x h,
        [Event.sendSetParityQuery (sentSet p prf st x h), Event.recvSetParityResponse])) :
    P (OnlineSingleQuery p prf resp rnd x st) := by
  cases hc : st.local_cache x with
  | some v => rw [OnlineSingleQuery_cached p prf resp rnd x st v hc]; exact hcached v hc
  | none =>
    cases hh : findHitSet p prf st x with
    | none =>
      cases hm : st.local_miss_elements x with
      | none =>
        rw [OnlineSingleQuery_no_hit_no_miss p prf resp rnd x st hc hh hm]; exact hzero hc hh hm
      | some v =>
        rw [OnlineSingleQuery_no_hit_miss p prf resp rnd x st v hc hh hm]; exact hmiss v hc hh hm
    | some h =>
      by_cases hr : (st.local_replacement_groups.getD (x / p.chunk_size) default).consumed =
          p.backup_set_num_per_chunk
      · rw [OnlineSingleQuery_out_of_hints p prf resp rnd x st h hc hh hr]; exact hout h hc hh hr
      · by_cases hb : (st.local_backup_set_groups.getD (x / p.chunk_size) default).consumed =
            p.backup_set_num_per_chunk
        · rw [OnlineSingleQuery_no_refresh p prf resp rnd x st h hc hh hr hb]
          exact hstale h hc hh hr hb
        · rw [OnlineSingleQuery_refresh p prf resp rnd x st h hc hh hr hb]
          exact hrefresh h hc hh hr hb

/-! ## The consumed counters -/

/-- One call changes a replacement counter by at most one, and only a counter
that is not `M2`. -/
theorem OnlineSingleQuery_replacement_consumed (p : Params) (prf : Nat → Nat → Nat)
    (resp : List Nat → List Nat) (rnd : Nat → Nat) (x : Nat) (st : HintStore) (g : Nat) :
    ((OnlineSingleQuery p prf resp rnd x st).2.1.local_replacement_groups.getD g default).consumed
        = (st.local_replacement_groups.getD g default).consumed ∨
    (((OnlineSingleQuery p prf resp rnd x st).2.1.local_replacement_groups.getD g default).consumed
        = (st.local_replacement_groups.getD g default).consumed + 1 ∧
      (st.local_replacement_groups.getD g default).consumed ≠ p.backup_set_num_per_chunk) := by
  have hupd : (st.local_replacement_groups.getD (x / p.chunk_size) default).consumed ≠
        p.backup_set_num_per_chunk →
      (((st.local_replacement_groups.set (x / p.chunk_size)
        { st.local_replacement_groups.getD (x / p.chunk_size) default with
          consumed := (st.local_replacement_groups.getD (x / p.chunk_size) default).consumed + 1
        }).getD g default).consumed = (st.local_replacement_groups.getD g default).consumed ∨
      (((st.local_replacement_groups.set (x / p.chunk_size)
        { st.local_replacement_groups.getD (x / p.chunk_size) default with
          consumed := (st.local_replacement_groups.getD (x / p.chunk_size) default).consumed + 1
        }).getD g default).consumed = (st.local_replacement_groups.getD g default).consumed + 1 ∧
        (st.local_replacement_groups.getD g default).consumed ≠ p.backup_set_num_per_chunk)) := by
    intro hr
    rw [getD_set]
    by_cases hc : x / p.chunk_size = g ∧ x / p.chunk_size < st.local_replacement_groups.length
    · rw [if_pos hc]
      obtain ⟨rfl, _⟩ := hc
      exact Or.inr ⟨rfl, hr⟩
    · rw [if_neg hc]; exact Or.inl rfl
  apply OnlineSingleQuery_cases p prf resp rnd x st
    (fun r => (r.2.1.local_replacement_groups.getD g default).consumed
        = (st.local_replacement_groups.getD g default).consumed ∨
      ((r.2.1.local_replacement_groups.getD g default).consumed
        = (st.local_replacement_groups.getD g default).consumed + 1 ∧
      (st.local_replacement_groups.getD g default).consumed ≠ p.backup_set_num_per_chunk))
  · intro _ _; exact Or.inl rfl
  · intro _ _ _; exact Or.inl rfl
  · intro _ _ _ _; exact Or.inl rfl
  · intro _ _ _ _; exact Or.inl rfl
  · intro h _ _ hr _; exact hupd hr
  · intro h _ _ hr _; exact hupd hr

/-- One call changes a backup counter by at most one, and only a counter that
is not `M2`. -/
theorem OnlineSingleQuery_backup_consumed (p : Params) (prf : Nat → Nat → Nat)
    (resp : List Nat → List Nat) (rnd : Nat → Nat) (x : Nat) (st : HintStore) (g : Nat) :
    ((OnlineSingleQuery p prf resp rnd x st).2.1.local_backup_set_groups.getD g default).consumed
        = (st.local_backup_set_groups.getD g default).consumed ∨
    (((OnlineSingleQuery p prf resp rnd x st).2.1.local_backup_set_groups.getD g default).consumed
        = (st.local_backup_set_groups.getD g default).consumed + 1 ∧
      (st.local_backup_set_groups.getD g default).consumed ≠ p.backup_set_num_per_chunk) := by
  have hupd : (st.local_backup_set_groups.getD (x / p.chunk_size) default).consumed ≠
        p.backup_set_num_per_chunk →
      (((st.local_backup_set_groups.set (x / p.chunk_size)
        { st.local_backup_set_groups.getD (x / p.chunk_size) default with
          consumed := (st.local_backup_set_groups.getD (x / p.chunk_size) default).consumed + 1
        }).getD g default).consumed = (st.local_backup_set_groups.getD g default).consumed ∨
      (((st.local_backup_set_groups.set (x / p.chunk_size)
        { st.local_backup_set_groups.getD (x / p.chunk_size) default with
          consumed := (st.local_backup_set_groups.getD (x / p.chunk_size) default).consumed + 1
        }).getD g default).consumed = (st.local_backup_set_groups.getD g default).consumed + 1 ∧
        (st.local_backup_set_groups.getD g default).consumed ≠ p.backup_set_num_per_chunk)) := by
    intro hb
    rw [getD_set]
    by_cases hc : x / p.chunk_size = g ∧ x / p.chunk_size < st.local_backup_set_groups.length
    · rw [if_pos hc]
      obtain ⟨rfl, _⟩ := hc
      exact Or.inr ⟨rfl, hb⟩
    · rw [if_neg hc]; exact Or.inl rfl
  apply OnlineSingleQuery_cases p prf resp rnd x st
    (fun r => (r.2.1.local_backup_set_groups.getD g default).consumed
        = (st.local_backup_set_groups.getD g default).consumed ∨
      ((r.2.1.local_backup_set_groups.getD g default).consumed
        = (st.local_backup_set_groups.getD g default).consumed + 1 ∧
      (st.local_backup_set_groups.getD g default).consumed ≠ p.backup_set_num_per_chunk))
  · intro _ _; exact Or.inl rfl
  · intro _ _ _; exact Or.inl rfl
  · intro _ _ _ _; exact Or.inl rfl
  · intro _ _ _ _; exact Or.inl rfl
  · intro _ _ _ _ _; exact Or.inl rfl
  · intro h _ _ _ hb; exact hupd hb


theorem fetchPrefix_backup_groups (p : Params) (prf : Nat → Nat → Nat) (chunks : Nat → List Nat)
    (rnd : Nat → Nat → Nat) (st : HintStore) (n : Nat) :
    (fetchPrefix p prf chunks rnd st n).local_backup_set_groups = st.local_backup_set_groups := by
  induction n with
  | zero => rfl
  | succ n ih => rw [fetchPrefix_succ, processChunk_backup_groups, ih]

theorem fetchPrefix_cache (p : Params) (prf : Nat → Nat → Nat) (chunks : Nat → List Nat)
    (rnd : Nat → Nat → Nat) (st : HintStore) (n : Nat) :
    (fetchPrefix p prf chunks rnd st n).local_cache = st.local_cache := by
  induction n with
  | zero => rfl
  | succ n ih => rw [fetchPrefix_succ, processChunk_cache, ih]

/-- After `FetchFullDB` on a freshly initialised store no replacement and no
backup set is consumed. -/
theorem FetchFullDB_consumed (p : Params) (prf : Nat → Nat → Nat) (chunks : Nat → List Nat)
    (rnd : Nat → Nat → Nat) (g : Nat) :
    ((FetchFullDB p prf chunks rnd (InitializeLocalSets p)).local_replacement_groups.getD g
        default).consumed = 0 ∧
    ((FetchFullDB p prf chunks rnd (InitializeLocalSets p)).local_backup_set_groups.getD g
        default).consumed = 0 := by
  constructor
  · rw [FetchFullDB_eq, List.getD_eq_getElem?_getD, fetchPrefix_replacement_groups]
    simp only [InitializeLocalSets, List.getElem?_map]
    by_cases hg : g < p.set_size
    · simp [hg, List.getElem?_range hg, filledGroup_consumed]
    · simp only [hg, if_false, List.getElem?_eq_none (l := List.range p.set_size)
        (by simpa using Nat.le_of_not_lt hg)]
      rfl
  · rw [FetchFullDB_eq, fetchPrefix_backup_groups, List.getD_eq_getElem?_getD]
    simp only [InitializeLocalSets, List.getElem?_map]
    by_cases hg : g < p.set_size
    · simp [hg, List.getElem?_range hg]
    · simp only [List.getElem?_eq_none (l := List.range p.set_size)
        (by simpa using Nat.le_of_not_lt hg)]
      rfl

/-- A property of the hint store that every call preserves holds after any
sequence of calls. -/
theorem OnlineMultipleQueries_invariant (p : Params) (prf : Nat → Nat → Nat)
    (I : HintStore → Prop)
    (hstep : ∀ st resp rnd x, I st → I (OnlineSingleQuery p prf resp rnd x st).2.1)
    (calls : List Call) (st : HintStore) (h : I st) :
    I (OnlineMultipleQueries p prf calls st).2.1 := by
  induction calls generalizing st with
  | nil => exact h
  | cons c cs ih => exact ih _ (hstep st c.resp c.rnd c.x h)

/-- C8. Consumption monotonicity and bound: in every state of a session (a
freshly initialised store, `FetchFullDB`, then any sequence of
`OnlineSingleQuery` calls) and for every chunk `g`,
`local_replacement_groups[g].consumed` and `local_backup_set_groups[g].consumed`
are at most `M2`; and no call to `OnlineSingleQuery`, from any hint store,
decreases either counter.  (`SendDummySet` is `const` and writes no field of
the store.) -/
theorem consumption_monotone_and_bounded (p : Params) (prf : Nat → Nat → Nat)
    (chunks : Nat → List Nat) (rnd0 : Nat → Nat → Nat) (calls : List Call) (g : Nat) :
    (((OnlineMultipleQueries p prf calls
        (FetchFullDB p prf chunks rnd0 (InitializeLocalSets p))).2.1.local_replacement_groups.getD
          g default).consumed ≤ p.backup_set_num_per_chunk ∧
     ((OnlineMultipleQueries p prf calls
        (FetchFullDB p prf chunks rnd0 (InitializeLocalSets p))).2.1.local_backup_set_groups.getD
          g default).consumed ≤ p.backup_set_num_per_chunk) ∧
    ∀ (st : HintStore) (resp : List Nat → List Nat) (rnd : Nat → Nat) (x : Nat),
      (st.local_replacement_groups.getD g default).consumed ≤
        ((OnlineSingleQuery p prf resp rnd x st).2.1.local_replacement_groups.getD g
          default).consumed ∧
      (st.local_backup_set_groups.getD g default).consumed ≤
        ((OnlineSingleQuery p prf resp rnd x st).2.1.local_backup_set_groups.getD g
          default).consumed := by
  constructor
  · apply OnlineMultipleQueries_invariant p prf
      (fun st => (st.local_replacement_groups.getD g default).consumed ≤
          p.backup_set_num_per_chunk ∧
        (st.local_backup_set_groups.getD g default).consumed ≤ p.backup_set_num_per_chunk)
    · intro st resp rnd x ⟨h1, h2⟩
      have hr := OnlineSingleQuery_replacement_consumed p prf resp rnd x st g
      have hb := OnlineSingleQuery_backup_consumed p prf resp rnd x st g
      constructor
      · rcases hr with h | ⟨h, hne⟩ <;> omega
      · rcases hb with h | ⟨h, hne⟩ <;> omega
    · have h := FetchFullDB_consumed p prf chunks rnd0 g
      rw [h.1, h.2]
      exact ⟨Nat.zero_le _, Nat.zero_le _⟩
  · intro st resp rnd x
    have hr := OnlineSingleQuery_replacement_consumed p prf resp rnd x st g
    have hb := OnlineSingleQuery_backup_consumed p prf resp rnd x st g
    constructor
    · rcases hr with h | ⟨h, _⟩ <;> omega
    · rcases hb with h | ⟨h, _⟩ <;> omega


/-! ## The local cache -/

theorem mapInsert_self (m : Nat → Option DBEntry) (k : Nat) (v : DBEntry) :
    mapInsert m k v k = some v := by
  simp [mapInsert]

theorem mapInsert_ne (m : Nat → Option DBEntry) (k y : Nat) (v : DBEntry) (h : y ≠ k) :
    mapInsert m k v y = m y := by
  simp [mapInsert, h]

/-- An entry of the cache is never changed or removed by a call. -/
theorem OnlineSingleQuery_cache_persist (p : Params) (prf : Nat → Nat → Nat)
    (resp : List Nat → List Nat) (rnd : Nat → Nat) (x : Nat) (st : HintStore) (y : Nat)
    (v : DBEntry) (hy : st.local_cache y = some v) :
    (OnlineSingleQuery p prf resp rnd x st).2.1.local_cache y = some v := by
  have hne : st.local_cache x = none → y ≠ x := by
    intro hx e; rw [e, hx] at hy; exact absurd hy (by simp)
  apply OnlineSingleQuery_cases p prf resp rnd x st (fun r => r.2.1.local_cache y = some v)
  · intro _ _; exact hy
  · intro _ _ _; exact hy
  · intro w hc _ _
    show mapInsert st.local_cache x w y = some v
    rw [mapInsert_ne _ _ _ _ (hne hc)]; exact hy
  · intro _ _ _ _; exact hy
  · intro h hc _ _ _
    show mapInsert st.local_cache x _ y = some v
    rw [mapInsert_ne _ _ _ _ (hne hc)]; exact hy
  · intro h hc _ _ _
    show mapInsert st.local_cache x _ y = some v
    rw [mapInsert_ne _ _ _ _ (hne hc)]; exact hy

/-- Once an index is cached every later call for it returns the cached
value. -/
theorem OnlineMultipleQueries_cached (p : Params) (prf : Nat → Nat → Nat) (calls : List Call)
    (st : HintStore) (x : Nat) (v : DBEntry) (hv : st.local_cache x = some v) (k : Nat)
    (c : Call) (hk : calls[k]? = some c) (hx : c.x = x) :
    (OnlineMultipleQueries p prf calls st).1[k]? = some v := by
  induction calls generalizing st k with
  | nil => simp at hk
  | cons c0 cs ih =>
    cases k with
    | zero =>
      simp only [List.getElem?_cons_zero, Option.some.injEq] at hk
      subst hk
      simp only [OnlineMultipleQueries, List.getElem?_cons_zero]
      rw [hx, OnlineSingleQuery_cached p prf _ _ x st v hv]
    | succ k =>
      simp only [List.getElem?_cons_succ] at hk
      simp only [OnlineMultipleQueries, List.getElem?_cons_succ]
      exact ih _ (OnlineSingleQuery_cache_persist p prf _ _ _ st x v hv) k hk

theorem expandProgrammed_lt (p : Params) (prf : Nat → Nat → Nat) (s : LocalSet)
    (hC : 0 < p.chunk_size) :
    ∀ y ∈ expandProgrammed p prf s, y < p.chunk_size * p.set_size := by
  have hex : ∀ y ∈ ExpandWithLongKey prf s.tag p.set_size p.chunk_size,
      y < p.chunk_size * p.set_size := by
    intro y hy
    unfold ExpandWithLongKey at hy
    obtain ⟨i, hi, rfl⟩ := List.mem_map.mp hy
    have hi2 := List.mem_range.mp hi
    have ho := offset_lt prf p.chunk_size s.tag i hC
    calc offset prf p.chunk_size s.tag i + i * p.chunk_size
        < p.chunk_size + i * p.chunk_size := by omega
      _ = (i + 1) * p.chunk_size := by rw [Nat.succ_mul, Nat.add_comm]
      _ ≤ p.set_size * p.chunk_size := Nat.mul_le_mul_right _ hi2
      _ = p.chunk_size * p.set_size := Nat.mul_comm _ _
  intro y hy
  unfold expandProgrammed at hy
  by_cases hp : s.is_programmed = true
  · rw [if_pos hp] at hy
    by_cases hl : s.programmed_point / p.chunk_size < p.set_size
    · rcases List.mem_or_eq_of_mem_set hy with h | h
      · exact hex y h
      · rw [h, Nat.mul_comm]
        exact (Nat.div_lt_iff_lt_mul hC).mp hl
    · rw [List.set_eq_of_length_le (by rw [ExpandWithLongKey_length]; omega)] at hy
      exact hex y hy
  · rw [if_neg hp] at hy
    exact hex y hy

theorem bump_replacement_indices (rg : List LocalReplacementGroup) (g g2 : Nat) :
    ((rg.set g { rg.getD g default with consumed := (rg.getD g default).consumed + 1 }).getD g2
      default).indices = (rg.getD g2 default).indices := by
  rw [getD_set]
  by_cases h : g = g2 ∧ g < rg.length
  · rw [if_pos h]; obtain ⟨rfl, _⟩ := h; rfl
  · rw [if_neg h]

theorem bump_replacement_values (rg : List LocalReplacementGroup) (g g2 : Nat) :
    ((rg.set g { rg.getD g default with consumed := (rg.getD g default).consumed + 1 }).getD g2
      default).values = (rg.getD g2 default).values := by
  rw [getD_set]
  by_cases h : g = g2 ∧ g < rg.length
  · rw [if_pos h]; obtain ⟨rfl, _⟩ := h; rfl
  · rw [if_neg h]

theorem bump_replacement_consumed (rg : List LocalReplacementGroup) (g g2 M : Nat)
    (hle : ∀ g', (rg.getD g' default).consumed ≤ M) (hne : (rg.getD g default).consumed ≠ M) :
    ((rg.set g { rg.getD g default with consumed := (rg.getD g default).consumed + 1 }).getD g2
      default).consumed ≤ M := by
  rw [getD_set]
  by_cases h : g = g2 ∧ g < rg.length
  · rw [if_pos h]
    have := hle g
    show (rg.getD g default).consumed + 1 ≤ M
    omega
  · rw [if_neg h]; exact hle g2

theorem bump_backup_sets (bg : List LocalBackupSetGroup) (g g2 : Nat) :
    ((bg.set g { bg.getD g default with consumed := (bg.getD g default).consumed + 1 }).getD g2
      default).sets = (bg.getD g2 default).sets := by
  rw [getD_set]
  by_cases h : g = g2 ∧ g < bg.length
  · rw [if_pos h]; obtain ⟨rfl, _⟩ := h; rfl
  · rw [if_neg h]

theorem bump_backup_consumed (bg : List LocalBackupSetGroup) (g g2 M : Nat)
    (hle : ∀ g', (bg.getD g' default).consumed ≤ M) (hne : (bg.getD g default).consumed ≠ M) :
    ((bg.set g { bg.getD g default with consumed := (bg.getD g default).consumed + 1 }).getD g2
      default).consumed ≤ M := by
  rw [getD_set]
  by_cases h : g = g2 ∧ g < bg.length
  · rw [if_pos h]
    have := hle g
    show (bg.getD g default).consumed + 1 ≤ M
    omega
  · rw [if_neg h]; exact hle g2

/-- On a consistent store a real query recovers the entry asked for. -/
theorem Consistent_recovered (p : Params) (prf : Nat → Nat → Nat) (db : Nat → DBEntry)
    (resp : List Nat → List Nat) (x h : Nat) (st : HintStore)
    (hdb : ∀ y, y < p.chunk_size * p.set_size → (db y).length = p.entry_size)
    (hx : x < p.chunk_size * p.set_size)
    (hsrv : ∀ indices, resp indices = honestServer p.entry_size db indices)
    (hI : Consistent p prf db st)
    (hh : findHitSet p prf st x = some h)
    (hr : (st.local_replacement_groups.getD (x / p.chunk_size) default).consumed ≠
      p.backup_set_num_per_chunk) :
    recovered p prf resp st x h = db x := by
  have hC : 0 < p.chunk_size := by
    rcases Nat.eq_zero_or_pos p.chunk_size with h0 | h0
    · rw [h0, Nat.zero_mul] at hx; exact absurd hx (Nat.not_lt_zero _)
    · exact h0
  have hg := chunk_id_lt _ _ _ hx
  obtain ⟨hlt, hit⟩ := findHitSet_some p prf st x h hh
  have hk : (st.local_replacement_groups.getD (x / p.chunk_size) default).consumed <
      p.backup_set_num_per_chunk := by
    have := hI.replacement_consumed (x / p.chunk_size)
    omega
  have hrep := hI.replacement (x / p.chunk_size) _ hg hk
  exact recovered_eq p prf db resp st x h hx hit
    (fun y hy => hdb y (expandProgrammed_lt p prf _ hC y hy)) (hdb _ hrep.2)
    (hI.primary h hlt) hrep.1 (hsrv _)


theorem Consistent_cache_insert (p : Params) (prf : Nat → Nat → Nat) (db : Nat → DBEntry)
    (st : HintStore) (x : Nat) (hI : Consistent p prf db st) :
    Consistent p prf db { st with local_cache := mapInsert st.local_cache x (db x) } :=
  { primary := hI.primary
    backup := hI.backup
    backup_consumed := hI.backup_consumed
    replacement := hI.replacement
    replacement_consumed := hI.replacement_consumed
    miss := hI.miss
    cache := by
      intro y v hy hv
      have hv2 : mapInsert st.local_cache x (db x) y = some v := hv
      by_cases e : y = x
      · subst e
        rw [mapInsert_self] at hv2
        exact (Option.some.inj hv2).symm
      · rw [mapInsert_ne _ _ _ _ e] at hv2
        exact hI.cache y v hy hv2 }

theorem Consistent_storeNoRefresh (p : Params) (prf : Nat → Nat → Nat) (db : Nat → DBEntry)
    (resp : List Nat → List Nat) (x h : Nat) (st : HintStore) (hI : Consistent p prf db st)
    (hrec : recovered p prf resp st x h = db x)
    (hr : (st.local_replacement_groups.getD (x / p.chunk_size) default).consumed ≠
      p.backup_set_num_per_chunk) :
    Consistent p prf db (storeNoRefresh p prf resp st x h) :=
  { primary := hI.primary
    backup := hI.backup
    backup_consumed := hI.backup_consumed
    replacement := by
      intro g k hg hk
      show ((st.local_replacement_groups.set _ _).getD g default).values.getD k [] =
          db (((st.local_replacement_groups.set _ _).getD g default).indices.getD k 0) ∧
        ((st.local_replacement_groups.set _ _).getD g default).indices.getD k 0 < _
      rw [bump_replacement_indices, bump_replacement_values]
      exact hI.replacement g k hg hk
    replacement_consumed := fun g =>
      bump_replacement_consumed _ _ g _ hI.replacement_consumed hr
    miss := hI.miss
    cache := by
      intro y v hy hv
      have hv2 : mapInsert st.local_cache x (recovered p prf resp st x h) y = some v := hv
      rw [hrec] at hv2
      exact (Consistent_cache_insert p prf db st x hI).cache y v hy hv2 }

theorem Consistent_storeRefresh (p : Params) (prf : Nat → Nat → Nat) (db : Nat → DBEntry)
    (resp : List Nat → List Nat) (x h : Nat) (st : HintStore)
    (hdb : ∀ y, y < p.chunk_size * p.set_size → (db y).length = p.entry_size)
    (hx : x < p.chunk_size * p.set_size) (hI : Consistent p prf db st)
    (hrec : recovered p prf resp st x h = db x)
    (hr : (st.local_replacement_groups.getD (x / p.chunk_size) default).consumed ≠
      p.backup_set_num_per_chunk)
    (hb : (st.local_backup_set_groups.getD (x / p.chunk_size) default).consumed ≠
      p.backup_set_num_per_chunk) :
    Consistent p prf db (storeRefresh p prf resp st x h) :=
  { primary := by
      intro j hj
      show ((st.primary_sets.set h _).getD j default).parity =
        xorAll p.entry_size
          ((expandProgrammed p prf ((st.primary_sets.set h _).getD j default)).map db)
      rw [getD_set]
      by_cases hc : h = j ∧ h < st.primary_sets.length
      · rw [if_pos hc, hrec]
        have hg := chunk_id_lt _ _ _ hx
        have hk : (st.local_backup_set_groups.getD (x / p.chunk_size) default).consumed <
            p.backup_set_num_per_chunk := by
          have := hI.backup_consumed (x / p.chunk_size)
          omega
        have hbk := hI.backup (x / p.chunk_size) _ hg hk
        have hprog := xorAll_programmed p.entry_size p.set_size (x / p.chunk_size) x db
          (fun i => offset prf p.chunk_size (nextBackup p st x).tag i + i * p.chunk_size) hg
          (Nat.le_of_eq (hdb x hx))
        show Xor (db x) (nextBackup p st x).parity_after_puncture =
          xorAll p.entry_size
            (((ExpandWithLongKey prf (nextBackup p st x).tag p.set_size p.chunk_size).set
              (x / p.chunk_size) x).map db)
        unfold ExpandWithLongKey
        rw [hprog]
        congr 1
      · rw [if_neg hc]; exact hI.primary j hj
    backup := by
      intro g k hg hk
      show (st.local_backup_sets.getD
          (((st.local_backup_set_groups.set _ _).getD g default).sets.getD k 0)
            default).parity_after_puncture =
        xorAll p.entry_size
          (((List.range p.set_size).filter (fun i => decide (i ≠ g))).map
            (fun i => db (offset prf p.chunk_size
              (st.local_backup_sets.getD
                (((st.local_backup_set_groups.set _ _).getD g default).sets.getD k 0)
                  default).tag i + i * p.chunk_size)))
      rw [bump_backup_sets]
      exact hI.backup g k hg hk
    backup_consumed := fun g => bump_backup_consumed _ _ g _ hI.backup_consumed hb
    replacement := by
      intro g k hg hk
      show ((st.local_replacement_groups.set _ _).getD g default).values.getD k [] =
          db (((st.local_replacement_groups.set _ _).getD g default).indices.getD k 0) ∧
        ((st.local_replacement_groups.set _ _).getD g default).indices.getD k 0 < _
      rw [bump_replacement_indices, bump_replacement_values]
      exact hI.replacement g k hg hk
    replacement_consumed := fun g =>
      bump_replacement_consumed _ _ g _ hI.replacement_consumed hr
    miss := hI.miss
    cache := by
      intro y v hy hv
      have hv2 : mapInsert st.local_cache x (recovered p prf resp st x h) y = some v := hv
      rw [hrec] at hv2
      exact (Consistent_cache_insert p prf db st x hI).cache y v hy hv2 }

/-- One call on a consistent store against an honest server keeps the store
consistent and returns the entry asked for, unless it takes the out-of-hints
path or the missing-hit path without a local-miss record, on which it returns
the zero entry. -/
theorem Consistent_step (p : Params) (prf : Nat → Nat → Nat) (db : Nat → DBEntry)
    (resp : List Nat → List Nat) (rnd : Nat → Nat) (x : Nat) (st : HintStore)
    (hdb : ∀ y, y < p.chunk_size * p.set_size → (db y).length = p.entry_size)
    (hx : x < p.chunk_size * p.set_size)
    (hsrv : ∀ indices, resp indices = honestServer p.entry_size db indices)
    (hI : Consistent p prf db st) :
    Consistent p prf db (OnlineSingleQuery p prf resp rnd x st).2.1 ∧
    ((OnlineSingleQuery p prf resp rnd x st).1 = db x ∨
      (outOfHints p prf st x ∧
        (OnlineSingleQuery p prf resp rnd x st).1 = ZeroEntry p.entry_size) ∨
      (missingHit p prf st x ∧
        (OnlineSingleQuery p prf resp rnd x st).1 = ZeroEntry p.entry_size)) := by
  apply OnlineSingleQuery_cases p prf resp rnd x st
    (fun r => Consistent p prf db r.2.1 ∧
      (r.1 = db x ∨ (outOfHints p prf st x ∧ r.1 = ZeroEntry p.entry_size) ∨
        (missingHit p prf st x ∧ r.1 = ZeroEntry p.entry_size)))
  · intro v hc
    exact ⟨hI, Or.inl (hI.cache x v hx hc)⟩
  · intro hc hh hm
    exact ⟨hI, Or.inr (Or.inr ⟨⟨hc, hh, hm⟩, rfl⟩)⟩
  · intro v hc hh hm
    have hv := hI.miss x v hx hm
    subst hv
    exact ⟨Consistent_cache_insert p prf db st x hI, Or.inl rfl⟩
  · intro h hc hh hr
    exact ⟨hI, Or.inr (Or.inl ⟨⟨hc, by rw [hh]; rfl, hr⟩, rfl⟩)⟩
  · intro h hc hh hr hb
    have hrec := Consistent_recovered p prf db resp x h st hdb hx hsrv hI hh hr
    exact ⟨Consistent_storeNoRefresh p prf db resp x h st hI hrec hr, Or.inl hrec⟩
  · intro h hc hh hr hb
    have hrec := Consistent_recovered p prf db resp x h st hdb hx hsrv hI hh hr
    exact ⟨Consistent_storeRefresh p prf db resp x h st hdb hx hI hrec hr hb, Or.inl hrec⟩


/-! ## A fresh session is consistent with the database -/

theorem DB_length (p : Params) (chunks : Nat → List Nat)
    (hlen : ∀ i, i < p.set_size → (chunks i).length = p.chunk_size * p.entry_size) (y : Nat)
    (hy : y < p.chunk_size * p.set_size) : (DB p chunks y).length = p.entry_size := by
  have hC : 0 < p.chunk_size := by
    rcases Nat.eq_zero_or_pos p.chunk_size with h0 | h0
    · rw [h0, Nat.zero_mul] at hy; exact absurd hy (Nat.not_lt_zero _)
    · exact h0
  have hg := chunk_id_lt _ _ _ hy
  have hm := Nat.mod_lt y hC
  unfold DB sliceAt
  rw [List.length_take, List.length_drop, hlen _ hg]
  have h1 : (y % p.chunk_size + 1) * p.entry_size ≤ p.chunk_size * p.entry_size :=
    Nat.mul_le_mul_right _ hm
  rw [Nat.succ_mul] at h1
  omega

theorem init_backup_group (p : Params) (g : Nat) (hg : g < p.set_size) :
    (InitializeLocalSets p).local_backup_set_groups.getD g default =
      { consumed := 0
        sets := (List.range p.backup_set_num_per_chunk).map
          (fun j => g * p.backup_set_num_per_chunk + j) } := by
  simp [InitializeLocalSets, List.getD_eq_getElem?_getD, List.getElem?_range hg]

/-- The hint store that `FetchFullDB` leaves on a freshly initialised store is
consistent with the database the chunks define. -/
theorem Consistent_FetchFullDB (p : Params) (prf : Nat → Nat → Nat) (chunks : Nat → List Nat)
    (rnd : Nat → Nat → Nat) (hT : 0 < p.thread_num) (hC : 0 < p.chunk_size)
    (htot : p.total_backup_set_num = p.backup_set_num_per_chunk * p.set_size) :
    Consistent p prf (DB p chunks) (FetchFullDB p prf chunks rnd (InitializeLocalSets p)) :=
  { primary := by
      intro j hj
      rw [List.getD_eq_getElem?_getD, FetchFullDB_primary p prf chunks rnd j hT hC hj]
      simp [expandProgrammed, ExpandWithLongKey, Function.comp_def]
    backup := by
      intro g k hg hk
      have hgrp : (FetchFullDB p prf chunks rnd (InitializeLocalSets p)).local_backup_set_groups
          = (InitializeLocalSets p).local_backup_set_groups := by
        rw [FetchFullDB_eq, fetchPrefix_backup_groups]
      rw [hgrp, init_backup_group p g hg]
      have hidx : ((List.range p.backup_set_num_per_chunk).map
          (fun j => g * p.backup_set_num_per_chunk + j)).getD k 0 =
            g * p.backup_set_num_per_chunk + k := by
        simp [List.getD_eq_getElem?_getD, List.getElem?_range hk]
      simp only [hidx]
      have hb : g * p.backup_set_num_per_chunk + k < p.total_backup_set_num := by
        rw [htot]
        calc g * p.backup_set_num_per_chunk + k
            < g * p.backup_set_num_per_chunk + p.backup_set_num_per_chunk := by omega
          _ = (g + 1) * p.backup_set_num_per_chunk := (Nat.succ_mul _ _).symm
          _ ≤ p.set_size * p.backup_set_num_per_chunk := Nat.mul_le_mul_right _ hg
          _ = p.backup_set_num_per_chunk * p.set_size := Nat.mul_comm _ _
      have hM : 0 < p.backup_set_num_per_chunk := by omega
      have hdiv : (g * p.backup_set_num_per_chunk + k) / p.backup_set_num_per_chunk = g := by
        rw [Nat.add_comm, Nat.add_mul_div_right _ _ hM, Nat.div_eq_of_lt hk, Nat.zero_add]
      rw [List.getD_eq_getElem?_getD, FetchFullDB_backup p prf chunks rnd _ hT hC hM hb]
      simp only [Option.getD_some, hdiv]
    backup_consumed := by
      intro g
      rw [(FetchFullDB_consumed p prf chunks rnd g).2]
      exact Nat.zero_le _
    replacement := by
      intro g k hg hk
      have h := FetchFullDB_replacement p prf chunks rnd g k hC hg hk
      refine ⟨by rw [h.2.2, h.2.1], ?_⟩
      rw [h.2.1]
      have ho : rnd g k &&& (p.chunk_size - 1) < p.chunk_size := by
        have := @Nat.and_le_right (rnd g k) (p.chunk_size - 1)
        omega
      calc (rnd g k &&& (p.chunk_size - 1)) + g * p.chunk_size
          < p.chunk_size + g * p.chunk_size := by omega
        _ = (g + 1) * p.chunk_size := by rw [Nat.succ_mul, Nat.add_comm]
        _ ≤ p.set_size * p.chunk_size := Nat.mul_le_mul_right _ hg
        _ = p.chunk_size * p.set_size := Nat.mul_comm _ _
    replacement_consumed := by
      intro g
      rw [(FetchFullDB_consumed p prf chunks rnd g).1]
      exact Nat.zero_le _
    miss := by
      intro y v hy hv
      have hm := fetchPrefix_miss p prf chunks rnd hT hC p.set_size y
      rw [FetchFullDB_eq] at hv
      by_cases hsel : ∃ j, j < p.primary_set_num ∧
          offset prf p.chunk_size (j % 2 ^ 32) (y / p.chunk_size) = y % p.chunk_size
      · rw [hm.2 (Or.inr hsel)] at hv
        exact absurd hv (by simp)
      · rw [hm.1 (chunk_id_lt _ _ _ hy) hsel] at hv
        exact (Option.some.inj hv).symm
    cache := by
      intro y v _ hv
      rw [FetchFullDB_eq, fetchPrefix_cache] at hv
      exact absurd hv (by simp [InitializeLocalSets]) }


/-! ## Every query of a session -/

theorem OnlineMultipleQueries_cons (p : Params) (prf : Nat → Nat → Nat) (c : Call)
    (cs : List Call) (st : HintStore) :
    OnlineMultipleQueries p prf (c :: cs) st =
      ((OnlineSingleQuery p prf c.resp c.rnd c.x st).1 ::
        (OnlineMultipleQueries p prf cs (OnlineSingleQuery p prf c.resp c.rnd c.x st).2.1).1,
       (OnlineMultipleQueries p prf cs (OnlineSingleQuery p prf c.resp c.rnd c.x st).2.1).2.1,
       (OnlineSingleQuery p prf c.resp c.rnd c.x st).2.2 ++
        (OnlineMultipleQueries p prf cs (OnlineSingleQuery p prf c.resp c.rnd c.x st).2.1).2.2) :=
  rfl

/-- From a consistent store, every call of a sequence against an honest server
returns the entry asked for, unless it takes the out-of-hints path or the
missing-hit path without a local-miss record, on which it returns the zero
entry. -/
theorem Consistent_run (p : Params) (prf : Nat → Nat → Nat) (db : Nat → DBEntry)
    (hdb : ∀ y, y < p.chunk_size * p.set_size → (db y).length = p.entry_size)
    (calls : List Call) (st : HintStore) (hI : Consistent p prf db st)
    (hx : ∀ c ∈ calls, c.x < p.chunk_size * p.set_size)
    (hsrv : ∀ c ∈ calls, ∀ indices, c.resp indices = honestServer p.entry_size db indices)
    (i : Nat) (c : Call) (hi : calls[i]? = some c) :
    ∃ r, (OnlineMultipleQueries p prf calls st).1[i]? = some r ∧
      (r = db c.x ∨
        (outOfHints p prf (OnlineMultipleQueries p prf (calls.take i) st).2.1 c.x ∧
          r = ZeroEntry p.entry_size) ∨
        (missingHit p prf (OnlineMultipleQueries p prf (calls.take i) st).2.1 c.x ∧
          r = ZeroEntry p.entry_size)) := by
  induction calls generalizing st i with
  | nil => simp at hi
  | cons c0 cs ih =>
    have hstep := Consistent_step p prf db c0.resp c0.rnd c0.x st hdb
      (hx c0 (List.mem_cons_self _ _)) (hsrv c0 (List.mem_cons_self _ _)) hI
    cases i with
    | zero =>
      simp only [List.getElem?_cons_zero, Option.some.injEq] at hi
      subst hi
      refine ⟨(OnlineSingleQuery p prf c0.resp c0.rnd c0.x st).1, ?_, hstep.2⟩
      rw [OnlineMultipleQueries_cons]
      simp only [List.getElem?_cons_zero]
    | succ i =>
      simp only [List.getElem?_cons_succ] at hi
      rw [List.take_succ_cons, OnlineMultipleQueries_cons, OnlineMultipleQueries_cons]
      simp only [List.getElem?_cons_succ]
      exact ih _ hstep.1 (fun c hc => hx c (List.mem_cons_of_mem _ hc))
        (fun c hc => hsrv c (List.mem_cons_of_mem _ hc)) i hi

/-- C2 (as amended). Correctness of every query in a session: for every
database, every fresh session (`InitializeLocalSets`, then `FetchFullDB` of `S`
chunks of `C*E` bytes, against an honest server) and every sequence of at most
`M1` pairwise-distinct indices, each `< C*S`, passed in order to
`OnlineSingleQuery`, the `i`-th call returns `DB[x_i]`, unless that call took
the out-of-hints path (the replacement group of chunk `x_i / C` is used up) or
the missing-hit path without a local-miss record (no hit set is found and
`x_i` is not a key of `local_miss_elements`); on these two paths it returns the
zero entry. -/
theorem every_query_correct (p : Params) (prf : Nat → Nat → Nat) (chunks : Nat → List Nat)
    (rnd0 : Nat → Nat → Nat) (calls : List Call) (i : Nat) (c : Call)
    (hT : 0 < p.thread_num)
    (htot : p.total_backup_set_num = p.backup_set_num_per_chunk * p.set_size)
    (hlen : ∀ k, k < p.set_size → (chunks k).length = p.chunk_size * p.entry_size)
    (hnum : calls.length ≤ p.primary_set_num)
    (hdist : (calls.map Call.x).Nodup)
    (hx : ∀ c ∈ calls, c.x < p.chunk_size * p.set_size)
    (hsrv : ∀ c ∈ calls, ∀ indices,
      c.resp indices = honestServer p.entry_size (DB p chunks) indices)
    (hi : calls[i]? = some c) :
    ∃ r, (OnlineMultipleQueries p prf calls
        (FetchFullDB p prf chunks rnd0 (InitializeLocalSets p))).1[i]? = some r ∧
      (r = DB p chunks c.x ∨
        (outOfHints p prf (OnlineMultipleQueries p prf (calls.take i)
            (FetchFullDB p prf chunks rnd0 (InitializeLocalSets p))).2.1 c.x ∧
          r = ZeroEntry p.entry_size) ∨
        (missingHit p prf (OnlineMultipleQueries p prf (calls.take i)
            (FetchFullDB p prf chunks rnd0 (InitializeLocalSets p))).2.1 c.x ∧
          r = ZeroEntry p.entry_size)) := by
  have _ := hnum
  have _ := hdist
  have hcx := hx c (List.getElem?_mem hi)
  have hC : 0 < p.chunk_size := by
    rcases Nat.eq_zero_or_pos p.chunk_size with h0 | h0
    · rw [h0, Nat.zero_mul] at hcx; exact absurd hcx (Nat.not_lt_zero _)
    · exact h0
  exact Consistent_run p prf (DB p chunks) (DB_length p chunks hlen) calls _
    (Consistent_FetchFullDB p prf chunks rnd0 hT hC htot) hx hsrv i c hi

theorem every_query_correct_witness :
    (0 < exParams.thread_num ∧
      exParams.total_backup_set_num = exParams.backup_set_num_per_chunk * exParams.set_size ∧
      [exCall 0, exCall 3].length ≤ exParams.primary_set_num ∧
      ([exCall 0, exCall 3].map Call.x).Nodup ∧
      [exCall 0, exCall 3][1]? = some (exCall 3)) ∧
    (OnlineMultipleQueries exParams exPrf [exCall 0, exCall 3] exStore).1[1]? =
      some (DB exParams exChunks 3) ∧
    ∃ r, (OnlineMultipleQueries exParams exPrf [exCall 0, exCall 3]
        (FetchFullDB exParams exPrf exChunks (fun _ _ => 0)
          (InitializeLocalSets exParams))).1[1]? = some r ∧
      (r = DB exParams exChunks (exCall 3).x ∨
        (outOfHints exParams exPrf (OnlineMultipleQueries exParams exPrf
            ([exCall 0, exCall 3].take 1)
            (FetchFullDB exParams exPrf exChunks (fun _ _ => 0)
              (InitializeLocalSets exParams))).2.1 (exCall 3).x ∧
          r = ZeroEntry exParams.entry_size) ∨
        (missingHit exParams exPrf (OnlineMultipleQueries exParams exPrf
            ([exCall 0, exCall 3].take 1)
            (FetchFullDB exParams exPrf exChunks (fun _ _ => 0)
              (InitializeLocalSets exParams))).2.1 (exCall 3).x ∧
          r = ZeroEntry exParams.entry_size)) :=
  ⟨⟨by decide, by decide, by decide, by decide, rfl⟩, by decide,
   every_query_correct exParams exPrf exChunks (fun _ _ => 0) [exCall 0, exCall 3] 1 (exCall 3)
     (by decide) (by decide) (fun k _ => rfl) (by decide) (by decide)
     (by intro c hc; simp only [List.mem_cons, List.mem_singleton, List.not_mem_nil, or_false] at hc
         rcases hc with rfl | rfl <;> decide)
     (by intro c hc; simp only [List.mem_cons, List.mem_singleton, List.not_mem_nil, or_false] at hc
         rcases hc with rfl | rfl <;> intro _ <;> rfl)
     rfl⟩

/-- C2 fails as stated: in the example session (`M1 = 2`) the two distinct
indices `0, 2` are queried in order.  The query for index 2 finds no hit set
(the only set that held it was refreshed by the query for index 0) and no
local-miss record, and returns the zero entry `[0]` although `DB[2] = [12]`;
it did not take the out-of-hints path, no replacement of chunk 1 being
consumed. -/
theorem every_query_correct_counterexample :
    [exCall 0, exCall 2].length ≤ exParams.primary_set_num ∧
    ([exCall 0, exCall 2].map Call.x).Nodup ∧
    (∀ c ∈ [exCall 0, exCall 2].map Call.x, c < exParams.chunk_size * exParams.set_size) ∧
    (OnlineMultipleQueries exParams exPrf [exCall 0, exCall 2] exStore).1 = [[10], [0]] ∧
    DB exParams exChunks 2 = [12] ∧
    ((OnlineMultipleQueries exParams exPrf [exCall 0] exStore).2.1.local_replacement_groups.getD
      (2 / exParams.chunk_size) default).consumed ≠ exParams.backup_set_num_per_chunk := by
  decide


/-! ## Claims on the missing-hit path, the cache and the replacement groups -/

/-- C11. Missing-hit path: for every state and every uncached `x` for which the
linear scan finds no hit primary set, `OnlineSingleQuery x` sends exactly one
dummy set and changes no primary set, no backup set and no consumed counter; if
`x` is a key of `local_miss_elements` it returns `local_miss_elements[x]` and
inserts that value as `local_cache[x]`; otherwise it returns the all-zero entry
and leaves `local_cache` unchanged. -/
theorem missing_hit_path (p : Params) (prf : Nat → Nat → Nat) (resp : List Nat → List Nat)
    (rnd : Nat → Nat) (x : Nat) (st : HintStore)
    (hc : st.local_cache x = none) (hh : findHitSet p prf st x = none) :
    (OnlineSingleQuery p prf resp rnd x st).2.2 =
      [Event.sendSetParityQuery (dummySet p rnd), Event.recvSetParityResponse] ∧
    (OnlineSingleQuery p prf resp rnd x st).2.1.primary_sets = st.primary_sets ∧
    (OnlineSingleQuery p prf resp rnd x st).2.1.local_backup_sets = st.local_backup_sets ∧
    (OnlineSingleQuery p prf resp rnd x st).2.1.local_backup_set_groups =
      st.local_backup_set_groups ∧
    (OnlineSingleQuery p prf resp rnd x st).2.1.local_replacement_groups =
      st.local_replacement_groups ∧
    (OnlineSingleQuery p prf resp rnd x st).2.1.local_miss_elements = st.local_miss_elements ∧
    (∀ v, st.local_miss_elements x = some v →
      (OnlineSingleQuery p prf resp rnd x st).1 = v ∧
      (OnlineSingleQuery p prf resp rnd x st).2.1.local_cache x = some v ∧
      ∀ y, y ≠ x → (OnlineSingleQuery p prf resp rnd x st).2.1.local_cache y = st.local_cache y) ∧
    (st.local_miss_elements x = none →
      (OnlineSingleQuery p prf resp rnd x st).1 = List.replicate p.entry_size 0 ∧
      (OnlineSingleQuery p prf resp rnd x st).2.1.local_cache = st.local_cache) := by
  cases hm : st.local_miss_elements x with
  | none =>
    rw [OnlineSingleQuery_no_hit_no_miss p prf resp rnd x st hc hh hm]
    exact ⟨rfl, rfl, rfl, rfl, rfl, rfl, fun v hv => absurd hv (by simp), fun _ => ⟨rfl, rfl⟩⟩
  | some w =>
    rw [OnlineSingleQuery_no_hit_miss p prf resp rnd x st w hc hh hm]
    refine ⟨rfl, rfl, rfl, rfl, rfl, rfl, ?_, fun h => absurd h (by simp)⟩
    intro v hv
    have e : w = v := Option.some.inj hv
    subst e
    exact ⟨rfl, mapInsert_self _ _ _, fun y hy => mapInsert_ne _ _ _ _ hy⟩

theorem missing_hit_path_witness :
    (exStoreMiss.local_cache 1 = none ∧ findHitSet exParams (fun _ _ => 0) exStoreMiss 1 = none ∧
      exStoreMiss.local_miss_elements 1 = some [11]) ∧
    (OnlineSingleQuery exParams (fun _ _ => 0) (exCall 1).resp (exCall 1).rnd 1 exStoreMiss).1 =
      [11] ∧
    (OnlineSingleQuery exParams (fun _ _ => 0) (exCall 1).resp (exCall 1).rnd 1
      exStoreMiss).2.1.local_cache 1 = some [11] :=
  have h := (missing_hit_path exParams (fun _ _ => 0) (exCall 1).resp (exCall 1).rnd 1 exStoreMiss
    (by decide) (by decide)).2.2.2.2.2.2.1 [11] (by decide)
  ⟨by decide, h.1, h.2.1⟩

/-- The cache entry of an index survives any sequence of calls. -/
theorem OnlineMultipleQueries_cache_persist (p : Params) (prf : Nat → Nat → Nat)
    (calls : List Call) (st : HintStore) (x : Nat) (v : DBEntry)
    (hv : st.local_cache x = some v) :
    (OnlineMultipleQueries p prf calls st).2.1.local_cache x = some v := by
  induction calls generalizing st with
  | nil => exact hv
  | cons c cs ih =>
    rw [OnlineMultipleQueries_cons]
    exact ih _ (OnlineSingleQuery_cache_persist p prf c.resp c.rnd c.x st x v hv)

/-- C13. Cache immutability: for every hint store, once `local_cache` has an
entry `v` for `x`, no call to `OnlineSingleQuery`, for `x` or for any other
index, and no sequence of calls changes or removes `local_cache[x]`, and every
later `OnlineSingleQuery x` returns exactly `v`.  (`SendDummySet` is `const`: it
writes no field of the store.) -/
theorem cache_immutable (p : Params) (prf : Nat → Nat → Nat) (st : HintStore) (x : Nat)
    (v : DBEntry) (hv : st.local_cache x = some v) :
    (∀ (resp : List Nat → List Nat) (rnd : Nat → Nat) (y : Nat),
      (OnlineSingleQuery p prf resp rnd y st).2.1.local_cache x = some v) ∧
    (∀ calls : List Call, (OnlineMultipleQueries p prf calls st).2.1.local_cache x = some v) ∧
    (∀ (calls : List Call) (k : Nat) (c : Call), calls[k]? = some c → c.x = x →
      (OnlineMultipleQueries p prf calls st).1[k]? = some v) :=
  ⟨fun resp rnd y => OnlineSingleQuery_cache_persist p prf resp rnd y st x v hv,
   fun calls => OnlineMultipleQueries_cache_persist p prf calls st x v hv,
   fun calls k c hk hx => OnlineMultipleQueries_cached p prf calls st x v hv k c hk hx⟩

theorem cache_immutable_witness :
    (OnlineSingleQuery exParams exPrf (exCall 0).resp (exCall 0).rnd 0 exStore).2.1.local_cache 0 =
      some [10] ∧
    (OnlineMultipleQueries exParams exPrf [exCall 1, exCall 3, exCall 0]
      (OnlineSingleQuery exParams exPrf (exCall 0).resp (exCall 0).rnd 0 exStore).2.1).1[2]? =
      some [10] :=
  ⟨by decide,
   (cache_immutable exParams exPrf
     (OnlineSingleQuery exParams exPrf (exCall 0).resp (exCall 0).rnd 0 exStore).2.1 0 [10]
     (by decide)).2.2 [exCall 1, exCall 3, exCall 0] 2 (exCall 0) rfl rfl⟩


/-! ## Correct or zero -/

/-- A call writes the cache at most at the index asked for. -/
theorem OnlineSingleQuery_cache_other (p : Params) (prf : Nat → Nat → Nat)
    (resp : List Nat → List Nat) (rnd : Nat → Nat) (x : Nat) (st : HintStore) (y : Nat)
    (hy : y ≠ x) :
    (OnlineSingleQuery p prf resp rnd x st).2.1.local_cache y = st.local_cache y := by
  apply OnlineSingleQuery_cases p prf resp rnd x st
    (fun r => r.2.1.local_cache y = st.local_cache y)
  · intro _ _; rfl
  · intro _ _ _; rfl
  · intro w _ _ _; exact mapInsert_ne _ _ _ _ hy
  · intro _ _ _ _; rfl
  · intro h _ _ _ _; exact mapInsert_ne _ _ _ _ hy
  · intro h _ _ _ _; exact mapInsert_ne _ _ _ _ hy

/-- The cache holds only indices that were asked for. -/
theorem OnlineMultipleQueries_cache_keys (p : Params) (prf : Nat → Nat → Nat)
    (calls : List Call) (st : HintStore) (y : Nat) (v : DBEntry)
    (hv : (OnlineMultipleQueries p prf calls st).2.1.local_cache y = some v) :
    st.local_cache y = some v ∨ ∃ c ∈ calls, c.x = y := by
  induction calls generalizing st with
  | nil => exact Or.inl hv
  | cons c cs ih =>
    rw [OnlineMultipleQueries_cons] at hv
    rcases ih _ hv with h | ⟨c2, hc2, h⟩
    · by_cases e : y = c.x
      · exact Or.inr ⟨c, List.mem_cons_self _ _, e.symm⟩
      · rw [OnlineSingleQuery_cache_other p prf c.resp c.rnd c.x st y e] at h
        exact Or.inl h
    · exact Or.inr ⟨c2, List.mem_cons_of_mem _ hc2, h⟩

/-- A sequence of calls against an honest server keeps a consistent store
consistent. -/
theorem Consistent_run_state (p : Params) (prf : Nat → Nat → Nat) (db : Nat → DBEntry)
    (hdb : ∀ y, y < p.chunk_size * p.set_size → (db y).length = p.entry_size)
    (calls : List Call) (st : HintStore) (hI : Consistent p prf db st)
    (hx : ∀ c ∈ calls, c.x < p.chunk_size * p.set_size)
    (hsrv : ∀ c ∈ calls, ∀ indices, c.resp indices = honestServer p.entry_size db indices) :
    Consistent p prf db (OnlineMultipleQueries p prf calls st).2.1 := by
  induction calls generalizing st with
  | nil => exact hI
  | cons c cs ih =>
    rw [OnlineMultipleQueries_cons]
    exact ih _ (Consistent_step p prf db c.resp c.rnd c.x st hdb
      (hx c (List.mem_cons_self _ _)) (hsrv c (List.mem_cons_self _ _)) hI).1
      (fun c hc => hx c (List.mem_cons_of_mem _ hc))
      (fun c hc => hsrv c (List.mem_cons_of_mem _ hc))

theorem init_cache_empty (p : Params) (prf : Nat → Nat → Nat) (chunks : Nat → List Nat)
    (rnd : Nat → Nat → Nat) (y : Nat) :
    (FetchFullDB p prf chunks rnd (InitializeLocalSets p)).local_cache y = none := by
  rw [FetchFullDB_eq, fetchPrefix_cache]
  rfl

/-- C12. Correct-or-zero: for every fresh session against an honest server and
every sequence of queries with indices `< C*S`, repetitions allowed, every call
to `OnlineSingleQuery x` returns either `DB[x]` or the all-zero entry; and at
every point of the sequence every value stored in `local_cache` under a key `y`
equals `DB[y]`. -/
theorem correct_or_zero (p : Params) (prf : Nat → Nat → Nat) (chunks : Nat → List Nat)
    (rnd0 : Nat → Nat → Nat) (calls : List Call)
    (hT : 0 < p.thread_num)
    (htot : p.total_backup_set_num = p.backup_set_num_per_chunk * p.set_size)
    (hlen : ∀ k, k < p.set_size → (chunks k).length = p.chunk_size * p.entry_size)
    (hx : ∀ c ∈ calls, c.x < p.chunk_size * p.set_size)
    (hsrv : ∀ c ∈ calls, ∀ indices,
      c.resp indices = honestServer p.entry_size (DB p chunks) indices) :
    (∀ (i : Nat) (c : Call), calls[i]? = some c →
      ∃ r, (OnlineMultipleQueries p prf calls
          (FetchFullDB p prf chunks rnd0 (InitializeLocalSets p))).1[i]? = some r ∧
        (r = DB p chunks c.x ∨ r = List.replicate p.entry_size 0)) ∧
    (∀ (n y : Nat) (v : DBEntry), (OnlineMultipleQueries p prf (calls.take n)
        (FetchFullDB p prf chunks rnd0 (InitializeLocalSets p))).2.1.local_cache y = some v →
      v = DB p chunks y) := by
  constructor
  · intro i c hi
    have hcx := hx c (List.getElem?_mem hi)
    have hC : 0 < p.chunk_size := by
      rcases Nat.eq_zero_or_pos p.chunk_size with h0 | h0
      · rw [h0, Nat.zero_mul] at hcx; exact absurd hcx (Nat.not_lt_zero _)
      · exact h0
    obtain ⟨r, hr, hcase⟩ := Consistent_run p prf (DB p chunks) (DB_length p chunks hlen) calls _
      (Consistent_FetchFullDB p prf chunks rnd0 hT hC htot) hx hsrv i c hi
    refine ⟨r, hr, ?_⟩
    rcases hcase with h | ⟨_, h⟩ | ⟨_, h⟩
    · exact Or.inl h
    · exact Or.inr h
    · exact Or.inr h
  · intro n y v hv
    rcases OnlineMultipleQueries_cache_keys p prf _ _ y v hv with h | ⟨c, hc, hcy⟩
    · rw [init_cache_empty] at h; exact absurd h (by simp)
    · have hcm : c ∈ calls := List.mem_of_mem_take hc
      have hy : y < p.chunk_size * p.set_size := hcy ▸ hx c hcm
      have hC : 0 < p.chunk_size := by
        rcases Nat.eq_zero_or_pos p.chunk_size with h0 | h0
        · rw [h0, Nat.zero_mul] at hy; exact absurd hy (Nat.not_lt_zero _)
        · exact h0
      have hI := Consistent_run_state p prf (DB p chunks) (DB_length p chunks hlen)
        (calls.take n) _ (Consistent_FetchFullDB p prf chunks rnd0 hT hC htot)
        (fun c hc => hx c (List.mem_of_mem_take hc))
        (fun c hc => hsrv c (List.mem_of_mem_take hc))
      exact hI.cache y v hy hv

theorem correct_or_zero_witness :
    (0 < exParams.thread_num ∧
      exParams.total_backup_set_num = exParams.backup_set_num_per_chunk * exParams.set_size ∧
      [exCall 0, exCall 2, exCall 0][1]? = some (exCall 2)) ∧
    (OnlineMultipleQueries exParams exPrf [exCall 0, exCall 2, exCall 0] exStore).1 =
      [[10], [0], [10]] ∧
    ∃ r, (OnlineMultipleQueries exParams exPrf [exCall 0, exCall 2, exCall 0]
        (FetchFullDB exParams exPrf exChunks (fun _ _ => 0)
          (InitializeLocalSets exParams))).1[1]? = some r ∧
      (r = DB exParams exChunks (exCall 2).x ∨ r = List.replicate exParams.entry_size 0) :=
  ⟨⟨by decide, by decide, rfl⟩, by decide,
   (correct_or_zero exParams exPrf exChunks (fun _ _ => 0) [exCall 0, exCall 2, exCall 0]
     (by decide) (by decide) (fun k _ => rfl)
     (by intro c hc; simp only [List.mem_cons, List.mem_singleton, List.not_mem_nil, or_false] at hc
         rcases hc with rfl | rfl | rfl <;> decide)
     (by intro c hc; simp only [List.mem_cons, List.mem_singleton, List.not_mem_nil, or_false] at hc
         rcases hc with rfl | rfl | rfl <;> intro _ <;> rfl)).1 1 (exCall 2) rfl⟩


/-! ## The shape of the sets on the wire -/

theorem mem_own_chunk (C y : Nat) (hC : 0 < C) : y / C * C ≤ y ∧ y < (y / C + 1) * C := by
  have h := (chunk_bounds_iff C (y / C) y hC).mpr rfl
  rw [Nat.succ_mul]
  exact h

theorem in_chunk_lt (C S i y : Nat) (hi : i < S) (hy : y < (i + 1) * C) : y < C * S := by
  calc y < (i + 1) * C := hy
    _ ≤ S * C := Nat.mul_le_mul_right _ hi
    _ = C * S := Nat.mul_comm _ _

/-- When `C*S` fits in 64 bits no element of the dummy set wraps, and element
`i` lies in chunk `i`. -/
theorem dummySet_shape (p : Params) (rnd : Nat → Nat) (hC : 0 < p.chunk_size)
    (hfit : p.chunk_size * p.set_size ≤ 2 ^ 64) (i : Nat) (hi : i < p.set_size) :
    (dummySet p rnd).getD i 0 = rnd i % p.chunk_size + i * p.chunk_size ∧
    i * p.chunk_size ≤ (dummySet p rnd).getD i 0 ∧
      (dummySet p rnd).getD i 0 < (i + 1) * p.chunk_size := by
  have hm := Nat.mod_lt (rnd i) hC
  have hle : (i + 1) * p.chunk_size ≤ p.chunk_size * p.set_size := by
    rw [Nat.mul_comm p.chunk_size]
    exact Nat.mul_le_mul_right _ hi
  rw [Nat.succ_mul] at hle
  have h1 : u64 (i * p.chunk_size) = i * p.chunk_size := Nat.mod_eq_of_lt (by omega)
  have h2 : u64 (rnd i % p.chunk_size + i * p.chunk_size) =
      rnd i % p.chunk_size + i * p.chunk_size := Nat.mod_eq_of_lt (by omega)
  have hval : (dummySet p rnd).getD i 0 =
      u64 (rnd i % p.chunk_size + u64 (i * p.chunk_size)) := by
    simp only [dummySet, List.getD_eq_getElem?_getD, List.getElem?_map, List.getElem?_range hi,
      Option.map_some', Option.getD_some]
  rw [hval, h1, h2, Nat.succ_mul]
  omega

theorem expandProgrammed_shape (p : Params) (prf : Nat → Nat → Nat) (s : LocalSet)
    (hC : 0 < p.chunk_size) (i : Nat) (hi : i < p.set_size) :
    i * p.chunk_size ≤ (expandProgrammed p prf s).getD i 0 ∧
      (expandProgrammed p prf s).getD i 0 < (i + 1) * p.chunk_size := by
  have hex : i * p.chunk_size ≤ (ExpandWithLongKey prf s.tag p.set_size p.chunk_size).getD i 0 ∧
      (ExpandWithLongKey prf s.tag p.set_size p.chunk_size).getD i 0 < (i + 1) * p.chunk_size := by
    have ho := offset_lt prf p.chunk_size s.tag i hC
    rw [List.getD_eq_getElem?_getD, ExpandWithLongKey_getElem? _ _ _ _ _ hi]
    simp only [Option.getD_some, Nat.succ_mul]
    omega
  unfold expandProgrammed
  by_cases hp : s.is_programmed = true
  · rw [if_pos hp, getD_set]
    by_cases hc : s.programmed_point / p.chunk_size = i ∧
        s.programmed_point / p.chunk_size <
          (ExpandWithLongKey prf s.tag p.set_size p.chunk_size).length
    · rw [if_pos hc, ← hc.1]
      exact mem_own_chunk _ _ hC
    · rw [if_neg hc]; exact hex
  · rw [if_neg hp]; exact hex

/-- The set a real query sends has one element per chunk when the replacement
index it puts in lies in the chunk of `x`. -/
theorem sentSet_shape (p : Params) (prf : Nat → Nat → Nat) (st : HintStore) (x h : Nat)
    (hC : 0 < p.chunk_size)
    (hrep : x / p.chunk_size * p.chunk_size ≤
        (st.local_replacement_groups.getD (x / p.chunk_size) default).indices.getD
          (st.local_replacement_groups.getD (x / p.chunk_size) default).consumed 0 ∧
      (st.local_replacement_groups.getD (x / p.chunk_size) default).indices.getD
          (st.local_replacement_groups.getD (x / p.chunk_size) default).consumed 0 <
        (x / p.chunk_size + 1) * p.chunk_size)
    (i : Nat) (hi : i < p.set_size) :
    i * p.chunk_size ≤ (sentSet p prf st x h).getD i 0 ∧
      (sentSet p prf st x h).getD i 0 < (i + 1) * p.chunk_size := by
  unfold sentSet
  simp only []
  rw [getD_set]
  by_cases hc : x / p.chunk_size = i ∧
      x / p.chunk_size < (expandProgrammed p prf (st.primary_sets.getD h default)).length
  · rw [if_pos hc, ← hc.1]; exact hrep
  · rw [if_neg hc]; exact expandProgrammed_shape p prf _ hC i hi

/-- A call changes no replacement index. -/
theorem OnlineSingleQuery_replacement_indices (p : Params) (prf : Nat → Nat → Nat)
    (resp : List Nat → List Nat) (rnd : Nat → Nat) (x : Nat) (st : HintStore) (g : Nat) :
    ((OnlineSingleQuery p prf resp rnd x st).2.1.local_replacement_groups.getD g default).indices =
      (st.local_replacement_groups.getD g default).indices := by
  apply OnlineSingleQuery_cases p prf resp rnd x st
    (fun r => (r.2.1.local_replacement_groups.getD g default).indices =
      (st.local_replacement_groups.getD g default).indices)
  · intro _ _; rfl
  · intro _ _ _; rfl
  · intro _ _ _ _; rfl
  · intro _ _ _ _; rfl
  · intro h _ _ _ _; exact bump_replacement_indices _ _ _
  · intro h _ _ _ _; exact bump_replacement_indices _ _ _

/-- In every state of a session the replacement counters are at most `M2` and
every replacement index of group `g` lies in chunk `g`. -/
theorem session_replacements (p : Params) (prf : Nat → Nat → Nat) (chunks : Nat → List Nat)
    (rnd0 : Nat → Nat → Nat) (calls : List Call) (hC : 0 < p.chunk_size) :
    (∀ g, ((OnlineMultipleQueries p prf calls
        (FetchFullDB p prf chunks rnd0 (InitializeLocalSets p))).2.1.local_replacement_groups.getD
          g default).consumed ≤ p.backup_set_num_per_chunk) ∧
    (∀ g k, g < p.set_size → k < p.backup_set_num_per_chunk →
      g * p.chunk_size ≤ ((OnlineMultipleQueries p prf calls
        (FetchFullDB p prf chunks rnd0 (InitializeLocalSets p))).2.1.local_replacement_groups.getD
          g default).indices.getD k 0 ∧
      ((OnlineMultipleQueries p prf calls
        (FetchFullDB p prf chunks rnd0 (InitializeLocalSets p))).2.1.local_replacement_groups.getD
          g default).indices.getD k 0 < (g + 1) * p.chunk_size) := by
  apply OnlineMultipleQueries_invariant p prf
    (fun st => (∀ g, (st.local_replacement_groups.getD g default).consumed ≤
        p.backup_set_num_per_chunk) ∧
      (∀ g k, g < p.set_size → k < p.backup_set_num_per_chunk →
        g * p.chunk_size ≤ (st.local_replacement_groups.getD g default).indices.getD k 0 ∧
        (st.local_replacement_groups.getD g default).indices.getD k 0 < (g + 1) * p.chunk_size))
  · intro st resp rnd x ⟨h1, h2⟩
    constructor
    · intro g
      have hr := OnlineSingleQuery_replacement_consumed p prf resp rnd x st g
      have := h1 g
      rcases hr with h | ⟨h, hne⟩ <;> omega
    · intro g k hg hk
      rw [OnlineSingleQuery_replacement_indices]
      exact h2 g k hg hk
  · constructor
    · intro g
      rw [(FetchFullDB_consumed p prf chunks rnd0 g).1]
      exact Nat.zero_le _
    · intro g k hg hk
      have h := FetchFullDB_replacement p prf chunks rnd0 g k hC hg hk
      have ho : rnd0 g k &&& (p.chunk_size - 1) < p.chunk_size := by
        have := @Nat.and_le_right (rnd0 g k) (p.chunk_size - 1)
        omega
      rw [h.2.1, Nat.succ_mul]
      omega


/-! ## Set counts and worker ranges -/

/-- Without overflow the padded count is the least multiple of the worker count
that is at least the count. -/
theorem padToThreads_least (n T : Nat) (hT : 0 < T) (hn : n + T - 1 < 2 ^ 64) :
    padToThreads n T = (n + T - 1) / T * T ∧
    T ∣ padToThreads n T ∧ n ≤ padToThreads n T ∧
    ∀ m, T ∣ m → n ≤ m → padToThreads n T ≤ m := by
  have h1 : u64 (u64 (n + T) + (2 ^ 64 - 1)) = n + T - 1 := by
    unfold u64
    omega
  have hle : (n + T - 1) / T * T ≤ n + T - 1 := Nat.div_mul_le_self _ _
  have hval : padToThreads n T = (n + T - 1) / T * T := by
    unfold padToThreads
    rw [h1]
    unfold u64
    exact Nat.mod_eq_of_lt (by omega)
  refine ⟨hval, ?_, ?_, ?_⟩
  · rw [hval]; exact Nat.dvd_mul_left _ _
  · rw [hval, Nat.mul_comm]; exact ceil_div_mul_ge n T hT
  · intro m hm hnm
    obtain ⟨k, rfl⟩ := hm
    rw [hval, Nat.mul_comm]
    apply Nat.mul_le_mul_left
    apply Nat.le_of_lt_succ
    rw [Nat.div_lt_iff_lt_mul hT, Nat.succ_mul, Nat.mul_comm]
    omega

/-- C17. Set-count rounding: for every worker count `T ≥ 1` and every base
value `Q` (resp. base `M2` value) for which the addition does not overflow 64
bits, `Initialize` sets `primary_set_num_` (resp. `backup_set_num_per_chunk_`)
to the smallest multiple of `T` that is at least the base value, and
`total_backup_set_num_` to the 64-bit product
`backup_set_num_per_chunk_ * set_size_`, which is the product of the two
numbers as soon as that product fits in 64 bits. -/
theorem set_count_rounding (E T Q B C S : Nat) (hT : 0 < T) (hQ : Q + T - 1 < 2 ^ 64)
    (hB : B + T - 1 < 2 ^ 64) :
    (T ∣ (Initialize E T Q B C S).primary_set_num ∧ Q ≤ (Initialize E T Q B C S).primary_set_num ∧
      ∀ m, T ∣ m → Q ≤ m → (Initialize E T Q B C S).primary_set_num ≤ m) ∧
    (T ∣ (Initialize E T Q B C S).backup_set_num_per_chunk ∧
      B ≤ (Initialize E T Q B C S).backup_set_num_per_chunk ∧
      ∀ m, T ∣ m → B ≤ m → (Initialize E T Q B C S).backup_set_num_per_chunk ≤ m) ∧
    (Initialize E T Q B C S).total_backup_set_num =
      ((Initialize E T Q B C S).backup_set_num_per_chunk * (Initialize E T Q B C S).set_size)
        % 2 ^ 64 ∧
    ((Initialize E T Q B C S).backup_set_num_per_chunk * S < 2 ^ 64 →
      (Initialize E T Q B C S).total_backup_set_num =
        (Initialize E T Q B C S).backup_set_num_per_chunk * (Initialize E T Q B C S).set_size) :=
  ⟨(padToThreads_least Q T hT hQ).2, (padToThreads_least B T hT hB).2, rfl,
   fun h => Nat.mod_eq_of_lt h⟩

theorem set_count_rounding_witness :
    (0 < 4 ∧ 10 + 4 - 1 < 2 ^ 64 ∧ 7 + 4 - 1 < 2 ^ 64) ∧
    (Initialize 8 4 10 7 32 32).primary_set_num = 12 ∧
    (Initialize 8 4 10 7 32 32).backup_set_num_per_chunk = 8 ∧
    (Initialize 8 4 10 7 32 32).total_backup_set_num = 256 ∧
    (∀ m, 4 ∣ m → 10 ≤ m → (Initialize 8 4 10 7 32 32).primary_set_num ≤ m) :=
  ⟨by decide, by decide, by decide, by decide,
   (set_count_rounding 8 4 10 7 32 32 (by decide) (by decide) (by decide)).1.2.2⟩

/-- One chunk is processed in the same way whatever the number of workers. -/
theorem processChunk_thread_num (p : Params) (prf : Nat → Nat → Nat) (db_chunk : List Nat)
    (rnd : Nat → Nat) (st : HintStore) (i T : Nat) (hT : 0 < T) :
    processChunk { p with thread_num := T } prf db_chunk rnd st i =
      processChunk { p with thread_num := 1 } prf db_chunk rnd st i := by
  unfold processChunk
  simp only []
  rw [workers_eq { p with thread_num := T } prf db_chunk i hT,
    workers_eq { p with thread_num := 1 } prf db_chunk i Nat.one_pos]
  rfl

end Piano

namespace Pps

/-- C20, the failing input. The constructor `PPS(2^63, 2^31)` aborts although
`n/2 ≤ s*s ≤ 2n` holds (`2^62 ≤ 2^62 ≤ 2^64`): `2 * universe_size` wraps to 0
in 64 bits.  And `PPS(1, 2^32)` is accepted although `s*s = 2^64 > 2n = 2`:
`set_size * set_size` wraps to 0.  The parameters of the tests, `n = 2^23` and
`s = 2^11`, are accepted. -/
theorem PPS_new_overflow :
    (PPS.new (2 ^ 63) (2 ^ 31) = none ∧
      2 ^ 63 / 2 ≤ 2 ^ 31 * 2 ^ 31 ∧ 2 ^ 31 * 2 ^ 31 ≤ 2 * 2 ^ 63) ∧
    (PPS.new 1 (2 ^ 32) = some { universe_size := 1, set_size := 2 ^ 32 } ∧
      ¬ 2 ^ 32 * 2 ^ 32 ≤ 2 * 1) ∧
    PPS.new (2 ^ 23) (2 ^ 11) = some { universe_size := 2 ^ 23, set_size := 2 ^ 11 } := by
  decide

/-- Where neither product wraps the constructor accepts exactly the set sizes
with `n/2 ≤ s*s ≤ 2n`. -/
theorem PPS_new_no_overflow (n s : Nat) (hn : 2 * n < 2 ^ 64) (hs : s * s < 2 ^ 64) :
    (PPS.new n s).isSome = true ↔ n / 2 ≤ s * s ∧ s * s ≤ 2 * n := by
  unfold PPS.new rejects Piano.u64
  rw [Nat.mod_eq_of_lt hn, Nat.mod_eq_of_lt hs]
  by_cases h1 : s * s < n / 2
  · simp [h1]
  · by_cases h2 : s * s > 2 * n
    · simp [h1, h2]
    · simp [h1, h2]
      omega

end Pps

namespace Piano

/-! ## Exhausting the replacements of a chunk -/

/-- The result of the `i`-th call of a sequence is the result of that call on
the store left by the calls before it. -/
theorem OnlineMultipleQueries_getElem? (p : Params) (prf : Nat → Nat → Nat) (calls : List Call)
    (st : HintStore) (i : Nat) (c : Call) (hi : calls[i]? = some c) :
    (OnlineMultipleQueries p prf calls st).1[i]? =
      some (OnlineSingleQuery p prf c.resp c.rnd c.x
        (OnlineMultipleQueries p prf (calls.take i) st).2.1).1 := by
  induction calls generalizing st i with
  | nil => simp at hi
  | cons c0 cs ih =>
    cases i with
    | zero =>
      simp only [List.getElem?_cons_zero, Option.some.injEq] at hi
      subst hi
      rw [OnlineMultipleQueries_cons]
      simp only [List.getElem?_cons_zero]
      rfl
    | succ i =>
      simp only [List.getElem?_cons_succ] at hi
      rw [List.take_succ_cons, OnlineMultipleQueries_cons, OnlineMultipleQueries_cons]
      simp only [List.getElem?_cons_succ]
      exact ih _ i hi

/-- A call for an uncached index that finds a hit set while a replacement is
left consumes one replacement of the chunk of the index. -/
theorem OnlineSingleQuery_consumes (p : Params) (prf : Nat → Nat → Nat)
    (resp : List Nat → List Nat) (rnd : Nat → Nat) (x : Nat) (st : HintStore)
    (hc : st.local_cache x = none) (hh : (findHitSet p prf st x).isSome = true)
    (hr : (st.local_replacement_groups.getD (x / p.chunk_size) default).consumed ≠
      p.backup_set_num_per_chunk)
    (hl : x / p.chunk_size < st.local_replacement_groups.length) :
    ((OnlineSingleQuery p prf resp rnd x st).2.1.local_replacement_groups.getD (x / p.chunk_size)
        default).consumed =
      (st.local_replacement_groups.getD (x / p.chunk_size) default).consumed + 1 ∧
    (OnlineSingleQuery p prf resp rnd x st).2.1.local_replacement_groups.length =
      st.local_replacement_groups.length := by
  obtain ⟨h, hh2⟩ := Option.isSome_iff_exists.mp hh
  have hbump : ((st.local_replacement_groups.set (x / p.chunk_size)
      { st.local_replacement_groups.getD (x / p.chunk_size) default with
        consumed := (st.local_replacement_groups.getD (x / p.chunk_size) default).consumed + 1
      }).getD (x / p.chunk_size) default).consumed =
      (st.local_replacement_groups.getD (x / p.chunk_size) default).consumed + 1 := by
    rw [getD_set, if_pos ⟨rfl, hl⟩]
  by_cases hb : (st.local_backup_set_groups.getD (x / p.chunk_size) default).consumed =
      p.backup_set_num_per_chunk
  · rw [OnlineSingleQuery_no_refresh p prf resp rnd x st h hc hh2 hr hb]
    exact ⟨hbump, List.length_set _ _ _⟩
  · rw [OnlineSingleQuery_refresh p prf resp rnd x st h hc hh2 hr hb]
    exact ⟨hbump, List.length_set _ _ _⟩

/-- Distinct uncached indices of one chunk, each finding a hit set when it is
queried, consume one replacement of the chunk each, as long as one is left. -/
theorem consume_run (p : Params) (prf : Nat → Nat → Nat) (g : Nat) (calls : List Call)
    (st : HintStore)
    (hl : g < st.local_replacement_groups.length)
    (hroom : (st.local_replacement_groups.getD g default).consumed + calls.length ≤
      p.backup_set_num_per_chunk)
    (hchunk : ∀ c ∈ calls, c.x / p.chunk_size = g)
    (hdist : (calls.map Call.x).Nodup)
    (hcache : ∀ c ∈ calls, st.local_cache c.x = none)
    (hhit : ∀ (i : Nat) (c : Call), calls[i]? = some c →
      (findHitSet p prf (OnlineMultipleQueries p prf (calls.take i) st).2.1 c.x).isSome = true) :
    ((OnlineMultipleQueries p prf calls st).2.1.local_replacement_groups.getD g default).consumed =
      (st.local_replacement_groups.getD g default).consumed + calls.length ∧
    (∀ y, (∀ c ∈ calls, c.x ≠ y) →
      (OnlineMultipleQueries p prf calls st).2.1.local_cache y = st.local_cache y) := by
  induction calls generalizing st with
  | nil => exact ⟨rfl, fun _ _ => rfl⟩
  | cons c cs ih =>
    have hcg := hchunk c (List.mem_cons_self _ _)
    have hc := hcache c (List.mem_cons_self _ _)
    have hh := hhit 0 c (List.getElem?_cons_zero)
    simp only [List.length_cons] at hroom
    have hstep := OnlineSingleQuery_consumes p prf c.resp c.rnd c.x st hc hh
      (by rw [hcg]; omega) (by rw [hcg]; exact hl)
    rw [hcg] at hstep
    simp only [List.map_cons, List.nodup_cons, List.mem_map, not_exists, not_and] at hdist
    have htail := ih (OnlineSingleQuery p prf c.resp c.rnd c.x st).2.1
      (by rw [hstep.2]; exact hl) (by rw [hstep.1]; omega)
      (fun c' hc' => hchunk c' (List.mem_cons_of_mem _ hc')) hdist.2
      (fun c' hc' => by
        rw [OnlineSingleQuery_cache_other p prf c.resp c.rnd c.x st c'.x
          (fun e => hdist.1 c' hc' e)]
        exact hcache c' (List.mem_cons_of_mem _ hc'))
      (fun i c' hi => by
        have := hhit (i + 1) c' (by simpa using hi)
        rw [List.take_succ_cons, OnlineMultipleQueries_cons] at this
        exact this)
    rw [OnlineMultipleQueries_cons]
    constructor
    · show ((OnlineMultipleQueries p prf cs _).2.1.local_replacement_groups.getD g
        default).consumed = _
      rw [htail.1, hstep.1, List.length_cons]
      omega
    · intro y hy
      show (OnlineMultipleQueries p prf cs _).2.1.local_cache y = _
      rw [htail.2 y (fun c' hc' => hy c' (List.mem_cons_of_mem _ hc'))]
      exact OnlineSingleQuery_cache_other p prf c.resp c.rnd c.x st y
        (fun e => hy c (List.mem_cons_self _ _) e.symm)

theorem FetchFullDB_replacement_length (p : Params) (prf : Nat → Nat → Nat)
    (chunks : Nat → List Nat) (rnd : Nat → Nat → Nat) (g : Nat) (hg : g < p.set_size) :
    g < (FetchFullDB p prf chunks rnd (InitializeLocalSets p)).local_replacement_groups.length := by
  have hget : (FetchFullDB p prf chunks rnd (InitializeLocalSets p)).local_replacement_groups[g]? =
      some (filledGroup p (chunks g) (rnd g) g
        { consumed := 0, indices := List.replicate p.backup_set_num_per_chunk 0,
          values := List.replicate p.backup_set_num_per_chunk [] }) := by
    rw [FetchFullDB_eq, fetchPrefix_replacement_groups, if_pos hg]
    simp [InitializeLocalSets, List.getElem?_replicate, hg]
  by_contra hcon
  rw [List.getElem?_eq_none (Nat.le_of_not_lt hcon)] at hget
  exact absurd hget (by simp)


/-- C19 (as amended). Replacement exhaustion scenario: for every fresh
preprocessed session, every chunk `g` and every sequence of `M2+1`
pairwise-distinct indices all lying in chunk `g`, passed in order to
`OnlineSingleQuery`, for each of which the scan finds a hit set when it is
queried, the `(M2+1)`-th call returns the all-zero entry and sends exactly one
`SetParityQuery`, a dummy. -/
theorem replacement_exhaustion (p : Params) (prf : Nat → Nat → Nat) (chunks : Nat → List Nat)
    (rnd0 : Nat → Nat → Nat) (calls : List Call) (g : Nat) (last : Call)
    (hg : g < p.set_size)
    (hlen : calls.length = p.backup_set_num_per_chunk + 1)
    (hdist : (calls.map Call.x).Nodup)
    (hchunk : ∀ c ∈ calls, c.x / p.chunk_size = g)
    (hhit : ∀ (i : Nat) (c : Call), calls[i]? = some c →
      (findHitSet p prf (OnlineMultipleQueries p prf (calls.take i)
        (FetchFullDB p prf chunks rnd0 (InitializeLocalSets p))).2.1 c.x).isSome = true)
    (hlast : calls[p.backup_set_num_per_chunk]? = some last) :
    (OnlineMultipleQueries p prf calls
      (FetchFullDB p prf chunks rnd0 (InitializeLocalSets p))).1[p.backup_set_num_per_chunk]? =
        some (List.replicate p.entry_size 0) ∧
    (OnlineSingleQuery p prf last.resp last.rnd last.x
      (OnlineMultipleQueries p prf (calls.take p.backup_set_num_per_chunk)
        (FetchFullDB p prf chunks rnd0 (InitializeLocalSets p))).2.1).2.2 =
      [Event.sendSetParityQuery (dummySet p last.rnd), Event.recvSetParityResponse] ∧
    (dummySet p last.rnd).length = p.set_size := by
  have hsplit : calls = calls.take p.backup_set_num_per_chunk ++
      last :: calls.drop (p.backup_set_num_per_chunk + 1) := by
    obtain ⟨hlt, hget⟩ := List.getElem?_eq_some.mp hlast
    rw [← hget, List.getElem_cons_drop, List.take_append_drop]
  have hpre_mem : ∀ c ∈ calls.take p.backup_set_num_per_chunk, c ∈ calls :=
    fun c hc => List.mem_of_mem_take hc
  have hnd : (calls.take p.backup_set_num_per_chunk).map Call.x ++
      (last.x :: (calls.drop (p.backup_set_num_per_chunk + 1)).map Call.x) =
      calls.map Call.x := by
    conv_rhs => rw [hsplit]
    simp
  rw [← hnd] at hdist
  have hdis := List.nodup_append.mp hdist
  have hrun := consume_run p prf g (calls.take p.backup_set_num_per_chunk)
    (FetchFullDB p prf chunks rnd0 (InitializeLocalSets p))
    (FetchFullDB_replacement_length p prf chunks rnd0 g hg)
    (by rw [(FetchFullDB_consumed p prf chunks rnd0 g).1, List.length_take]; omega)
    (fun c hc => hchunk c (hpre_mem c hc)) hdis.1
    (fun c _ => init_cache_empty p prf chunks rnd0 c.x)
    (fun i c hi => by
      have hi2 : i < p.backup_set_num_per_chunk := by
        have := (List.getElem?_eq_some.mp hi).1
        rw [List.length_take] at this
        omega
      have hci : calls[i]? = some c := by
        rw [List.getElem?_take_of_lt hi2] at hi
        exact hi
      have := hhit i c hci
      rw [List.take_take, Nat.min_eq_left (Nat.le_of_lt hi2)]
      exact this)
  have hcons : ((OnlineMultipleQueries p prf (calls.take p.backup_set_num_per_chunk)
      (FetchFullDB p prf chunks rnd0 (InitializeLocalSets p))).2.1.local_replacement_groups.getD
        (last.x / p.chunk_size) default).consumed = p.backup_set_num_per_chunk := by
    rw [hchunk last (List.getElem?_mem hlast), hrun.1,
      (FetchFullDB_consumed p prf chunks rnd0 g).1, List.length_take, hlen]
    omega
  have hcache : (OnlineMultipleQueries p prf (calls.take p.backup_set_num_per_chunk)
      (FetchFullDB p prf chunks rnd0 (InitializeLocalSets p))).2.1.local_cache last.x = none := by
    rw [hrun.2 last.x]
    · exact init_cache_empty p prf chunks rnd0 last.x
    · intro c hc e
      exact hdis.2.2 (List.mem_map.mpr ⟨c, hc, rfl⟩) (e ▸ List.mem_cons_self _ _)
  obtain ⟨h, hh⟩ := Option.isSome_iff_exists.mp (hhit _ last hlast)
  have hout := OnlineSingleQuery_out_of_hints p prf last.resp last.rnd last.x _ h hcache hh hcons
  refine ⟨?_, ?_, dummySet_length p last.rnd⟩
  · rw [OnlineMultipleQueries_getElem? p prf calls _ _ last hlast, hout]
    rfl
  · rw [hout]
    rfl

theorem replacement_exhaustion_witness :
    (0 < exParamsOne.set_size ∧
      [exCall 0, exCall 1].length = exParamsOne.backup_set_num_per_chunk + 1 ∧
      ([exCall 0, exCall 1].map Call.x).Nodup ∧
      [exCall 0, exCall 1][exParamsOne.backup_set_num_per_chunk]? = some (exCall 1)) ∧
    (OnlineMultipleQueries exParamsOne exPrf [exCall 0, exCall 1]
      (FetchFullDB exParamsOne exPrf exChunks (fun _ _ => 0)
        (InitializeLocalSets exParamsOne))).1[exParamsOne.backup_set_num_per_chunk]? =
      some (List.replicate exParamsOne.entry_size 0) :=
  ⟨⟨by decide, rfl, by decide, rfl⟩,
   (replacement_exhaustion exParamsOne exPrf exChunks (fun _ _ => 0) [exCall 0, exCall 1] 0
     (exCall 1) (by decide) rfl (by decide)
     (by intro c hc; simp only [List.mem_cons, List.mem_singleton, List.not_mem_nil, or_false] at hc
         rcases hc with rfl | rfl <;> decide)
     (by intro i c hi
         match i, hi with
         | 0, hi =>
           simp only [List.getElem?_cons_zero, Option.some.injEq] at hi
           subst hi; decide
         | 1, hi =>
           simp only [List.getElem?_cons_succ, List.getElem?_cons_zero, Option.some.injEq] at hi
           subst hi; decide
         | n + 2, hi => simp at hi)
     rfl).1⟩

/-- C19 fails as stated: in the `M2 = 1` example with a PRF that is constantly
0, the two distinct indices `1, 0` of chunk 0 are queried in order.  The query
for index 1 finds no hit set and is served from the local-miss table, which
consumes no replacement; the second call, the `(M2+1)`-th, finds a hit set and
a replacement, sends a real set and returns `DB[0] = [10]`, not the zero
entry. -/
theorem replacement_exhaustion_counterexample :
    [exCall 1, exCall 0].length = exParamsOne.backup_set_num_per_chunk + 1 ∧
    ([exCall 1, exCall 0].map Call.x).Nodup ∧
    (∀ x ∈ [exCall 1, exCall 0].map Call.x, x / exParamsOne.chunk_size = 0) ∧
    (OnlineMultipleQueries exParamsOne (fun _ _ => 0) [exCall 1, exCall 0] exStoreOneMiss).1 =
      [[11], [10]] ∧
    (OnlineMultipleQueries exParamsOne (fun _ _ => 0) [exCall 1, exCall 0]
      exStoreOneMiss).1[exParamsOne.backup_set_num_per_chunk]? ≠
        some (List.replicate exParamsOne.entry_size 0) := by
  decide


/-! ## Tags -/

theorem init_primary_tag (p : Params) (j : Nat) (hj : j < p.primary_set_num) :
    ((InitializeLocalSets p).primary_sets.getD j default).tag = j % 2 ^ 32 := by
  simp [InitializeLocalSets, List.getD_eq_getElem?_getD, List.getElem?_range hj]

theorem init_backup_tag (p : Params) (b : Nat) (hb : b < p.total_backup_set_num) :
    ((InitializeLocalSets p).local_backup_sets.getD b default).tag =
      (p.primary_set_num + b) % 2 ^ 32 := by
  simp [InitializeLocalSets, List.getD_eq_getElem?_getD, List.getElem?_range hb]

theorem FetchFullDB_primary_tag (p : Params) (prf : Nat → Nat → Nat) (chunks : Nat → List Nat)
    (rnd : Nat → Nat → Nat) (hT : 0 < p.thread_num) (j : Nat) (hj : j < p.primary_set_num) :
    ((FetchFullDB p prf chunks rnd (InitializeLocalSets p)).primary_sets.getD j default).tag =
      j % 2 ^ 32 := by
  rw [FetchFullDB_eq]
  exact fetchPrefix_init_tag p prf chunks rnd hT p.set_size j hj

theorem FetchFullDB_backup_tag (p : Params) (prf : Nat → Nat → Nat) (chunks : Nat → List Nat)
    (rnd : Nat → Nat → Nat) (hT : 0 < p.thread_num) (b : Nat)
    (hb : b < p.total_backup_set_num) :
    ((FetchFullDB p prf chunks rnd (InitializeLocalSets p)).local_backup_sets.getD b default).tag =
      (p.primary_set_num + b) % 2 ^ 32 := by
  rw [FetchFullDB_eq, List.getD_eq_getElem?_getD, fetchPrefix_backup_sets _ _ _ _ _ hT,
    if_pos hb]
  simp [InitializeLocalSets, List.getElem?_range hb]

theorem pair_index_inj (M g c g2 k : Nat) (hc : c < M) (hk : k < M)
    (h : g * M + c = g2 * M + k) : g = g2 ∧ c = k := by
  have hM : 0 < M := by omega
  have h1 : (g * M + c) / M = g := by
    rw [Nat.add_comm, Nat.add_mul_div_right _ _ hM, Nat.div_eq_of_lt hc, Nat.zero_add]
  have h2 : (g2 * M + k) / M = g2 := by
    rw [Nat.add_comm, Nat.add_mul_div_right _ _ hM, Nat.div_eq_of_lt hk, Nat.zero_add]
  have hg : g = g2 := by rw [← h1, ← h2, h]
  subst hg
  exact ⟨rfl, by omega⟩

theorem pair_index_lt (M S g k : Nat) (hg : g < S) (hk : k < M) : g * M + k < M * S := by
  calc g * M + k < g * M + M := by omega
    _ = (g + 1) * M := (Nat.succ_mul _ _).symm
    _ ≤ S * M := Nat.mul_le_mul_right _ hg
    _ = M * S := Nat.mul_comm _ _

/-- The tags of a fresh session whose tag counter does not wrap. -/
theorem TagsDistinct_FetchFullDB (p : Params) (prf : Nat → Nat → Nat) (chunks : Nat → List Nat)
    (rnd : Nat → Nat → Nat) (hT : 0 < p.thread_num)
    (htot : p.total_backup_set_num = p.backup_set_num_per_chunk * p.set_size)
    (hwrap : p.primary_set_num + p.backup_set_num_per_chunk * p.set_size ≤ 2 ^ 32) :
    TagsDistinct p (FetchFullDB p prf chunks rnd (InitializeLocalSets p)) :=
  have hgrp : (FetchFullDB p prf chunks rnd (InitializeLocalSets p)).local_backup_set_groups
      = (InitializeLocalSets p).local_backup_set_groups := by
    rw [FetchFullDB_eq, fetchPrefix_backup_groups]
  { groups_length := by
      rw [hgrp]; simp [InitializeLocalSets]
    group_sets := by
      intro g k hg hk
      rw [hgrp, init_backup_group p g hg]
      simp [List.getD_eq_getElem?_getD, List.getElem?_range hk]
    backup_tag := by
      intro b hb
      rw [FetchFullDB_backup_tag p prf chunks rnd hT b hb]
      exact Nat.mod_eq_of_lt (by omega)
    consumed_le := by
      intro g
      rw [(FetchFullDB_consumed p prf chunks rnd g).2]
      exact Nat.zero_le _
    primary_inj := by
      intro j1 j2 h1 h2 h
      rw [FetchFullDB_primary_tag p prf chunks rnd hT j1 h1,
        FetchFullDB_primary_tag p prf chunks rnd hT j2 h2,
        Nat.mod_eq_of_lt (by omega), Nat.mod_eq_of_lt (by omega)] at h
      exact h
    primary_fresh := by
      intro j g k hj _ _ _
      rw [FetchFullDB_primary_tag p prf chunks rnd hT j hj, Nat.mod_eq_of_lt (by omega)]
      omega }

/-- A refresh keeps the tags distinct: the tag it gives to the hit set is the
tag of the backup set it consumes. -/
theorem TagsDistinct_storeRefresh (p : Params) (prf : Nat → Nat → Nat)
    (resp : List Nat → List Nat) (x h : Nat) (st : HintStore)
    (htot : p.total_backup_set_num = p.backup_set_num_per_chunk * p.set_size)
    (hx : x < p.chunk_size * p.set_size) (hI : TagsDistinct p st)
    (hb : (st.local_backup_set_groups.getD (x / p.chunk_size) default).consumed ≠
      p.backup_set_num_per_chunk) :
    TagsDistinct p (storeRefresh p prf resp st x h) := by
  have hg := chunk_id_lt _ _ _ hx
  have hk : (st.local_backup_set_groups.getD (x / p.chunk_size) default).consumed <
      p.backup_set_num_per_chunk := by
    have := hI.consumed_le (x / p.chunk_size)
    omega
  have hnew : (nextBackup p st x).tag = p.primary_set_num +
      (x / p.chunk_size * p.backup_set_num_per_chunk +
        (st.local_backup_set_groups.getD (x / p.chunk_size) default).consumed) := by
    unfold nextBackup
    rw [hI.group_sets _ _ hg hk]
    exact hI.backup_tag _ (by rw [htot]; exact pair_index_lt _ _ _ _ hg hk)
  have hps : ∀ j, ((storeRefresh p prf resp st x h).primary_sets.getD j default).tag =
      if h = j ∧ h < st.primary_sets.length then (nextBackup p st x).tag
      else (st.primary_sets.getD j default).tag := by
    intro j
    show ((st.primary_sets.set h _).getD j default).tag = _
    rw [getD_set]
    by_cases hc : h = j ∧ h < st.primary_sets.length
    · rw [if_pos hc, if_pos hc]
    · rw [if_neg hc, if_neg hc]
  have hcons : ∀ g, ((storeRefresh p prf resp st x h).local_backup_set_groups.getD g
      default).consumed =
      if x / p.chunk_size = g then (st.local_backup_set_groups.getD g default).consumed + 1
      else (st.local_backup_set_groups.getD g default).consumed := by
    intro g
    show ((st.local_backup_set_groups.set _ _).getD g default).consumed = _
    rw [getD_set]
    by_cases hc : x / p.chunk_size = g
    · rw [if_pos ⟨hc, by rw [hI.groups_length]; exact hg⟩, if_pos hc, hc]
    · rw [if_neg (fun hh => hc hh.1), if_neg hc]
  exact
  { groups_length := by
      show (st.local_backup_set_groups.set _ _).length = _
      rw [List.length_set]; exact hI.groups_length
    group_sets := by
      intro g k hg2 hk2
      show ((st.local_backup_set_groups.set _ _).getD g default).sets.getD k 0 = _
      rw [bump_backup_sets]
      exact hI.group_sets g k hg2 hk2
    backup_tag := hI.backup_tag
    consumed_le := fun g => bump_backup_consumed _ _ g _ hI.consumed_le hb
    primary_inj := by
      intro j1 j2 h1 h2 he
      rw [hps j1, hps j2] at he
      by_cases hc1 : h = j1 ∧ h < st.primary_sets.length
      · by_cases hc2 : h = j2 ∧ h < st.primary_sets.length
        · rw [← hc1.1, ← hc2.1]
        · rw [if_pos hc1, if_neg hc2, hnew] at he
          exact absurd he.symm (hI.primary_fresh j2 _ _ h2 hg hk (Nat.le_refl _))
      · by_cases hc2 : h = j2 ∧ h < st.primary_sets.length
        · rw [if_neg hc1, if_pos hc2, hnew] at he
          exact absurd he (hI.primary_fresh j1 _ _ h1 hg hk (Nat.le_refl _))
        · rw [if_neg hc1, if_neg hc2] at he
          exact hI.primary_inj j1 j2 h1 h2 he
    primary_fresh := by
      intro j g k hj hg2 hk2 hle
      rw [hcons g] at hle
      rw [hps j]
      by_cases hc : h = j ∧ h < st.primary_sets.length
      · rw [if_pos hc, hnew]
        intro he
        have hpair := pair_index_inj _ _ _ _ _ hk hk2 (Nat.add_left_cancel he)
        rw [if_pos hpair.1] at hle
        rw [← hpair.1] at hle
        omega
      · rw [if_neg hc]
        apply hI.primary_fresh j g k hj hg2 hk2
        by_cases hgg : x / p.chunk_size = g
        · rw [if_pos hgg] at hle; omega
        · rw [if_neg hgg] at hle; exact hle }

/-- Every call for an index `< C*S` keeps the tags distinct. -/
theorem TagsDistinct_step (p : Params) (prf : Nat → Nat → Nat) (resp : List Nat → List Nat)
    (rnd : Nat → Nat) (x : Nat) (st : HintStore)
    (htot : p.total_backup_set_num = p.backup_set_num_per_chunk * p.set_size)
    (hx : x < p.chunk_size * p.set_size) (hI : TagsDistinct p st) :
    TagsDistinct p (OnlineSingleQuery p prf resp rnd x st).2.1 := by
  apply OnlineSingleQuery_cases p prf resp rnd x st (fun r => TagsDistinct p r.2.1)
  · intro _ _; exact hI
  · intro _ _ _; exact hI
  · intro _ _ _ _
    exact ⟨hI.groups_length, hI.group_sets, hI.backup_tag, hI.consumed_le, hI.primary_inj,
      hI.primary_fresh⟩
  · intro _ _ _ _; exact hI
  · intro _ _ _ _ _
    exact ⟨hI.groups_length, hI.group_sets, hI.backup_tag, hI.consumed_le, hI.primary_inj,
      hI.primary_fresh⟩
  · intro h _ _ _ hb
    exact TagsDistinct_storeRefresh p prf resp x h st htot hx hI hb

theorem TagsDistinct_run (p : Params) (prf : Nat → Nat → Nat) (calls : List Call)
    (st : HintStore)
    (htot : p.total_backup_set_num = p.backup_set_num_per_chunk * p.set_size)
    (hx : ∀ c ∈ calls, c.x < p.chunk_size * p.set_size) (hI : TagsDistinct p st) :
    TagsDistinct p (OnlineMultipleQueries p prf calls st).2.1 := by
  induction calls generalizing st with
  | nil => exact hI
  | cons c cs ih =>
    rw [OnlineMultipleQueries_cons]
    exact ih _ (fun c hc => hx c (List.mem_cons_of_mem _ hc))
      (TagsDistinct_step p prf c.resp c.rnd c.x st htot (hx c (List.mem_cons_self _ _)) hI)


/-- C16 (as amended). Tag uniqueness session-wide, when the 32-bit tag counter
does not wrap (`M1 + M2*S ≤ 2^32`): after `InitializeLocalSets` primary set `j`
has tag `j` and backup set `b` has tag `M1 + b`, the consecutive values of the
counter starting at 0, so the tags of the `M1` primary sets and the `M2*S`
backup sets are pairwise distinct; and in every state reached from a fresh
session by `OnlineSingleQuery` calls for indices `< C*S` the tags of the
primary sets are pairwise distinct and distinct from the tag of every backup
set that is not consumed yet (position `≥` the `consumed` counter of its
group). -/
theorem tag_uniqueness (p : Params) (prf : Nat → Nat → Nat) (chunks : Nat → List Nat)
    (rnd0 : Nat → Nat → Nat) (calls : List Call) (hT : 0 < p.thread_num)
    (htot : p.total_backup_set_num = p.backup_set_num_per_chunk * p.set_size)
    (hwrap : p.primary_set_num + p.backup_set_num_per_chunk * p.set_size ≤ 2 ^ 32)
    (hx : ∀ c ∈ calls, c.x < p.chunk_size * p.set_size) :
    (∀ j, j < p.primary_set_num →
      ((InitializeLocalSets p).primary_sets.getD j default).tag = j) ∧
    (∀ b, b < p.backup_set_num_per_chunk * p.set_size →
      ((InitializeLocalSets p).local_backup_sets.getD b default).tag = p.primary_set_num + b) ∧
    (∀ j1 j2, j1 < p.primary_set_num → j2 < p.primary_set_num →
      ((OnlineMultipleQueries p prf calls
        (FetchFullDB p prf chunks rnd0 (InitializeLocalSets p))).2.1.primary_sets.getD j1
          default).tag =
      ((OnlineMultipleQueries p prf calls
        (FetchFullDB p prf chunks rnd0 (InitializeLocalSets p))).2.1.primary_sets.getD j2
          default).tag → j1 = j2) ∧
    (∀ j g k, j < p.primary_set_num → g < p.set_size → k < p.backup_set_num_per_chunk →
      ((OnlineMultipleQueries p prf calls
        (FetchFullDB p prf chunks rnd0 (InitializeLocalSets p))).2.1.local_backup_set_groups.getD
          g default).consumed ≤ k →
      ((OnlineMultipleQueries p prf calls
        (FetchFullDB p prf chunks rnd0 (InitializeLocalSets p))).2.1.primary_sets.getD j
          default).tag ≠
      ((OnlineMultipleQueries p prf calls
        (FetchFullDB p prf chunks rnd0 (InitializeLocalSets p))).2.1.local_backup_sets.getD
          (((OnlineMultipleQueries p prf calls
            (FetchFullDB p prf chunks rnd0
              (InitializeLocalSets p))).2.1.local_backup_set_groups.getD g default).sets.getD k 0)
          default).tag) := by
  have hI := TagsDistinct_run p prf calls _ htot hx
    (TagsDistinct_FetchFullDB p prf chunks rnd0 hT htot hwrap)
  refine ⟨?_, ?_, hI.primary_inj, ?_⟩
  · intro j hj
    rw [init_primary_tag p j hj]
    exact Nat.mod_eq_of_lt (by omega)
  · intro b hb
    rw [init_backup_tag p b (by rw [htot]; exact hb)]
    exact Nat.mod_eq_of_lt (by omega)
  · intro j g k hj hg hk hle
    rw [hI.group_sets g k hg hk,
      hI.backup_tag _ (by rw [htot]; exact pair_index_lt _ _ _ _ hg hk)]
    exact hI.primary_fresh j g k hj hg hk hle

theorem tag_uniqueness_witness :
    (0 < exParams.thread_num ∧
      exParams.total_backup_set_num = exParams.backup_set_num_per_chunk * exParams.set_size ∧
      exParams.primary_set_num + exParams.backup_set_num_per_chunk * exParams.set_size ≤ 2 ^ 32) ∧
    (OnlineMultipleQueries exParams exPrf [exCall 0, exCall 1] exStore).2.1.primary_sets.map
      LocalSet.tag = [2, 3] ∧
    (∀ j1 j2, j1 < exParams.primary_set_num → j2 < exParams.primary_set_num →
      ((OnlineMultipleQueries exParams exPrf [exCall 0, exCall 1]
        (FetchFullDB exParams exPrf exChunks (fun _ _ => 0)
          (InitializeLocalSets exParams))).2.1.primary_sets.getD j1 default).tag =
      ((OnlineMultipleQueries exParams exPrf [exCall 0, exCall 1]
        (FetchFullDB exParams exPrf exChunks (fun _ _ => 0)
          (InitializeLocalSets exParams))).2.1.primary_sets.getD j2 default).tag → j1 = j2) :=
  ⟨by decide, by decide,
   (tag_uniqueness exParams exPrf exChunks (fun _ _ => 0) [exCall 0, exCall 1] (by decide)
     (by decide) (by decide)
     (by intro c hc; simp only [List.mem_cons, List.mem_singleton, List.not_mem_nil, or_false] at hc
         rcases hc with rfl | rfl <;> decide)).2.2.1⟩

/-- C16 fails as stated: with `2^28` primary sets and `2^32` backup sets the
32-bit counter wraps, and backup set number `2^32 - 2^28` gets the tag 0 of
primary set 0. -/
theorem tag_uniqueness_counterexample :
    0 < exParamsWrap.primary_set_num ∧
    2 ^ 32 - 2 ^ 28 < exParamsWrap.backup_set_num_per_chunk * exParamsWrap.set_size ∧
    exParamsWrap.total_backup_set_num =
      exParamsWrap.backup_set_num_per_chunk * exParamsWrap.set_size ∧
    ((InitializeLocalSets exParamsWrap).primary_sets.getD 0 default).tag =
      ((InitializeLocalSets exParamsWrap).local_backup_sets.getD (2 ^ 32 - 2 ^ 28) default).tag := by
  refine ⟨by decide, by decide, by decide, ?_⟩
  rw [init_primary_tag exParamsWrap 0 (by decide),
    init_backup_tag exParamsWrap (2 ^ 32 - 2 ^ 28) (by decide)]
  decide

end Piano

namespace Pps

/-! ## LemireTrick -/

theorem mul_lt_two_pow_128 (a b : Nat) (ha : a < 2 ^ 64) (hb : b < 2 ^ 64) :
    a * b < 2 ^ 128 := by
  have h : a * b < 2 ^ 64 * 2 ^ 64 := Nat.mul_lt_mul'' ha hb
  have e : (2 : Nat) ^ 64 * 2 ^ 64 = 2 ^ 128 := by norm_num
  omega

theorem LemireTrick64_eq (v m : Nat) (hv : v < 2 ^ 64) (hm : m < 2 ^ 64) :
    LemireTrick64 v m = v * m / 2 ^ 64 := by
  have h := mul_lt_two_pow_128 v m hv hm
  unfold LemireTrick64 u128 Piano.u64
  rw [Nat.mod_eq_of_lt h]
  apply Nat.mod_eq_of_lt
  apply Nat.div_lt_of_lt_mul
  have e : (2 : Nat) ^ 64 * 2 ^ 64 = 2 ^ 128 := by norm_num
  omega

/-- C23. LemireTrick range: for every 64-bit `v` and every 64-bit `m`,
`LemireTrick(v, m)` equals `floor(v * m / 2^64)`, which is `< m` whenever
`m > 0` and 0 when `m = 0`; for every 128-bit `w` the 128-bit overload
`LemireTrick(w, m)` returns the value of the 64-bit overload applied to the
high 64 bits of `w`, and neither 128-bit product overflows. -/
theorem LemireTrick_range (v m w : Nat) (hv : v < 2 ^ 64) (hm : m < 2 ^ 64)
    (hw : w < 2 ^ 128) :
    LemireTrick64 v m = v * m / 2 ^ 64 ∧
    (0 < m → LemireTrick64 v m < m) ∧
    (m = 0 → LemireTrick64 v m = 0) ∧
    LemireTrick128 w m = LemireTrick64 (w / 2 ^ 64) m ∧
    w / 2 ^ 64 < 2 ^ 64 ∧
    w / 2 ^ 64 * m < 2 ^ 128 ∧
    v * m < 2 ^ 128 := by
  have hhi : w / 2 ^ 64 < 2 ^ 64 := by
    apply Nat.div_lt_of_lt_mul
    have e : (2 : Nat) ^ 64 * 2 ^ 64 = 2 ^ 128 := by norm_num
    omega
  have heq := LemireTrick64_eq v m hv hm
  refine ⟨heq, ?_, ?_, rfl, hhi, mul_lt_two_pow_128 _ _ hhi hm, mul_lt_two_pow_128 _ _ hv hm⟩
  · intro hpos
    rw [heq]
    apply Nat.div_lt_of_lt_mul
    exact Nat.mul_lt_mul_of_pos_right hv hpos
  · intro h0
    rw [heq, h0, Nat.mul_zero, Nat.zero_div]

theorem LemireTrick_range_witness :
    ((2 ^ 63 + 5 < 2 ^ 64 ∧ 10 < 2 ^ 64 ∧ 2 ^ 127 + 2 ^ 64 * 7 + 3 < 2 ^ 128) ∧
      LemireTrick64 (2 ^ 63 + 5) 10 = 5 ∧ LemireTrick128 (2 ^ 127 + 2 ^ 64 * 7 + 3) 10 = 5) ∧
    (0 < 10 → LemireTrick64 (2 ^ 63 + 5) 10 < 10) ∧
    LemireTrick128 (2 ^ 127 + 2 ^ 64 * 7 + 3) 10 =
      LemireTrick64 ((2 ^ 127 + 2 ^ 64 * 7 + 3) / 2 ^ 64) 10 :=
  have h := LemireTrick_range (2 ^ 63 + 5) 10 (2 ^ 127 + 2 ^ 64 * 7 + 3) (by decide) (by decide)
    (by decide)
  ⟨by decide, h.2.1, h.2.2.2.1⟩

end Pps

namespace Piano

/-! ## The two consumed counters of a chunk -/

theorem replacementStep_length (p : Params) (db_chunk : List Nat) (rnd : Nat → Nat) (i : Nat)
    (L : List Nat) (gs : List LocalReplacementGroup) :
    (L.foldl (replacementStep p db_chunk rnd i) gs).length = gs.length := by
  induction L generalizing gs with
  | nil => rfl
  | cons k L ih =>
    simp only [List.foldl_cons]
    rw [ih, replacementStep_eq, List.length_set]

theorem fetchPrefix_replacement_length (p : Params) (prf : Nat → Nat → Nat)
    (chunks : Nat → List Nat) (rnd : Nat → Nat → Nat) (st : HintStore) (n : Nat) :
    (fetchPrefix p prf chunks rnd st n).local_replacement_groups.length =
      st.local_replacement_groups.length := by
  induction n with
  | zero => rfl
  | succ n ih =>
    rw [fetchPrefix_succ, ← ih]
    exact replacementStep_length p (chunks n) (rnd n) n _ _

/-- After `FetchFullDB` on a freshly initialised store the two vectors of groups
have `S` elements each. -/
theorem FetchFullDB_group_lengths (p : Params) (prf : Nat → Nat → Nat) (chunks : Nat → List Nat)
    (rnd : Nat → Nat → Nat) :
    (FetchFullDB p prf chunks rnd (InitializeLocalSets p)).local_backup_set_groups.length =
      p.set_size ∧
    (FetchFullDB p prf chunks rnd (InitializeLocalSets p)).local_replacement_groups.length =
      p.set_size := by
  rw [FetchFullDB_eq, fetchPrefix_backup_groups, fetchPrefix_replacement_length]
  simp [InitializeLocalSets]

/-- A call keeps the two vectors of groups of the same length and the two
counters of every chunk equal. -/
theorem lockstep_step (p : Params) (prf : Nat → Nat → Nat) (resp : List Nat → List Nat)
    (rnd : Nat → Nat) (x : Nat) (st : HintStore)
    (hI : st.local_backup_set_groups.length = st.local_replacement_groups.length ∧
      ∀ g, (st.local_backup_set_groups.getD g default).consumed =
        (st.local_replacement_groups.getD g default).consumed) :
    (OnlineSingleQuery p prf resp rnd x st).2.1.local_backup_set_groups.length =
        (OnlineSingleQuery p prf resp rnd x st).2.1.local_replacement_groups.length ∧
      ∀ g, ((OnlineSingleQuery p prf resp rnd x st).2.1.local_backup_set_groups.getD g
          default).consumed =
        ((OnlineSingleQuery p prf resp rnd x st).2.1.local_replacement_groups.getD g
          default).consumed := by
  apply OnlineSingleQuery_cases p prf resp rnd x st
    (fun r => r.2.1.local_backup_set_groups.length = r.2.1.local_replacement_groups.length ∧
      ∀ g, (r.2.1.local_backup_set_groups.getD g default).consumed =
        (r.2.1.local_replacement_groups.getD g default).consumed)
  · intro _ _; exact hI
  · intro _ _ _; exact hI
  · intro _ _ _ _; exact hI
  · intro _ _ _ _; exact hI
  · intro h _ _ hr hb
    rw [hI.2] at hb
    exact absurd hb hr
  · intro h _ _ _ _
    constructor
    · show (st.local_backup_set_groups.set _ _).length =
        (st.local_replacement_groups.set _ _).length
      rw [List.length_set, List.length_set]; exact hI.1
    · intro g
      show ((st.local_backup_set_groups.set _ _).getD g default).consumed =
        ((st.local_replacement_groups.set _ _).getD g default).consumed
      rw [getD_set, getD_set, hI.1]
      by_cases hc : x / p.chunk_size = g ∧ x / p.chunk_size < st.local_replacement_groups.length
      · rw [if_pos hc, if_pos hc]
        show (st.local_backup_set_groups.getD (x / p.chunk_size) default).consumed + 1 =
          (st.local_replacement_groups.getD (x / p.chunk_size) default).consumed + 1
        rw [hI.2]
      · rw [if_neg hc, if_neg hc]; exact hI.2 g

/-- C21. Counters move in lockstep, so the stale-primary branch is dead: in
every state reachable from `InitializeLocalSets` by `FetchFullDB` and any
sequence of `OnlineSingleQuery` calls,
`local_backup_set_groups[g].consumed == local_replacement_groups[g].consumed`
for every chunk `g`; consequently, whenever a query in such a state passes the
replacement check (not cached, a hit set found, `consumed < M2`), the refresh
test `backup consumed == M2` is false and the refresh is performed: the call
returns with the refreshed store of line 318. -/
theorem counters_lockstep (p : Params) (prf : Nat → Nat → Nat) (chunks : Nat → List Nat)
    (rnd0 : Nat → Nat → Nat) (calls : List Call) :
    (∀ g,
      ((OnlineMultipleQueries p prf calls
        (FetchFullDB p prf chunks rnd0 (InitializeLocalSets p))).2.1.local_backup_set_groups.getD
          g default).consumed =
      ((OnlineMultipleQueries p prf calls
        (FetchFullDB p prf chunks rnd0 (InitializeLocalSets p))).2.1.local_replacement_groups.getD
          g default).consumed) ∧
    ∀ (resp : List Nat → List Nat) (rnd : Nat → Nat) (x h : Nat),
      (OnlineMultipleQueries p prf calls
        (FetchFullDB p prf chunks rnd0 (InitializeLocalSets p))).2.1.local_cache x = none →
      findHitSet p prf (OnlineMultipleQueries p prf calls
        (FetchFullDB p prf chunks rnd0 (InitializeLocalSets p))).2.1 x = some h →
      ((OnlineMultipleQueries p prf calls
        (FetchFullDB p prf chunks rnd0 (InitializeLocalSets p))).2.1.local_replacement_groups.getD
          (x / p.chunk_size) default).consumed < p.backup_set_num_per_chunk →
      ((OnlineMultipleQueries p prf calls
        (FetchFullDB p prf chunks rnd0 (InitializeLocalSets p))).2.1.local_backup_set_groups.getD
          (x / p.chunk_size) default).consumed ≠ p.backup_set_num_per_chunk ∧
      (OnlineSingleQuery p prf resp rnd x (OnlineMultipleQueries p prf calls
        (FetchFullDB p prf chunks rnd0 (InitializeLocalSets p))).2.1).2.1 =
        storeRefresh p prf resp (OnlineMultipleQueries p prf calls
          (FetchFullDB p prf chunks rnd0 (InitializeLocalSets p))).2.1 x h := by
  have hinv := OnlineMultipleQueries_invariant p prf
    (fun st => st.local_backup_set_groups.length = st.local_replacement_groups.length ∧
      ∀ g, (st.local_backup_set_groups.getD g default).consumed =
        (st.local_replacement_groups.getD g default).consumed)
    (fun st resp rnd x hI => lockstep_step p prf resp rnd x st hI) calls
    (FetchFullDB p prf chunks rnd0 (InitializeLocalSets p))
    ⟨by rw [(FetchFullDB_group_lengths p prf chunks rnd0).1,
          (FetchFullDB_group_lengths p prf chunks rnd0).2],
     fun g => by
      rw [(FetchFullDB_consumed p prf chunks rnd0 g).1,
        (FetchFullDB_consumed p prf chunks rnd0 g).2]⟩
  refine ⟨hinv.2, ?_⟩
  intro resp rnd x h hc hh hr
  have hb : ((OnlineMultipleQueries p prf calls
      (FetchFullDB p prf chunks rnd0 (InitializeLocalSets p))).2.1.local_backup_set_groups.getD
        (x / p.chunk_size) default).consumed ≠ p.backup_set_num_per_chunk := by
    rw [hinv.2]; omega
  refine ⟨hb, ?_⟩
  rw [OnlineSingleQuery_refresh p prf resp rnd x _ h hc hh (by omega) hb]
  rfl

theorem counters_lockstep_witness :
    (exStore.local_cache 0 = none ∧ findHitSet exParams exPrf exStore 0 = some 0 ∧
      (exStore.local_replacement_groups.getD (0 / exParams.chunk_size) default).consumed <
        exParams.backup_set_num_per_chunk) ∧
    (OnlineSingleQuery exParams exPrf (exCall 0).resp (exCall 0).rnd 0
      (OnlineMultipleQueries exParams exPrf []
        (FetchFullDB exParams exPrf exChunks (fun _ _ => 0)
          (InitializeLocalSets exParams))).2.1).2.1 =
      storeRefresh exParams exPrf (exCall 0).resp
        (OnlineMultipleQueries exParams exPrf []
          (FetchFullDB exParams exPrf exChunks (fun _ _ => 0)
            (InitializeLocalSets exParams))).2.1 0 0 :=
  ⟨by decide,
   ((counters_lockstep exParams exPrf exChunks (fun _ _ => 0) []).2 (exCall 0).resp
     (exCall 0).rnd 0 0 (by decide) (by decide) (by decide)).2⟩


/-! ## Coverage of a fresh store -/

theorem findHitSet_isSome_of_hit (p : Params) (prf : Nat → Nat → Nat) (st : HintStore)
    (x j : Nat) (hj : j < p.primary_set_num)
    (hit : isHit p prf x (st.primary_sets.getD j default) = true) :
    (findHitSet p prf st x).isSome = true := by
  unfold findHitSet
  rw [List.find?_isSome]
  exact ⟨j, List.mem_range.mpr hj, hit⟩

theorem FetchFullDB_primary_fresh (p : Params) (prf : Nat → Nat → Nat) (chunks : Nat → List Nat)
    (rnd : Nat → Nat → Nat) (hT : 0 < p.thread_num) (j : Nat) (hj : j < p.primary_set_num) :
    ((FetchFullDB p prf chunks rnd (InitializeLocalSets p)).primary_sets.getD j
      default).is_programmed = false := by
  rw [FetchFullDB_eq, List.getD_eq_getElem?_getD, fetchPrefix_primary_sets _ _ _ _ _ hT,
    if_pos hj]
  simp [InitializeLocalSets, List.getElem?_range hj]

/-- C22. Total coverage of a fresh store: immediately after `FetchFullDB`, no
query made yet, for every index `x < C*S` either some primary set `j` in
`[0, M1)` is a hit for `x` (`offset(tag_j, x / C) == x mod C`, and no primary set
is programmed) or `x` is a key of `local_miss_elements`; hence the first
`OnlineSingleQuery` of a session does not take the missing-hit path without a
local-miss record, the branch that returns zero without caching. -/
theorem fresh_store_coverage (p : Params) (prf : Nat → Nat → Nat) (chunks : Nat → List Nat)
    (rnd : Nat → Nat → Nat) (x : Nat) (hT : 0 < p.thread_num)
    (hx : x < p.chunk_size * p.set_size) :
    ((∃ j, j < p.primary_set_num ∧
        offset prf p.chunk_size
          ((FetchFullDB p prf chunks rnd (InitializeLocalSets p)).primary_sets.getD j default).tag
          (x / p.chunk_size) = x % p.chunk_size ∧
        isHit p prf x
          ((FetchFullDB p prf chunks rnd (InitializeLocalSets p)).primary_sets.getD j default)
            = true) ∨
      ((FetchFullDB p prf chunks rnd (InitializeLocalSets p)).local_miss_elements x).isSome
        = true) ∧
    (∀ j, j < p.primary_set_num →
      ((FetchFullDB p prf chunks rnd (InitializeLocalSets p)).primary_sets.getD j
        default).is_programmed = false) ∧
    ((findHitSet p prf (FetchFullDB p prf chunks rnd (InitializeLocalSets p)) x).isSome = true ∨
      ((FetchFullDB p prf chunks rnd (InitializeLocalSets p)).local_miss_elements x).isSome
        = true) ∧
    ¬ missingHit p prf (FetchFullDB p prf chunks rnd (InitializeLocalSets p)) x := by
  have hC : 0 < p.chunk_size := by
    rcases Nat.eq_zero_or_pos p.chunk_size with h0 | h0
    · rw [h0, Nat.zero_mul] at hx; exact absurd hx (Nat.not_lt_zero _)
    · exact h0
  have hg := chunk_id_lt _ _ _ hx
  have hm := fetchPrefix_miss p prf chunks rnd hT hC p.set_size x
  have hfresh := FetchFullDB_primary_fresh p prf chunks rnd hT
  by_cases hsel : ∃ j, j < p.primary_set_num ∧
      offset prf p.chunk_size (j % 2 ^ 32) (x / p.chunk_size) = x % p.chunk_size
  · obtain ⟨j, hj, ho⟩ := hsel
    have htag := FetchFullDB_primary_tag p prf chunks rnd hT j hj
    have ho2 : offset prf p.chunk_size
        ((FetchFullDB p prf chunks rnd (InitializeLocalSets p)).primary_sets.getD j default).tag
        (x / p.chunk_size) = x % p.chunk_size := by rw [htag]; exact ho
    have hit : isHit p prf x
        ((FetchFullDB p prf chunks rnd (InitializeLocalSets p)).primary_sets.getD j default)
          = true := by
      rw [isHit_iff]
      refine ⟨fun h => ?_, ho2⟩
      rw [hfresh j hj] at h
      exact absurd h.1 (by simp)
    have hsome := findHitSet_isSome_of_hit p prf _ x j hj hit
    refine ⟨Or.inl ⟨j, hj, ho2, hit⟩, hfresh, Or.inl hsome, ?_⟩
    rintro ⟨_, hnone, _⟩
    rw [hnone] at hsome
    exact absurd hsome (by simp)
  · have hmiss : (FetchFullDB p prf chunks rnd (InitializeLocalSets p)).local_miss_elements x =
        some (DB p chunks x) := by
      rw [FetchFullDB_eq]; exact hm.1 hg hsel
    refine ⟨Or.inr (by rw [hmiss]; rfl), hfresh, Or.inr (by rw [hmiss]; rfl), ?_⟩
    rintro ⟨_, _, hnone⟩
    rw [hnone] at hmiss
    exact absurd hmiss (by simp)

theorem fresh_store_coverage_witness :
    (0 < exParams.thread_num ∧ 1 < exParams.chunk_size * exParams.set_size) ∧
    findHitSet exParams (fun _ _ => 0) exStoreMiss 1 = none ∧
    exStoreMiss.local_miss_elements 1 = some [11] ∧
    ¬ missingHit exParams (fun _ _ => 0)
      (FetchFullDB exParams (fun _ _ => 0) exChunks (fun _ _ => 0)
        (InitializeLocalSets exParams)) 1 :=
  ⟨by decide, by decide, by decide,
   (fresh_store_coverage exParams (fun _ _ => 0) exChunks (fun _ _ => 0) 1 (by decide)
     (by decide)).2.2.2⟩


/-! ## Defined executions of a session -/

theorem length_le_of_isSome {α β : Type} (l1 : List α) (l2 : List β)
    (h : ∀ j : Nat, l1[j]?.isSome = l2[j]?.isSome) : l1.length ≤ l2.length := by
  by_contra hc
  have hlt : l2.length < l1.length := Nat.lt_of_not_le hc
  have := h l2.length
  rw [List.getElem?_eq_getElem hlt, List.getElem?_eq_none (Nat.le_refl _)] at this
  simp at this

theorem length_eq_of_isSome {α β : Type} (l1 : List α) (l2 : List β)
    (h : ∀ j : Nat, l1[j]?.isSome = l2[j]?.isSome) : l1.length = l2.length :=
  Nat.le_antisymm (length_le_of_isSome l1 l2 h) (length_le_of_isSome l2 l1 (fun j => (h j).symm))

theorem fetchPrefix_primary_length (p : Params) (prf : Nat → Nat → Nat) (chunks : Nat → List Nat)
    (rnd : Nat → Nat → Nat) (st : HintStore) (hT : 0 < p.thread_num) (n : Nat) :
    (fetchPrefix p prf chunks rnd st n).primary_sets.length = st.primary_sets.length := by
  apply length_eq_of_isSome
  intro j
  rw [fetchPrefix_primary_sets _ _ _ _ _ hT]
  split
  · cases st.primary_sets[j]? <;> rfl
  · rfl

theorem fetchPrefix_backup_length (p : Params) (prf : Nat → Nat → Nat) (chunks : Nat → List Nat)
    (rnd : Nat → Nat → Nat) (st : HintStore) (hT : 0 < p.thread_num) (n : Nat) :
    (fetchPrefix p prf chunks rnd st n).local_backup_sets.length = st.local_backup_sets.length := by
  apply length_eq_of_isSome
  intro j
  rw [fetchPrefix_backup_sets _ _ _ _ _ hT]
  split
  · cases st.local_backup_sets[j]? <;> rfl
  · rfl

theorem filledGroup_lengths (p : Params) (db_chunk : List Nat) (rnd : Nat → Nat) (i : Nat)
    (g : LocalReplacementGroup) :
    (filledGroup p db_chunk rnd i g).indices.length = g.indices.length ∧
    (filledGroup p db_chunk rnd i g).values.length = g.values.length := by
  unfold filledGroup
  rw [foldl_updReplacement]
  exact ⟨foldl_set_length _ _ _, foldl_set_length _ _ _⟩

/-- The hint store that `FetchFullDB` leaves on a freshly initialised store is
well formed. -/
theorem WellFormed_FetchFullDB (p : Params) (prf : Nat → Nat → Nat) (chunks : Nat → List Nat)
    (rnd : Nat → Nat → Nat) (hT : 0 < p.thread_num) :
    WellFormed p (FetchFullDB p prf chunks rnd (InitializeLocalSets p)) :=
  have hgrp : (FetchFullDB p prf chunks rnd (InitializeLocalSets p)).local_backup_set_groups
      = (InitializeLocalSets p).local_backup_set_groups := by
    rw [FetchFullDB_eq, fetchPrefix_backup_groups]
  { primary_length := by
      rw [FetchFullDB_eq, fetchPrefix_primary_length _ _ _ _ _ hT]
      simp [InitializeLocalSets]
    programmed_lt := by
      intro j hj hp
      exfalso
      have h := fetchPrefix_primary_sets p prf chunks rnd (InitializeLocalSets p) hT p.set_size j
      have hinit : (InitializeLocalSets p).primary_sets[j]? =
          some { tag := j % 2 ^ 32, parity := ZeroEntry p.entry_size, programmed_point := 0,
                 is_programmed := false } := by
        simp [InitializeLocalSets, List.getElem?_range hj]
      rw [if_pos hj, hinit] at h
      rw [FetchFullDB_eq, List.getD_eq_getElem?_getD, h] at hp
      simp at hp
    backup_length := by
      rw [FetchFullDB_eq, fetchPrefix_backup_length _ _ _ _ _ hT]
      simp [InitializeLocalSets]
    groups_length := by
      rw [hgrp]; simp [InitializeLocalSets]
    group_sets_length := by
      intro g hg
      rw [hgrp, init_backup_group p g hg]
      simp
    group_sets := by
      intro g k hg hk
      rw [hgrp, init_backup_group p g hg]
      simp [List.getD_eq_getElem?_getD, List.getElem?_range hk]
    group_consumed := by
      intro g _
      rw [(FetchFullDB_consumed p prf chunks rnd g).2]
      exact Nat.zero_le _
    replacements_length := (FetchFullDB_group_lengths p prf chunks rnd).2
    replacement_slots := by
      intro g hg
      have hget : (FetchFullDB p prf chunks rnd
          (InitializeLocalSets p)).local_replacement_groups[g]? =
          some (filledGroup p (chunks g) (rnd g) g
            { consumed := 0, indices := List.replicate p.backup_set_num_per_chunk 0,
              values := List.replicate p.backup_set_num_per_chunk [] }) := by
        rw [FetchFullDB_eq, fetchPrefix_replacement_groups, if_pos hg]
        simp [InitializeLocalSets, List.getElem?_replicate, hg]
      simp only [List.getD_eq_getElem?_getD, hget, Option.getD_some]
      have h := filledGroup_lengths p (chunks g) (rnd g) g
        { consumed := 0, indices := List.replicate p.backup_set_num_per_chunk 0,
          values := List.replicate p.backup_set_num_per_chunk [] }
      simpa using h
    replacement_consumed := by
      intro g _
      rw [(FetchFullDB_consumed p prf chunks rnd g).1]
      exact Nat.zero_le _ }

theorem bump_replacement_wf (p : Params) (rg : List LocalReplacementGroup) (g : Nat)
    (hlen : rg.length = p.set_size)
    (hslots : ∀ g2, g2 < p.set_size →
      (rg.getD g2 default).indices.length = p.backup_set_num_per_chunk ∧
      (rg.getD g2 default).values.length = p.backup_set_num_per_chunk)
    (hle : ∀ g2, g2 < p.set_size → (rg.getD g2 default).consumed ≤ p.backup_set_num_per_chunk)
    (hne : (rg.getD g default).consumed ≠ p.backup_set_num_per_chunk) :
    (rg.set g { rg.getD g default with consumed := (rg.getD g default).consumed + 1 }).length =
      p.set_size ∧
    (∀ g2, g2 < p.set_size →
      ((rg.set g { rg.getD g default with
          consumed := (rg.getD g default).consumed + 1 }).getD g2 default).indices.length =
        p.backup_set_num_per_chunk ∧
      ((rg.set g { rg.getD g default with
          consumed := (rg.getD g default).consumed + 1 }).getD g2 default).values.length =
        p.backup_set_num_per_chunk) ∧
    (∀ g2, g2 < p.set_size →
      ((rg.set g { rg.getD g default with
          consumed := (rg.getD g default).consumed + 1 }).getD g2 default).consumed ≤
        p.backup_set_num_per_chunk) := by
  refine ⟨by rw [List.length_set]; exact hlen, ?_, ?_⟩
  · intro g2 hg2
    rw [bump_replacement_indices, bump_replacement_values]
    exact hslots g2 hg2
  · intro g2 hg2
    rw [getD_set]
    by_cases h : g = g2 ∧ g < rg.length
    · rw [if_pos h]
      obtain ⟨rfl, _⟩ := h
      have := hle g hg2
      show (rg.getD g default).consumed + 1 ≤ p.backup_set_num_per_chunk
      omega
    · rw [if_neg h]; exact hle g2 hg2

theorem bump_backup_wf (p : Params) (bg : List LocalBackupSetGroup) (g : Nat)
    (hlen : bg.length = p.set_size)
    (hle : ∀ g2, g2 < p.set_size → (bg.getD g2 default).consumed ≤ p.backup_set_num_per_chunk)
    (hne : (bg.getD g default).consumed ≠ p.backup_set_num_per_chunk) :
    (bg.set g { bg.getD g default with consumed := (bg.getD g default).consumed + 1 }).length =
      p.set_size ∧
    (∀ g2, g2 < p.set_size →
      ((bg.set g { bg.getD g default with
          consumed := (bg.getD g default).consumed + 1 }).getD g2 default).consumed ≤
        p.backup_set_num_per_chunk) := by
  refine ⟨by rw [List.length_set]; exact hlen, ?_⟩
  intro g2 hg2
  rw [getD_set]
  by_cases h : g = g2 ∧ g < bg.length
  · rw [if_pos h]
    obtain ⟨rfl, _⟩ := h
    have := hle g hg2
    show (bg.getD g default).consumed + 1 ≤ p.backup_set_num_per_chunk
    omega
  · rw [if_neg h]; exact hle g2 hg2

/-- Every call for an index `< C*S` leaves a well-formed store well formed. -/
theorem WellFormed_step (p : Params) (prf : Nat → Nat → Nat) (resp : List Nat → List Nat)
    (rnd : Nat → Nat) (x : Nat) (st : HintStore) (hx : x < p.chunk_size * p.set_size)
    (hI : WellFormed p st) : WellFormed p (OnlineSingleQuery p prf resp rnd x st).2.1 := by
  apply OnlineSingleQuery_cases p prf resp rnd x st (fun r => WellFormed p r.2.1)
  · intro _ _; exact hI
  · intro _ _ _; exact hI
  · intro _ _ _ _
    exact ⟨hI.primary_length, hI.programmed_lt, hI.backup_length, hI.groups_length,
      hI.group_sets_length, hI.group_sets, hI.group_consumed, hI.replacements_length,
      hI.replacement_slots, hI.replacement_consumed⟩
  · intro _ _ _ _; exact hI
  · intro h _ _ hr _
    have hrg := bump_replacement_wf p st.local_replacement_groups (x / p.chunk_size)
      hI.replacements_length hI.replacement_slots hI.replacement_consumed hr
    exact ⟨hI.primary_length, hI.programmed_lt, hI.backup_length, hI.groups_length,
      hI.group_sets_length, hI.group_sets, hI.group_consumed, hrg.1, hrg.2.1, hrg.2.2⟩
  · intro h _ _ hr hb
    have hrg := bump_replacement_wf p st.local_replacement_groups (x / p.chunk_size)
      hI.replacements_length hI.replacement_slots hI.replacement_consumed hr
    have hbg := bump_backup_wf p st.local_backup_set_groups (x / p.chunk_size)
      hI.groups_length hI.group_consumed hb
    refine ⟨?_, ?_, hI.backup_length, hbg.1, ?_, ?_, hbg.2, hrg.1, hrg.2.1, hrg.2.2⟩
    · show (st.primary_sets.set h _).length = p.primary_set_num
      rw [List.length_set]; exact hI.primary_length
    · intro j hj
      show ((st.primary_sets.set h _).getD j default).is_programmed = true →
        ((st.primary_sets.set h _).getD j default).programmed_point < p.chunk_size * p.set_size
      rw [getD_set]
      by_cases hc : h = j ∧ h < st.primary_sets.length
      · rw [if_pos hc]; intro _; exact hx
      · rw [if_neg hc]; exact hI.programmed_lt j hj
    · intro g hg
      show ((st.local_backup_set_groups.set (x / p.chunk_size) _).getD g default).sets.length = _
      rw [bump_backup_sets]; exact hI.group_sets_length g hg
    · intro g k hg hk
      show ((st.local_backup_set_groups.set (x / p.chunk_size) _).getD g default).sets.getD k 0
        = _
      rw [bump_backup_sets]; exact hI.group_sets g k hg hk

/-- On a well-formed store every division and every vector subscript of a call
for an index `< C*S` is defined. -/
theorem WellFormed_defined (p : Params) (prf : Nat → Nat → Nat) (x : Nat) (st : HintStore)
    (htot : p.total_backup_set_num = p.backup_set_num_per_chunk * p.set_size)
    (hx : x < p.chunk_size * p.set_size) (hI : WellFormed p st) :
    OnlineSingleQueryDefined p prf x st = true := by
  have hC : 0 < p.chunk_size := by
    rcases Nat.eq_zero_or_pos p.chunk_size with h0 | h0
    · rw [h0, Nat.zero_mul] at hx; exact absurd hx (Nat.not_lt_zero _)
    · exact h0
  have hg := chunk_id_lt _ _ _ hx
  unfold OnlineSingleQueryDefined
  cases hc : st.local_cache x with
  | some v =>
    simp only [SendDummySetDefined, Bool.or_eq_true, beq_iff_eq, bne_iff_ne, ne_eq]
    exact Or.inr (Nat.pos_iff_ne_zero.mp hC)
  | none =>
    cases hh : findHitSet p prf st x with
    | none =>
      simp only [Bool.and_eq_true, bne_iff_ne, ne_eq, decide_eq_true_eq]
      exact ⟨Nat.pos_iff_ne_zero.mp hC, Nat.le_of_eq hI.primary_length.symm⟩
    | some h =>
      have hh2 := findHitSet_some p prf st x h hh
      have hslots := hI.replacement_slots _ hg
      have hrc := hI.replacement_consumed _ hg
      have hbc := hI.group_consumed _ hg
      have hbl := hI.group_sets_length _ hg
      simp only [Bool.and_eq_true, Bool.or_eq_true, bne_iff_ne, ne_eq, decide_eq_true_eq,
        Bool.not_eq_true']
      refine ⟨Nat.pos_iff_ne_zero.mp hC, ⟨⟨?_, ?_⟩, ?_⟩, ?_⟩
      · rw [hI.primary_length]; exact hh2.1
      · cases hp : (st.primary_sets.getD h default).is_programmed with
        | false => exact Or.inl rfl
        | true => exact Or.inr (chunk_id_lt _ _ _ (hI.programmed_lt h hh2.1 hp))
      · rw [hI.replacements_length]; exact hg
      · by_cases hr : (st.local_replacement_groups.getD (x / p.chunk_size) default).consumed =
            p.backup_set_num_per_chunk
        · exact Or.inl hr
        · refine Or.inr ⟨⟨⟨⟨?_, ?_⟩, hg⟩, ?_⟩, ?_⟩
          · rw [hslots.1]; omega
          · rw [hslots.2]; omega
          · rw [hI.groups_length]; exact hg
          · by_cases hb : (st.local_backup_set_groups.getD (x / p.chunk_size) default).consumed =
                p.backup_set_num_per_chunk
            · exact Or.inl hb
            · refine Or.inr ⟨by rw [hbl]; omega, ?_⟩
              rw [hI.group_sets _ _ hg (by omega), hI.backup_length, htot]
              exact pair_index_lt _ _ _ _ hg (by omega)

/-- A property of the hint store that every call of a session preserves holds
after the session. -/
theorem OnlineMultipleQueries_invariant_on (p : Params) (prf : Nat → Nat → Nat)
    (I : HintStore → Prop) (Q : Call → Prop)
    (hstep : ∀ st c, Q c → I st → I (OnlineSingleQuery p prf c.resp c.rnd c.x st).2.1)
    (calls : List Call) (st : HintStore) (hQ : ∀ c ∈ calls, Q c) (h : I st) :
    I (OnlineMultipleQueries p prf calls st).2.1 := by
  induction calls generalizing st with
  | nil => exact h
  | cons c cs ih =>
    exact ih _ (fun c' hc' => hQ c' (List.mem_cons_of_mem _ hc'))
      (hstep st c (hQ c (List.mem_cons_self _ _)) h)

/-- Every state of a session whose queries are `< C*S` is well formed. -/
theorem WellFormed_session (p : Params) (prf : Nat → Nat → Nat) (chunks : Nat → List Nat)
    (rnd0 : Nat → Nat → Nat) (calls : List Call) (hT : 0 < p.thread_num)
    (hcalls : ∀ c ∈ calls, c.x < p.chunk_size * p.set_size) :
    WellFormed p (OnlineMultipleQueries p prf calls
      (FetchFullDB p prf chunks rnd0 (InitializeLocalSets p))).2.1 :=
  OnlineMultipleQueries_invariant_on p prf (WellFormed p)
    (fun c => c.x < p.chunk_size * p.set_size)
    (fun st c hc hI => WellFormed_step p prf c.resp c.rnd c.x st hc hI) calls _ hcalls
    (WellFormed_FetchFullDB p prf chunks rnd0 hT)

/-- On a well-formed store every call of a sequence of queries `< C*S` is
defined, and the sequence gives what `OnlineMultipleQueries` gives. -/
theorem OnlineMultipleQueriesChecked_eq (p : Params) (prf : Nat → Nat → Nat)
    (calls : List Call) (st : HintStore)
    (htot : p.total_backup_set_num = p.backup_set_num_per_chunk * p.set_size)
    (hcalls : ∀ c ∈ calls, c.x < p.chunk_size * p.set_size) (hI : WellFormed p st) :
    OnlineMultipleQueriesChecked p prf calls st = some (OnlineMultipleQueries p prf calls st) := by
  induction calls generalizing st with
  | nil => rfl
  | cons c cs ih =>
    have hc := hcalls c (List.mem_cons_self _ _)
    have hd := WellFormed_defined p prf c.x st htot hc hI
    have ht := ih (OnlineSingleQuery p prf c.resp c.rnd c.x st).2.1
      (fun c' hc' => hcalls c' (List.mem_cons_of_mem _ hc'))
      (WellFormed_step p prf c.resp c.rnd c.x st hc hI)
    simp only [OnlineMultipleQueriesChecked, OnlineSingleQueryChecked, hd, if_true, ht]
    rfl


/-! ## One round trip per query -/

/-- C3, the counterexample. On the store of the example (`C = 2`, `S = 2`) the
index 4 is not cached and the scan finds the hit set 0; the call then reads
`local_replacement_groups_[2]` (line 266) in a vector of two groups.  The call
is not defined and no pair of messages is exchanged. -/
theorem one_round_trip_per_query_counterexample :
    exStore.local_cache 4 = none ∧ findHitSet exParams exPrf exStore 4 = some 0 ∧
    4 / exParams.chunk_size = 2 ∧ exStore.local_replacement_groups.length = 2 ∧
    OnlineSingleQueryDefined exParams exPrf 4 exStore = false ∧
    ¬ ∃ r sent, OnlineSingleQueryChecked exParams exPrf (exCall 4).resp (exCall 4).rnd 4 exStore =
        some r ∧
      r.2.2 = [Event.sendSetParityQuery sent, Event.recvSetParityResponse] ∧
      sent.length = exParams.set_size := by
  have hd : OnlineSingleQueryDefined exParams exPrf 4 exStore = false := by decide
  refine ⟨by decide, by decide, by decide, by decide, hd, ?_⟩
  rintro ⟨r, sent, h, _⟩
  simp [OnlineSingleQueryChecked, hd] at h

/-- C3 (as amended). One round-trip per query: for every hint store and every
`x` on which the call is defined (`chunk_size` is not 0 and every vector
subscript of the call is in range), on every path of `OnlineSingleQuery` (cache
hit, no hit set with or without a local-miss record, out of replacements,
normal hit with or without refresh) the call returns and its transport log is
exactly one `SetParityQuery` send followed by one `SetParityResponse` receive,
and the list sent has exactly `S` indices; the same holds for `SendDummySet`
when its divisions are defined.  The call is defined, with that log, in every
state of a session (`FetchFullDB` with `T ≥ 1` workers on a freshly initialised
store with `M2 * S` backup sets, then any sequence of calls for indices
`< C*S`) and for every `x < C*S`. -/
theorem one_round_trip_per_query (p : Params) (prf : Nat → Nat → Nat) (chunks : Nat → List Nat)
    (rnd0 : Nat → Nat → Nat) (calls : List Call) (resp : List Nat → List Nat) (rnd : Nat → Nat)
    (x : Nat) (st : HintStore) :
    (OnlineSingleQueryDefined p prf x st = true →
      ∃ r sent, OnlineSingleQueryChecked p prf resp rnd x st = some r ∧
        r.2.2 = [Event.sendSetParityQuery sent, Event.recvSetParityResponse] ∧
        sent.length = p.set_size) ∧
    (SendDummySetDefined p = true →
      ∃ rand_set, SendDummySet p rnd =
          [Event.sendSetParityQuery rand_set, Event.recvSetParityResponse] ∧
        rand_set.length = p.set_size) ∧
    (0 < p.thread_num →
      p.total_backup_set_num = p.backup_set_num_per_chunk * p.set_size →
      (∀ c ∈ calls, c.x < p.chunk_size * p.set_size) →
      x < p.chunk_size * p.set_size →
      ∃ r sent, OnlineSingleQueryChecked p prf resp rnd x (OnlineMultipleQueries p prf calls
            (FetchFullDB p prf chunks rnd0 (InitializeLocalSets p))).2.1 = some r ∧
        r.2.2 = [Event.sendSetParityQuery sent, Event.recvSetParityResponse] ∧
        sent.length = p.set_size) := by
  have hd : ∃ rand_set, SendDummySet p rnd =
        [Event.sendSetParityQuery rand_set, Event.recvSetParityResponse] ∧
      rand_set.length = p.set_size := ⟨dummySet p rnd, rfl, dummySet_length p rnd⟩
  have hlog : ∀ st : HintStore, ∃ sent, (OnlineSingleQuery p prf resp rnd x st).2.2 =
        [Event.sendSetParityQuery sent, Event.recvSetParityResponse] ∧
      sent.length = p.set_size := by
    intro st
    have hl : ∀ h, (sentSet p prf st x h).length = p.set_size := by
      intro h
      simp [sentSet, expandProgrammed_length]
    apply OnlineSingleQuery_cases p prf resp rnd x st
      (fun r => ∃ sent, r.2.2 = [Event.sendSetParityQuery sent, Event.recvSetParityResponse] ∧
        sent.length = p.set_size)
    · intro _ _; exact hd
    · intro _ _ _; exact hd
    · intro _ _ _ _; exact hd
    · intro _ _ _ _; exact hd
    · intro h _ _ _ _; exact ⟨_, rfl, hl h⟩
    · intro h _ _ _ _; exact ⟨_, rfl, hl h⟩
  have hgen : ∀ st : HintStore, OnlineSingleQueryDefined p prf x st = true →
      ∃ r sent, OnlineSingleQueryChecked p prf resp rnd x st = some r ∧
        r.2.2 = [Event.sendSetParityQuery sent, Event.recvSetParityResponse] ∧
        sent.length = p.set_size := by
    intro st hdef
    obtain ⟨sent, h1, h2⟩ := hlog st
    refine ⟨OnlineSingleQuery p prf resp rnd x st, sent, ?_, h1, h2⟩
    simp only [OnlineSingleQueryChecked, hdef, if_true]
  refine ⟨hgen st, fun _ => hd, ?_⟩
  intro hT htot hcalls hx
  exact hgen _ (WellFormed_defined p prf x _ htot hx
    (WellFormed_session p prf chunks rnd0 calls hT hcalls))

theorem one_round_trip_per_query_witness :
    (OnlineSingleQueryDefined exParams exPrf 0 exStore = true ∧
      ∃ r sent, OnlineSingleQueryChecked exParams exPrf (exCall 0).resp (exCall 0).rnd 0 exStore =
          some r ∧
        r.2.2 = [Event.sendSetParityQuery sent, Event.recvSetParityResponse] ∧
        sent.length = exParams.set_size) ∧
    ((0 < exParams.thread_num ∧
      exParams.total_backup_set_num = exParams.backup_set_num_per_chunk * exParams.set_size ∧
      (∀ c ∈ [exCall 0], c.x < exParams.chunk_size * exParams.set_size) ∧
      3 < exParams.chunk_size * exParams.set_size) ∧
      ∃ r sent, OnlineSingleQueryChecked exParams exPrf (exCall 3).resp (exCall 3).rnd 3
          (OnlineMultipleQueries exParams exPrf [exCall 0]
            (FetchFullDB exParams exPrf exChunks (fun _ _ => 0)
              (InitializeLocalSets exParams))).2.1 = some r ∧
        r.2.2 = [Event.sendSetParityQuery sent, Event.recvSetParityResponse] ∧
        sent.length = exParams.set_size) :=
  have hc : ∀ c ∈ [exCall 0], c.x < exParams.chunk_size * exParams.set_size := by
    intro c hc
    rw [List.mem_singleton] at hc
    subst hc
    decide
  ⟨⟨by decide,
    (one_round_trip_per_query exParams exPrf exChunks (fun _ _ => 0) [] (exCall 0).resp
      (exCall 0).rnd 0 exStore).1 (by decide)⟩,
   ⟨by decide, by decide, hc, by decide⟩,
   (one_round_trip_per_query exParams exPrf exChunks (fun _ _ => 0) [exCall 0] (exCall 3).resp
      (exCall 3).rnd 3 exStore).2.2 (by decide) (by decide) hc (by decide)⟩

/-! ## The shape of the sets on the wire, in 64-bit arithmetic -/

/-- C14. Wire set shape: in every state of a session (`FetchFullDB` with
`T ≥ 1` workers on a freshly initialised store with `M2 * S` backup sets, then
any sequence of calls for indices `< C*S`), when `C*S ≤ 2^64`, so that every
index of the database is a `uint64_t` and no index computation wraps, and for
every `x < C*S`, the call `OnlineSingleQuery x` is defined and the index list it
sends, real or dummy, and the one sent by `SendDummySet` have `S` elements, one
per chunk: the `i`-th element lies in `[i*C, (i+1)*C)` for every `i` in
`[0, S)`, hence every index sent is `< C*S`.  This covers a programmed hit set
and the element of chunk `x / C` replaced by the replacement index. -/
theorem wire_set_shape (p : Params) (prf : Nat → Nat → Nat) (chunks : Nat → List Nat)
    (rnd0 : Nat → Nat → Nat) (calls : List Call) (resp : List Nat → List Nat) (rnd : Nat → Nat)
    (x : Nat) (hT : 0 < p.thread_num)
    (htot : p.total_backup_set_num = p.backup_set_num_per_chunk * p.set_size)
    (hfit : p.chunk_size * p.set_size ≤ 2 ^ 64)
    (hcalls : ∀ c ∈ calls, c.x < p.chunk_size * p.set_size)
    (hx : x < p.chunk_size * p.set_size) :
    (∃ r sent, OnlineSingleQueryChecked p prf resp rnd x (OnlineMultipleQueries p prf calls
          (FetchFullDB p prf chunks rnd0 (InitializeLocalSets p))).2.1 = some r ∧
      r.2.2 = [Event.sendSetParityQuery sent, Event.recvSetParityResponse] ∧
      sent.length = p.set_size ∧
      ∀ i, i < p.set_size →
        i * p.chunk_size ≤ sent.getD i 0 ∧ sent.getD i 0 < (i + 1) * p.chunk_size ∧
        sent.getD i 0 < p.chunk_size * p.set_size ∧ sent.getD i 0 < 2 ^ 64) ∧
    (SendDummySet p rnd =
        [Event.sendSetParityQuery (dummySet p rnd), Event.recvSetParityResponse] ∧
      (dummySet p rnd).length = p.set_size ∧
      ∀ i, i < p.set_size →
        i * p.chunk_size ≤ (dummySet p rnd).getD i 0 ∧
        (dummySet p rnd).getD i 0 < (i + 1) * p.chunk_size ∧
        (dummySet p rnd).getD i 0 < p.chunk_size * p.set_size ∧
        (dummySet p rnd).getD i 0 < 2 ^ 64) := by
  have hC : 0 < p.chunk_size := by
    rcases Nat.eq_zero_or_pos p.chunk_size with h0 | h0
    · rw [h0, Nat.zero_mul] at hx; exact absurd hx (Nat.not_lt_zero _)
    · exact h0
  have hg := chunk_id_lt _ _ _ hx
  have hdummy : ∀ i, i < p.set_size →
      i * p.chunk_size ≤ (dummySet p rnd).getD i 0 ∧
      (dummySet p rnd).getD i 0 < (i + 1) * p.chunk_size ∧
      (dummySet p rnd).getD i 0 < p.chunk_size * p.set_size ∧
      (dummySet p rnd).getD i 0 < 2 ^ 64 := by
    intro i hi
    have h := (dummySet_shape p rnd hC hfit i hi).2
    have hlt := in_chunk_lt _ _ i _ hi h.2
    exact ⟨h.1, h.2, hlt, Nat.lt_of_lt_of_le hlt hfit⟩
  have hd : ∃ sent, SendDummySet p rnd =
        [Event.sendSetParityQuery sent, Event.recvSetParityResponse] ∧
      sent.length = p.set_size ∧
      ∀ i, i < p.set_size →
        i * p.chunk_size ≤ sent.getD i 0 ∧ sent.getD i 0 < (i + 1) * p.chunk_size ∧
        sent.getD i 0 < p.chunk_size * p.set_size ∧ sent.getD i 0 < 2 ^ 64 :=
    ⟨dummySet p rnd, rfl, dummySet_length p rnd, hdummy⟩
  refine ⟨?_, rfl, dummySet_length p rnd, hdummy⟩
  have hinv := session_replacements p prf chunks rnd0 calls hC
  have hdef := WellFormed_defined p prf x _ htot hx
    (WellFormed_session p prf chunks rnd0 calls hT hcalls)
  generalize (OnlineMultipleQueries p prf calls
    (FetchFullDB p prf chunks rnd0 (InitializeLocalSets p))).2.1 = st at hinv hdef ⊢
  have hreal : ∀ h, (st.local_replacement_groups.getD (x / p.chunk_size) default).consumed ≠
        p.backup_set_num_per_chunk →
      ∃ sent, [Event.sendSetParityQuery (sentSet p prf st x h), Event.recvSetParityResponse] =
        [Event.sendSetParityQuery sent, Event.recvSetParityResponse] ∧
      sent.length = p.set_size ∧
      ∀ i, i < p.set_size →
        i * p.chunk_size ≤ sent.getD i 0 ∧ sent.getD i 0 < (i + 1) * p.chunk_size ∧
        sent.getD i 0 < p.chunk_size * p.set_size ∧ sent.getD i 0 < 2 ^ 64 := by
    intro h hr
    have hk : (st.local_replacement_groups.getD (x / p.chunk_size) default).consumed <
        p.backup_set_num_per_chunk := by
      have := hinv.1 (x / p.chunk_size)
      omega
    refine ⟨sentSet p prf st x h, rfl, by simp [sentSet, expandProgrammed_length], ?_⟩
    intro i hi
    have hs := sentSet_shape p prf st x h hC (hinv.2 _ _ hg hk) i hi
    have hlt := in_chunk_lt _ _ i _ hi hs.2
    exact ⟨hs.1, hs.2, hlt, Nat.lt_of_lt_of_le hlt hfit⟩
  have hlog : ∃ sent, (OnlineSingleQuery p prf resp rnd x st).2.2 =
        [Event.sendSetParityQuery sent, Event.recvSetParityResponse] ∧
      sent.length = p.set_size ∧
      ∀ i, i < p.set_size →
        i * p.chunk_size ≤ sent.getD i 0 ∧ sent.getD i 0 < (i + 1) * p.chunk_size ∧
        sent.getD i 0 < p.chunk_size * p.set_size ∧ sent.getD i 0 < 2 ^ 64 := by
    apply OnlineSingleQuery_cases p prf resp rnd x st
      (fun r => ∃ sent, r.2.2 = [Event.sendSetParityQuery sent, Event.recvSetParityResponse] ∧
        sent.length = p.set_size ∧
        ∀ i, i < p.set_size →
          i * p.chunk_size ≤ sent.getD i 0 ∧ sent.getD i 0 < (i + 1) * p.chunk_size ∧
          sent.getD i 0 < p.chunk_size * p.set_size ∧ sent.getD i 0 < 2 ^ 64)
    · intro _ _; exact hd
    · intro _ _ _; exact hd
    · intro _ _ _ _; exact hd
    · intro _ _ _ _; exact hd
    · intro h _ _ hr _; exact hreal h hr
    · intro h _ _ hr _; exact hreal h hr
  obtain ⟨sent, h1, h2, h3⟩ := hlog
  refine ⟨OnlineSingleQuery p prf resp rnd x st, sent, ?_, h1, h2, h3⟩
  simp only [OnlineSingleQueryChecked, hdef, if_true]

theorem wire_set_shape_witness :
    (0 < exParams.thread_num ∧
      exParams.total_backup_set_num = exParams.backup_set_num_per_chunk * exParams.set_size ∧
      exParams.chunk_size * exParams.set_size ≤ 2 ^ 64 ∧
      (∀ c ∈ [exCall 0], c.x < exParams.chunk_size * exParams.set_size) ∧
      3 < exParams.chunk_size * exParams.set_size) ∧
    ∃ r sent, OnlineSingleQueryChecked exParams exPrf (exCall 3).resp (exCall 3).rnd 3
        (OnlineMultipleQueries exParams exPrf [exCall 0]
          (FetchFullDB exParams exPrf exChunks (fun _ _ => 0)
            (InitializeLocalSets exParams))).2.1 = some r ∧
      r.2.2 = [Event.sendSetParityQuery sent, Event.recvSetParityResponse] ∧
      sent.length = exParams.set_size ∧
      ∀ i, i < exParams.set_size →
        i * exParams.chunk_size ≤ sent.getD i 0 ∧
        sent.getD i 0 < (i + 1) * exParams.chunk_size ∧
        sent.getD i 0 < exParams.chunk_size * exParams.set_size ∧ sent.getD i 0 < 2 ^ 64 :=
  have hc : ∀ c ∈ [exCall 0], c.x < exParams.chunk_size * exParams.set_size := by
    intro c hc
    rw [List.mem_singleton] at hc
    subst hc
    decide
  ⟨⟨by decide, by decide, by decide, hc, by decide⟩,
   (wire_set_shape exParams exPrf exChunks (fun _ _ => 0) [exCall 0] (exCall 3).resp
     (exCall 3).rnd 3 (by decide) (by decide) (by decide) hc (by decide)).1⟩

/-! ## The replacement groups, in 64-bit arithmetic -/

/-- C15. Replacement group contents: after `FetchFullDB` on a freshly
initialised store, when `C*S ≤ 2^64`, so that every index of the database is a
`uint64_t`, for every chunk `g` in `[0, S)` and every slot `k` in `[0, M2)`,
`local_replacement_groups[g].indices[k]` is the 64-bit value
`(prg() & (C-1)) + g*C` of line 182, which does not wrap and lies in
`[g*C, (g+1)*C)`, `local_replacement_groups[g].values[k]` equals
`DB[indices[k]]`, the `E` bytes at that offset of chunk `g`, and `consumed` is
still 0. -/
theorem replacement_group_contents (p : Params) (prf : Nat → Nat → Nat)
    (chunks : Nat → List Nat) (rnd : Nat → Nat → Nat) (g k : Nat) (hC : 0 < p.chunk_size)
    (hfit : p.chunk_size * p.set_size ≤ 2 ^ 64)
    (hg : g < p.set_size) (hk : k < p.backup_set_num_per_chunk) :
    ((FetchFullDB p prf chunks rnd (InitializeLocalSets p)).local_replacement_groups.getD g
        default).indices.getD k 0 =
      u64 (u64 (rnd g k &&& u64 (p.chunk_size + (2 ^ 64 - 1))) + u64 (g * p.chunk_size)) ∧
    (g * p.chunk_size ≤
        ((FetchFullDB p prf chunks rnd (InitializeLocalSets p)).local_replacement_groups.getD g
          default).indices.getD k 0 ∧
      ((FetchFullDB p prf chunks rnd (InitializeLocalSets p)).local_replacement_groups.getD g
          default).indices.getD k 0 < (g + 1) * p.chunk_size) ∧
    ((FetchFullDB p prf chunks rnd (InitializeLocalSets p)).local_replacement_groups.getD g
        default).values.getD k [] =
      DB p chunks
        (((FetchFullDB p prf chunks rnd (InitializeLocalSets p)).local_replacement_groups.getD g
          default).indices.getD k 0) ∧
    ((FetchFullDB p prf chunks rnd (InitializeLocalSets p)).local_replacement_groups.getD g
        default).values.getD k [] =
      sliceAt (chunks g)
        ((((FetchFullDB p prf chunks rnd (InitializeLocalSets p)).local_replacement_groups.getD g
          default).indices.getD k 0 - g * p.chunk_size) * p.entry_size) p.entry_size ∧
    ((FetchFullDB p prf chunks rnd (InitializeLocalSets p)).local_replacement_groups.getD g
        default).consumed = 0 := by
  have h := FetchFullDB_replacement p prf chunks rnd g k hC hg hk
  have ho : rnd g k &&& (p.chunk_size - 1) < p.chunk_size := by
    have := @Nat.and_le_right (rnd g k) (p.chunk_size - 1)
    omega
  have hle : (g + 1) * p.chunk_size ≤ p.chunk_size * p.set_size := by
    rw [Nat.mul_comm p.chunk_size]
    exact Nat.mul_le_mul_right _ hg
  rw [Nat.succ_mul] at hle
  have hC64 : p.chunk_size ≤ 2 ^ 64 := by omega
  have h0 : u64 (p.chunk_size + (2 ^ 64 - 1)) = p.chunk_size - 1 := by
    unfold u64
    omega
  have h1 : u64 (g * p.chunk_size) = g * p.chunk_size := Nat.mod_eq_of_lt (by omega)
  have h2 : u64 (rnd g k &&& (p.chunk_size - 1)) = rnd g k &&& (p.chunk_size - 1) :=
    Nat.mod_eq_of_lt (by omega)
  have h3 : u64 ((rnd g k &&& (p.chunk_size - 1)) + g * p.chunk_size) =
      (rnd g k &&& (p.chunk_size - 1)) + g * p.chunk_size := Nat.mod_eq_of_lt (by omega)
  rw [h.2.1, h.2.2, h.1, Nat.succ_mul, h0, h2, h1, h3]
  refine ⟨rfl, ⟨by omega, by omega⟩, rfl, ?_, rfl⟩
  rw [DB_at p chunks _ g ho, Nat.add_sub_cancel]

theorem replacement_group_contents_witness :
    (0 < exParams.chunk_size ∧ exParams.chunk_size * exParams.set_size ≤ 2 ^ 64 ∧
      1 < exParams.set_size ∧ 1 < exParams.backup_set_num_per_chunk) ∧
    (exStore.local_replacement_groups.getD 1 default).values.getD 1 [] =
      DB exParams exChunks ((exStore.local_replacement_groups.getD 1 default).indices.getD 1 0) ∧
    (exStore.local_replacement_groups.getD 1 default).consumed = 0 :=
  have h := replacement_group_contents exParams exPrf exChunks (fun _ _ => 0) 1 1 (by decide)
    (by decide) (by decide) (by decide)
  ⟨by decide, h.2.2.1, h.2.2.2.2⟩


/-! ## The worker count and the hint store -/

/-- A count that the worker count divides is not padded. -/
theorem padToThreads_of_dvd (n T : Nat) (hT : 0 < T) (hn : n + T - 1 < 2 ^ 64) (hd : T ∣ n) :
    padToThreads n T = n := by
  have h := padToThreads_least n T hT hn
  exact Nat.le_antisymm (h.2.2.2 n hd (Nat.le_refl _)) h.2.2.1

/-- When the worker count divides both base counts, `Initialize` gives the set
counts it gives for one worker. -/
theorem Initialize_of_dvd (E T Q B C S : Nat) (hT : 0 < T) (hQ : Q + T - 1 < 2 ^ 64)
    (hB : B + T - 1 < 2 ^ 64) (hdQ : T ∣ Q) (hdB : T ∣ B) :
    Initialize E T Q B C S = { Initialize E 1 Q B C S with thread_num := T } := by
  have h1 := padToThreads_of_dvd Q T hT hQ hdQ
  have h2 := padToThreads_of_dvd B T hT hB hdB
  have h3 := padToThreads_of_dvd Q 1 Nat.one_pos (by omega) (Nat.one_dvd _)
  have h4 := padToThreads_of_dvd B 1 Nat.one_pos (by omega) (Nat.one_dvd _)
  simp only [Initialize, h1, h2, h3, h4]

/-- The function `InitializeLocalSets` does not read the worker count. -/
theorem InitializeLocalSets_thread_num (p : Params) (T : Nat) :
    InitializeLocalSets { p with thread_num := T } = InitializeLocalSets p := rfl

theorem FetchFullDB_thread_num (p : Params) (prf : Nat → Nat → Nat)
    (chunks : Nat → List Nat) (rnd : Nat → Nat → Nat) (st : HintStore) (T : Nat) (hT : 0 < T) :
    FetchFullDB { p with thread_num := T } prf chunks rnd st =
      FetchFullDB { p with thread_num := 1 } prf chunks rnd st := by
  unfold FetchFullDB
  have h : (fun st i => processChunk { p with thread_num := T } prf (chunks i) (rnd i) st i) =
      (fun st i => processChunk { p with thread_num := 1 } prf (chunks i) (rnd i) st i) := by
    funext st i
    exact processChunk_thread_num p prf (chunks i) (rnd i) st i T hT
  show (List.range p.set_size).foldl
      (fun st i => processChunk { p with thread_num := T } prf (chunks i) (rnd i) st i) st =
    (List.range p.set_size).foldl
      (fun st i => processChunk { p with thread_num := 1 } prf (chunks i) (rnd i) st i) st
  rw [h]

/-- C18, the counterexample. `Initialize` pads the two set counts to a multiple
of the worker count: from the base counts 2 and 1, with `C = S = 2`, one worker
gets 2 primary sets and 2 backup sets and three workers get 3 primary sets and
6 backup sets.  For the same long key, chunks and randomness, the hint store
that `FetchFullDB` leaves with three workers is not the one it leaves with one
worker. -/
theorem thread_count_independence_counterexample :
    (Initialize 1 1 2 1 2 2).primary_set_num = 2 ∧
    (Initialize 1 3 2 1 2 2).primary_set_num = 3 ∧
    (Initialize 1 1 2 1 2 2).total_backup_set_num = 2 ∧
    (Initialize 1 3 2 1 2 2).total_backup_set_num = 6 ∧
    (FetchFullDB (Initialize 1 1 2 1 2 2) exPrf exChunks (fun _ _ => 0)
      (InitializeLocalSets (Initialize 1 1 2 1 2 2))).primary_sets.length = 2 ∧
    (FetchFullDB (Initialize 1 3 2 1 2 2) exPrf exChunks (fun _ _ => 0)
      (InitializeLocalSets (Initialize 1 3 2 1 2 2))).primary_sets.length = 3 ∧
    FetchFullDB (Initialize 1 3 2 1 2 2) exPrf exChunks (fun _ _ => 0)
        (InitializeLocalSets (Initialize 1 3 2 1 2 2)) ≠
      FetchFullDB (Initialize 1 1 2 1 2 2) exPrf exChunks (fun _ _ => 0)
        (InitializeLocalSets (Initialize 1 1 2 1 2 2)) := by
  have h1 : (FetchFullDB (Initialize 1 1 2 1 2 2) exPrf exChunks (fun _ _ => 0)
      (InitializeLocalSets (Initialize 1 1 2 1 2 2))).primary_sets.length = 2 := by decide
  have h3 : (FetchFullDB (Initialize 1 3 2 1 2 2) exPrf exChunks (fun _ _ => 0)
      (InitializeLocalSets (Initialize 1 3 2 1 2 2))).primary_sets.length = 3 := by decide
  refine ⟨by decide, by decide, by decide, by decide, h1, h3, ?_⟩
  intro h
  rw [h, h1] at h3
  exact absurd h3 (by decide)

/-- C18 (as amended). Thread-count independence of preprocessing: for the same
long key, DB chunks, replacement randomness and set counts `M1` and `M2`,
`FetchFullDB` run with one worker leaves a hint store (primary parities, backup
parities, `local_miss_elements`, replacement groups) identical to the one left
by `FetchFullDB` run with any other worker count `T ≥ 1`, the workers being run
one after the other.  `Initialize` gives the same set counts for `T` workers and
for one worker when `T` divides both base counts, and then the two sessions
leave the same hint store.  The per-worker ranges
`[tid*ceil(M/T), min((tid+1)*ceil(M/T), M))` for `tid` in `[0, T)`, one after
the other, are the indices `0, 1, ..., M-1`: every primary and every backup
index is covered exactly once. -/
theorem thread_count_independence (p : Params) (prf : Nat → Nat → Nat)
    (chunks : Nat → List Nat) (rnd : Nat → Nat → Nat) (st : HintStore) (T M : Nat)
    (hT : 0 < T) :
    FetchFullDB { p with thread_num := T } prf chunks rnd st =
      FetchFullDB { p with thread_num := 1 } prf chunks rnd st ∧
    (∀ E Q B C S, Q + T - 1 < 2 ^ 64 → B + T - 1 < 2 ^ 64 → T ∣ Q → T ∣ B →
      (Initialize E T Q B C S).primary_set_num = (Initialize E 1 Q B C S).primary_set_num ∧
      (Initialize E T Q B C S).backup_set_num_per_chunk =
        (Initialize E 1 Q B C S).backup_set_num_per_chunk ∧
      FetchFullDB (Initialize E T Q B C S) prf chunks rnd
          (InitializeLocalSets (Initialize E T Q B C S)) =
        FetchFullDB (Initialize E 1 Q B C S) prf chunks rnd
          (InitializeLocalSets (Initialize E 1 Q B C S))) ∧
    (List.range T).flatMap
        (fun tid => loopRange (tid * ((M + T - 1) / T))
          (min (tid * ((M + T - 1) / T) + (M + T - 1) / T) M)) =
      List.range M := by
  refine ⟨FetchFullDB_thread_num p prf chunks rnd st T hT, ?_, worker_ranges_cover M T hT⟩
  intro E Q B C S hQ hB hdQ hdB
  have hI := Initialize_of_dvd E T Q B C S hT hQ hB hdQ hdB
  refine ⟨by rw [hI], by rw [hI], ?_⟩
  rw [hI, InitializeLocalSets_thread_num,
    FetchFullDB_thread_num (Initialize E 1 Q B C S) prf chunks rnd _ T hT]
  rfl

theorem thread_count_independence_witness :
    (0 < 3 ∧ 6 + 3 - 1 < 2 ^ 64 ∧ 3 + 3 - 1 < 2 ^ 64 ∧ 3 ∣ 6 ∧ 3 ∣ 3) ∧
    (FetchFullDB { exParams with thread_num := 3 } exPrf exChunks (fun _ _ => 0)
        (InitializeLocalSets exParams)).primary_sets =
      (FetchFullDB { exParams with thread_num := 1 } exPrf exChunks (fun _ _ => 0)
        (InitializeLocalSets exParams)).primary_sets ∧
    FetchFullDB (Initialize 1 3 6 3 2 2) exPrf exChunks (fun _ _ => 0)
        (InitializeLocalSets (Initialize 1 3 6 3 2 2)) =
      FetchFullDB (Initialize 1 1 6 3 2 2) exPrf exChunks (fun _ _ => 0)
        (InitializeLocalSets (Initialize 1 1 6 3 2 2)) ∧
    (List.range 3).flatMap
        (fun tid => loopRange (tid * ((4 + 3 - 1) / 3))
          (min (tid * ((4 + 3 - 1) / 3) + (4 + 3 - 1) / 3) 4)) =
      List.range 4 :=
  have h := thread_count_independence exParams exPrf exChunks (fun _ _ => 0)
    (InitializeLocalSets exParams) 3 4 (by decide)
  ⟨by decide, congrArg HintStore.primary_sets h.1,
   (h.2.1 1 6 3 2 2 (by decide) (by decide) (by decide) (by decide)).2.2, h.2.2⟩

end Piano
